import Mathlib

/-!
# Poxelcoll: convex polygon intersection and the pixel-perfect test

A shallow embedding of the geometry core of Poxelcoll (C++ sources under
`poxelcoll/geometry/convexccwpolygon` and `poxelcoll/DataTypes`), of the pixel
rasterizer (`poxelcoll/collision/pixelperfect`), of the matrices
(`poxelcoll/geometry/matrix`) and of the pairwise test
(`poxelcoll/collision/pairwise`).

Numbers. The source computes in `double`; the embedding computes in exact
arithmetic over `ℚ`.  The only irrational operation of the source is `sqrt`
inside `P::norm`.  A norm is kept as the rational under the root (`Root`), a
value divided by norms as a numerator together with the rational under the
root of the denominator (`Scaled`); the comparisons the source makes on such
values (`== 0.0`, `> 0.0`, `<`) are decided exactly on that representation.

Failure. A C++ `throw`, undefined behaviour (indexing outside a vector,
`front()` of an empty container, dereferencing a null pointer) and running
out of recursion fuel are the three `Fault`s of the `Run` monad.

Integers and library functions. An `int` is an unbounded integer.  `cos`,
`sin` and `M_PI` are parameters (`Trig`), so that what is proved about the
transformation matrices holds for every value they can take.
-/

namespace Poxelcoll

/-! ## Failure model -/

/-- The ways an embedded function can fail to return a value. -/
inductive Fault where
  | thrown
  | undefinedBehaviour
  | outOfFuel
deriving DecidableEq

/-- The outcome of running embedded source code. -/
inductive Run (α : Type) where
  | ok (a : α)
  | fault (f : Fault)
deriving DecidableEq

namespace Run

/-- Sequencing of embedded statements: the first fault aborts the rest. -/
def bind {α β : Type} (r : Run α) (k : α → Run β) : Run β :=
  match r with
  | ok a => k a
  | fault f => fault f

/-- The monad of embedded source code. -/
instance : Monad Run where
  pure := Run.ok
  bind := Run.bind

end Run

/-! ## `poxelcoll/DataTypes`: points, norms, bounding boxes -/

/-- The non-negative real `√sq`: what `sqrt` returns in `P::norm`. -/
structure Root where
  sq : ℚ
deriving DecidableEq

/-- The real `num / √den2` (with `0 < den2`): a value divided by norms. -/
structure Scaled where
  num : ℚ
  den2 : ℚ
deriving DecidableEq

namespace Root

/-- The test `r == 0.0`. -/
def isZero (r : Root) : Bool := decide (r.sq = 0)

/-- The test `r < s` on two norms: the root is monotone. -/
def lt (r s : Root) : Bool := decide (r.sq < s.sq)

end Root

namespace Scaled

/-- The result of `abs` on a floating-point value: the absolute value. -/
def abs (s : Scaled) : Scaled := ⟨|s.num|, s.den2⟩

/-- The test `s == 0.0`. -/
def isZero (s : Scaled) : Bool := decide (s.num = 0)

/-- The test `s > 0.0`. -/
def isPos (s : Scaled) : Bool := decide (0 < s.num)

/-- The test `s >= 0.0`. -/
def isNonneg (s : Scaled) : Bool := decide (0 ≤ s.num)

/-- The test `a < b`, that is `a.num / √a.den2 < b.num / √b.den2`, decided by
the signs of the numerators and a comparison of the squares. -/
def lt (a b : Scaled) : Bool :=
  if 0 ≤ a.num then
    decide (0 < b.num ∧ a.num ^ 2 * b.den2 < b.num ^ 2 * a.den2)
  else
    decide (0 ≤ b.num ∨ b.num ^ 2 * a.den2 < a.num ^ 2 * b.den2)

end Scaled

/-- A point with two coordinates; also used for vectors (class `P`). -/
structure P where
  x : ℚ
  y : ℚ
deriving DecidableEq

/-- A vector divided by a norm: `v / √den.sq` (the result of `P::divide` with a
norm, and of `P::normaUnsafe`). -/
structure ScaledP where
  v : P
  den : Root
deriving DecidableEq

namespace P

/-- Vector addition `P::plus`. -/
def plus (a b : P) : P := ⟨a.x + b.x, a.y + b.y⟩

/-- Vector subtraction `P::minus`. -/
def minus (a b : P) : P := ⟨a.x - b.x, a.y - b.y⟩

/-- Scaling `P::multi`. -/
def multi (a : P) (scale : ℚ) : P := ⟨a.x * scale, a.y * scale⟩

/-- Negation `P::unaryMinus`. -/
def unaryMinus (a : P) : P := ⟨-a.x, -a.y⟩

/-- Cross product `P::cross`. -/
def cross (a b : P) : ℚ := a.x * b.y - a.y * b.x

/-- Dot product `P::dot`. -/
def dot (a b : P) : ℚ := a.x * b.x + a.y * b.y

/-- Length `P::norm`, `sqrt(x * x + y * y)`. -/
def norm (a : P) : Root := ⟨a.x * a.x + a.y * a.y⟩

/-- Inverse scaling `P::divide` by a norm. -/
def divide (a : P) (inverseScale : Root) : ScaledP := ⟨a, inverseScale⟩

/-- Unsafe normalisation `P::normaUnsafe`. -/
def normaUnsafe (a : P) : ScaledP := ⟨a, a.norm⟩

/-- Coordinate-wise equality `P::equal`. -/
def equal (a b : P) : Bool := decide (a.x = b.x) && decide (a.y = b.y)

/-- The strict order of `P::Comparer`: by `x`, then by `y`. -/
def comparer (lhs rhs : P) : Bool :=
  decide (lhs.x < rhs.x) || (decide (lhs.x = rhs.x) && decide (lhs.y < rhs.y))

end P

namespace ScaledP

/-- Dot product of a normalised vector with a plain vector. -/
def dotP (a : ScaledP) (b : P) : Scaled := ⟨a.v.dot b, a.den.sq⟩

/-- Cross product of two normalised vectors. -/
def cross (a b : ScaledP) : Scaled := ⟨a.v.cross b.v, a.den.sq * b.den.sq⟩

/-- Dot product of two normalised vectors. -/
def dot (a b : ScaledP) : Scaled := ⟨a.v.dot b.v, a.den.sq * b.den.sq⟩

end ScaledP

/-- An axis-aligned bounding box (class `BoundingBox`). -/
structure BoundingBox where
  pMin : P
  pMax : P
deriving DecidableEq

/-- The inclusive four-inequality test `BoundingBox::intersects`. -/
def BoundingBox.intersects (self that : BoundingBox) : Bool :=
  decide (self.pMin.x ≤ that.pMax.x) && decide (that.pMin.x ≤ self.pMax.x)
    && decide (self.pMin.y ≤ that.pMax.y) && decide (that.pMin.y ≤ self.pMax.y)

/-! ## `convexccwpolygon/DataTypes`: the polygon variant -/

/-- The tag `ConvexCCWType`. -/
inductive ConvexCCWType where
  | EmptyT
  | PointT
  | LineT
  | PolygonT
deriving DecidableEq

/-- The variant `ConvexCCWPolygon` with its four classes `Empty`, `Point`,
`Line` and `Polygon`. -/
inductive ConvexCCWPolygon where
  | Empty
  | Point (myPoint : P)
  | Line (myP1 myP2 : P)
  | Polygon (myP1 myP2 myP3 : P) (myRest : List P)
deriving DecidableEq

namespace ConvexCCWPolygon

/-- The tag `getType()`. -/
def getType : ConvexCCWPolygon → ConvexCCWType
  | Empty => .EmptyT
  | Point _ => .PointT
  | Line _ _ => .LineT
  | Polygon _ _ _ _ => .PolygonT

/-- The vertices `points()`. -/
def points : ConvexCCWPolygon → List P
  | Empty => []
  | Point p => [p]
  | Line p1 p2 => [p1, p2]
  | Polygon p1 p2 p3 rest => p1 :: p2 :: p3 :: rest

end ConvexCCWPolygon

/-- The checked constructor `Line::create`: equal end points give a `Point`. -/
def Line.create (p1 p2 : P) : ConvexCCWPolygon :=
  if p1.equal p2 then .Point p1 else .Line p1 p2

/-- The class `CollisionSegment`: two edge indices and a collision point. -/
structure CollisionSegment where
  index1 : Nat
  index2 : Nat
  collisionPoint : P
deriving DecidableEq

/-- The class template `Either`. -/
inductive Either (A B : Type) where
  | Left (left : A)
  | Right (right : B)
deriving DecidableEq

/-! ## Shared helpers -/

/-- Vector indexing `v[i]`; outside the vector it is undefined behaviour. -/
def idx {α : Type} (v : List α) (i : Nat) : Run α :=
  match v[i]? with
  | some p => .ok p
  | none => .fault .undefinedBehaviour

/-- The circular successor `next`. -/
def next (a size : Nat) : Nat := (a + 1) % size

/-- The circular predecessor `prev`. -/
def prev (a size : Nat) : Nat := if a = 0 then size - 1 else a - 1

/-- The template `minDefault` of `Functional.hpp`. -/
def minDefault (collection : List ℚ) (defaultValue : ℚ) : ℚ :=
  match collection with
  | [] => defaultValue
  | first :: _ => collection.foldl (fun value i => if value > i then i else value) first

/-- The template `maxDefault` of `Functional.hpp`. -/
def maxDefault (collection : List ℚ) (defaultValue : ℚ) : ℚ :=
  match collection with
  | [] => defaultValue
  | first :: _ => collection.foldl (fun value i => if value < i then i else value) first

/-! ## `GeneralFunctions`: intersections of primitives -/

/-- The directed-edge intersector `GeneralFunctions::getCollisionDirectedLineSegment`:
the collision of the directed edges starting at `poly1Points[i1]` and
`poly2Points[i2]`, as a list of at most one collision segment. -/
def getCollisionDirectedLineSegment (i1 i2 : Nat) (poly1Points poly2Points : List P) :
    Run (List CollisionSegment) := do
  let size1 := poly1Points.length
  let size2 := poly2Points.length
  let p11 ← idx poly1Points i1
  let p12 ← idx poly1Points (next i1 size1)
  let p21 ← idx poly2Points i2
  let p22 ← idx poly2Points (next i2 size2)
  let l1 := p12.minus p11
  let l2 := p22.minus p21
  let denominator := l2.cross l1
  if denominator = 0 then
    let perpenL2 := (P.mk (-l2.y) l2.x).divide l2.norm
    let v3 := p21.minus p11
    let dist := (perpenL2.dotP v3).abs
    if dist.isZero then
      let u1 := if l1.x ≠ 0 then (p22.x - p11.x) / l1.x else (p22.y - p11.y) / l1.y
      let u2 := if l2.x ≠ 0 then (p12.x - p21.x) / l2.x else (p12.y - p21.y) / l2.y
      if (0 < u1 ∧ u1 ≤ 1) ∨ (0 < u2 ∧ u2 ≤ 1) then
        let crossHeadPoint :=
          if 0 < u1 ∧ u1 ≤ 1 then p11.plus (l1.multi u1) else p21.plus (l2.multi u2)
        pure [⟨i1, i2, crossHeadPoint⟩]
      else
        pure []
    else
      pure []
  else
    let u1 := (-p21.x * l2.y + p11.x * l2.y + (p21.y - p11.y) * l2.x) / denominator
    let u2 := (-p21.x * l1.y + p11.x * l1.y + (p21.y - p11.y) * l1.x) / denominator
    if 0 < u1 ∧ u1 ≤ 1 ∧ 0 < u2 ∧ u2 ≤ 1 then
      pure [⟨i1, i2, p11.plus (l1.multi u1)⟩]
    else
      pure []

/-- The comparator `sorterFunction` of `handleLineLine`: `a` sorts before `b`
when `a` is lexicographically greater. -/
def sorterFunction (a b : P) : Bool :=
  let f := a.x - b.x
  if f ≠ 0 then decide (f > 0)
  else
    let f2 := a.y - b.y
    if f2 ≠ 0 then decide (f2 > 0) else false

/-- The template `sortByToVector` (`std::stable_sort` under a comparator):
an element stays in front of every later element that does not sort before it. -/
def sortByToVector {α : Type} (collection : List α) (sortFunction : α → α → Bool) : List α :=
  collection.insertionSort (fun a b => sortFunction b a = false)

/-- The end of the collinear branch of `handleLineLine`: the variant built
from the end points `overlappingPoints2` that lie on the other segment. -/
def overlappingPointsResult (overlappingPoints2 : List P) : ConvexCCWPolygon :=
  let overLappingPointsSize := overlappingPoints2.length
  if overLappingPointsSize = 2 ∨ overLappingPointsSize = 3 ∨ overLappingPointsSize = 4 then
    let sortedOverlappingPoints := sortByToVector overlappingPoints2 sorterFunction
    match sortedOverlappingPoints.head?, sortedOverlappingPoints.getLast? with
    | some first, some last => Line.create first last
    | _, _ => .Empty
  else if overLappingPointsSize = 1 then
    match overlappingPoints2.head? with
    | some front => .Point front
    | none => .Empty
  else
    .Empty

/-- The undirected intersector `GeneralFunctions::handleLineLine` of the
segments `p11 p12` and `p21 p22`. -/
def handleLineLine (p11 p12 p21 p22 : P) : ConvexCCWPolygon :=
  let l1 := p12.minus p11
  let l2 := p22.minus p21
  let denominator := l2.cross l1
  if denominator = 0 then
    let perpenL2 := (P.mk (-l2.y) l2.x).divide l2.norm
    let v3 := p21.minus p11
    let dist := (perpenL2.dotP v3).abs
    if dist.isZero then
      let u11u12 : ℚ × ℚ :=
        if l1.x ≠ 0 then ((p21.x - p11.x) / l1.x, (p22.x - p11.x) / l1.x)
        else ((p21.y - p11.y) / l1.y, (p22.y - p11.y) / l1.y)
      let u11 := u11u12.1
      let u12 := u11u12.2
      let u21u22 : ℚ × ℚ :=
        if l2.x ≠ 0 then ((p11.x - p21.x) / l2.x, (p12.x - p21.x) / l2.x)
        else ((p11.y - p21.y) / l2.y, (p12.y - p21.y) / l2.y)
      let u21 := u21u22.1
      let u22 := u21u22.2
      let pointsRelative : List (ℚ × P) := [(u11, p21), (u12, p22), (u21, p11), (u22, p12)]
      let overlappingPoints1 :=
        pointsRelative.filter (fun partPoint => decide (0 ≤ partPoint.1 ∧ partPoint.1 ≤ 1))
      let overlappingPoints2 := overlappingPoints1.map (fun partPoint => partPoint.2)
      overlappingPointsResult overlappingPoints2
    else
      .Empty
  else
    let u1 := (-p21.x * l2.y + p11.x * l2.y + (p21.y - p11.y) * l2.x) / denominator
    let u2 := (-p21.x * l1.y + p11.x * l1.y + (p21.y - p11.y) * l1.x) / denominator
    if 0 ≤ u1 ∧ u1 ≤ 1 ∧ 0 ≤ u2 ∧ u2 ≤ 1 then
      .Point (p11.plus (l1.multi u1))
    else
      .Empty

/-- The point-on-segment test `GeneralFunctions::handlePointLine` for the
point `point` and the line with end points `lineP1`, `lineP2`.  The parameter
`u` is written in the source as `(p21.gX() - p11.gX() / v1.gX())`: the division
binds tighter than the subtraction. -/
def handlePointLine (point lineP1 lineP2 : P) : ConvexCCWPolygon :=
  let p11 := lineP1
  let p12 := lineP2
  let p21 := point
  let v1 := p12.minus p11
  let v2 := p21.minus p11
  if v1.cross v2 = 0 then
    let u := if v1.x ≠ 0 then p21.x - p11.x / v1.x else p21.y - p11.y / v1.y
    if 0 ≤ u ∧ u ≤ 1 then .Point point else .Empty
  else
    .Empty

/-! ## `CollisionSegmentsFinder`: rotating callipers -/

/-- The relative direction `Dir` of the second calliper to the first. -/
inductive Dir where
  | LeftDir
  | RightDir
  | SameDir
deriving DecidableEq

/-- The walk `CrossLeftFinder::getCrossLeftInner`: polygon 1 is followed
forwards and polygon 2 backwards until the cross is straddled, then the
directed edges are probed.  The result `none` is the null pointer of the
source.  `fuel` bounds the number of recursive calls. -/
def getCrossLeftInner (s1 s2 : Nat) (p1Points p2Points : List P)
    (getColli : Nat → Nat → Run (List CollisionSegment)) :
    Nat → Nat → Nat → Run (Option (List CollisionSegment))
  | 0, _, _ => .fault .outOfFuel
  | fuel + 1, i1, i2 => do
    let p11 ← idx p1Points i1
    let p12 ← idx p1Points (next i1 s1)
    let p21 ← idx p2Points i2
    let p22 ← idx p2Points (prev i2 s2)
    let v1 := p12.minus p11
    let v2 := p22.minus p21
    if v1.cross v2 ≥ 0 then
      let v21 := p12.minus p21
      if v2.cross v21 > 0 then
        getCrossLeftInner s1 s2 p1Points p2Points getColli fuel (next i1 s1) i2
      else
        let v12 := p22.minus p11
        if v1.cross v12 < 0 then
          getCrossLeftInner s1 s2 p1Points p2Points getColli fuel i1 (prev i2 s2)
        else
          let i22 := prev i2 s2
          let collisionSegments ← getColli i1 i22
          if collisionSegments.isEmpty then
            let i23 := prev i22 s2
            let collisionSegments2 ← getColli i1 i23
            if collisionSegments2.isEmpty then pure none else pure (some collisionSegments2)
          else
            pure (some collisionSegments)
    else
      pure none

/-- The state of a `CollisionSegmentsFinder`: both point vectors and the
origin indices of the walk. -/
structure CollisionSegmentsFinder where
  poly1Points : List P
  poly2Points : List P
  originIndex1 : Nat
  originIndex2 : Nat

namespace CollisionSegmentsFinder

/-- The member `size1`. -/
def size1 (self : CollisionSegmentsFinder) : Nat := self.poly1Points.length

/-- The member `size2`. -/
def size2 (self : CollisionSegmentsFinder) : Nat := self.poly2Points.length

/-- The calliper advance `findComingIndex`. -/
def findComingIndex (self : CollisionSegmentsFinder) (i1 i2 : Nat) : Run (Nat × Nat) := do
  let nextI1 := next i1 self.size1
  let nextI2 := next i2 self.size2
  let p11 ← idx self.poly1Points i1
  let p12 ← idx self.poly1Points nextI1
  let p21 ← idx self.poly2Points i2
  let p22 ← idx self.poly2Points nextI2
  let v1 := p12.minus p11
  let v2 := p22.minus p21
  let v1v2Cross := v1.cross v2
  if v1v2Cross = 0 then pure (nextI1, nextI2)
  else if v1v2Cross > 0 then pure (nextI1, i2)
  else pure (i1, nextI2)

/-- The cross finder `getCrossNull`; the right-to-left case swaps the polygons. -/
def getCrossNull (self : CollisionSegmentsFinder) (fuel i1 i2 : Nat) (prevDir currentDir : Dir) :
    Run (Option (List CollisionSegment)) :=
  if prevDir = Dir.LeftDir ∧ (currentDir = Dir.RightDir ∨ currentDir = Dir.SameDir) then
    getCrossLeftInner self.size1 self.size2 self.poly1Points self.poly2Points
      (fun a b => getCollisionDirectedLineSegment a b self.poly1Points self.poly2Points)
      fuel i1 i2
  else if prevDir = Dir.RightDir ∧ (currentDir = Dir.LeftDir ∨ currentDir = Dir.SameDir) then
    getCrossLeftInner self.size2 self.size1 self.poly2Points self.poly1Points
      (fun a b => getCollisionDirectedLineSegment b a self.poly1Points self.poly2Points)
      fuel i2 i1
  else
    pure none

/-- The classification `findDir` of the callipers at `(i1, i2)`. -/
def findDir (self : CollisionSegmentsFinder) (i1 i2 : Nat) : Run Dir := do
  let nextI1 := next i1 self.size1
  let nextI2 := next i2 self.size2
  let p11 ← idx self.poly1Points i1
  let p12 ← idx self.poly1Points nextI1
  let p21 ← idx self.poly2Points i2
  let p22 ← idx self.poly2Points nextI2
  let v1 := p12.minus p11
  let v2 := p22.minus p21
  let v1CrossV2 := v1.cross v2
  if v1CrossV2 = 0 then
    let vChosen := v1
    let vPoint := p21.minus p11
    let vChosenCrossVPoint := vChosen.cross vPoint
    if vChosenCrossVPoint = 0 then pure Dir.SameDir
    else if vChosenCrossVPoint > 0 then pure Dir.LeftDir
    else pure Dir.RightDir
  else if v1CrossV2 > 0 then
    let vChosen := v1
    let vPoint := p21.minus p11
    let vChosenCrossVPoint := vChosen.cross vPoint
    if vChosenCrossVPoint = 0 then pure Dir.SameDir
    else if vChosenCrossVPoint > 0 then pure Dir.LeftDir
    else pure Dir.RightDir
  else
    let vChosen := v2
    let vPoint := p11.minus p21
    let vChosenCrossVPoint := vChosen.cross vPoint
    if vChosenCrossVPoint = 0 then pure Dir.SameDir
    else if vChosenCrossVPoint > 0 then pure Dir.RightDir
    else pure Dir.LeftDir

/-- The collision segments `newRes` that `findAllCollisionSegmentsNull` adds
when the callipers have the same direction and their edges overlap. -/
def newResCalc (self : CollisionSegmentsFinder) (i1 i2 : Nat) : Run (List CollisionSegment) := do
  let next1I1 := next i1 self.size1
  let next2I2 := next i2 self.size2
  let prevI1 := prev i1 self.size1
  let prevI2 := prev i2 self.size2
  let p11 ← idx self.poly1Points i1
  let p12 ← idx self.poly1Points next1I1
  let p21 ← idx self.poly2Points i2
  let p22 ← idx self.poly2Points next2I2
  let backs : List CollisionSegment :=
    if p11.equal p21 then []
    else
      let back1 : List CollisionSegment :=
        match handlePointLine p11 p21 p22 with
        | .Point p => [⟨prevI1, i2, p⟩]
        | _ => []
      let back2 : List CollisionSegment :=
        match handlePointLine p21 p11 p12 with
        | .Point p => [⟨i1, prevI2, p⟩]
        | _ => []
      back1 ++ back2
  let directed ← getCollisionDirectedLineSegment i1 i2 self.poly1Points self.poly2Points
  pure (backs ++ directed)

/-- The walk `findAllCollisionSegmentsNull`.  The result `none` is the null
pointer of the source (no intersection at all).  `fuel` bounds the number of
recursive calls of the walk and of each cross finder it starts. -/
def findAllCollisionSegmentsNull (self : CollisionSegmentsFinder) :
    Nat → Nat → Nat → Option Dir → List CollisionSegment → Run (Option (List CollisionSegment))
  | 0, _, _, _, _ => .fault .outOfFuel
  | fuel + 1, i1, i2, previousDirNull, prevRes => do
    let currentDir ← self.findDir i1 i2
    match previousDirNull with
    | none =>
      let (comingI1, comingI2) ← self.findComingIndex i1 i2
      findAllCollisionSegmentsNull self fuel comingI1 comingI2 (some currentDir) prevRes
    | some previousDir =>
      if currentDir = Dir.SameDir then
        let p11 ← idx self.poly1Points i1
        let p12 ← idx self.poly1Points (next i1 self.size1)
        let p21 ← idx self.poly2Points i2
        let p22 ← idx self.poly2Points (next i2 self.size2)
        let isOverlapping := decide (handleLineLine p11 p12 p21 p22 ≠ .Empty)
        if !isOverlapping then
          let crossNull ← self.getCrossNull fuel i1 i2 previousDir currentDir
          match crossNull with
          | none => pure none
          | some cross =>
            let res := prevRes ++ cross
            if i1 = self.originIndex1 ∧ i2 = self.originIndex2 then pure (some res)
            else
              let (comingI1, comingI2) ← self.findComingIndex i1 i2
              findAllCollisionSegmentsNull self fuel comingI1 comingI2 (some currentDir) res
        else
          let newRes ← self.newResCalc i1 i2
          let res := prevRes ++ newRes
          if i1 = self.originIndex1 ∧ i2 = self.originIndex2 then pure (some res)
          else
            let (comingI1, comingI2) ← self.findComingIndex i1 i2
            findAllCollisionSegmentsNull self fuel comingI1 comingI2 (some currentDir) res
      else if (previousDir = Dir.LeftDir ∧ currentDir = Dir.RightDir)
          ∨ (previousDir = Dir.RightDir ∧ currentDir = Dir.LeftDir) then
        let crossNull ← self.getCrossNull fuel i1 i2 previousDir currentDir
        match crossNull with
        | none => pure none
        | some cross =>
          let res := prevRes ++ cross
          if i1 = self.originIndex1 ∧ i2 = self.originIndex2 then pure (some res)
          else
            let (comingI1, comingI2) ← self.findComingIndex i1 i2
            findAllCollisionSegmentsNull self fuel comingI1 comingI2 (some currentDir) res
      else
        let res := prevRes
        if i1 = self.originIndex1 ∧ i2 = self.originIndex2 then pure (some res)
        else
          let (comingI1, comingI2) ← self.findComingIndex i1 i2
          findAllCollisionSegmentsNull self fuel comingI1 comingI2 (some currentDir) res

/-- The entry point `getCollisionSegmentsNull`. -/
def getCollisionSegmentsNull (self : CollisionSegmentsFinder) (fuel : Nat) :
    Run (Option (List CollisionSegment)) :=
  self.findAllCollisionSegmentsNull fuel self.originIndex1 self.originIndex2 none []

end CollisionSegmentsFinder

/-! ## `IntersectionFromCollisionSegments`: weaving the boundary -/

/-- The predicate `sameDir`: parallel with non-negative dot product. -/
def sameDir (v1 v2 : P) : Bool := decide (v1.cross v2 = 0) && decide (v1.dot v2 ≥ 0)

/-- The predicate `oppositeDir`: parallel with negative dot product. -/
def oppositeDir (v1 v2 : P) : Bool := decide (v1.cross v2 = 0) && decide (v1.dot v2 < 0)

/-- The `while` loop of `cwOrder` over the transformed vectors, each a pair
(cross, dot) with the normalised first vector. -/
def cwOrderLoop : List (Scaled × Scaled) → Bool
  | y1 :: y2 :: rest =>
    let y1_1 := y1.1
    let y2_1 := y2.1
    if y1_1.isZero then
      if y2_1.isZero then false
      else if y2_1.isPos then cwOrderLoop (y2 :: rest)
      else false
    else if y1_1.isPos then
      if y2_1.isZero then false
      else if y2_1.isPos then
        if y1.2.lt y2.2 then cwOrderLoop (y2 :: rest) else false
      else false
    else
      if y2_1.isZero then cwOrderLoop (y2 :: rest)
      else if y2_1.isPos then cwOrderLoop (y2 :: rest)
      else
        if y2.2.lt y1.2 then cwOrderLoop (y2 :: rest) else false
  | _ => true

/-- The clockwise-ordering oracle `cwOrder`. -/
def cwOrder (vs : List P) : Bool :=
  match vs with
  | [] => true
  | x :: xs =>
    let all := vs
    if all.any (fun a => a.norm.isZero) then false
    else
      let xNorma := x.normaUnsafe
      let transformed := xs.map (fun a =>
        let aNormaUnsafe := a.normaUnsafe
        (xNorma.cross aNormaUnsafe, xNorma.dot aNormaUnsafe))
      let checkResult := cwOrderLoop transformed
      let noDirectionOfX := transformed.all (fun a => !(a.1.isZero && a.2.isNonneg))
      checkResult && noDirectionOfX

/-- The loop of `pointInside` from index `i` on: `cross >= 0` at every edge. -/
def pointInsideLoop (points : List P) (nextFun : Nat → Nat) (point : P) : Nat → Nat → Run Bool
  | 0, _ => pure true
  | remaining + 1, i => do
    let nextI := nextFun i
    let p1 ← idx points i
    let p2 ← idx points nextI
    let v1 := p2.minus p1
    let v2 := point.minus p1
    if ¬ (v1.cross v2 ≥ 0) then pure false
    else pointInsideLoop points nextFun point remaining (i + 1)

/-- The containment test `pointInside`. -/
def pointInside (points : List P) (nextFun : Nat → Nat) (point : P) : Run Bool :=
  pointInsideLoop points nextFun point points.length 0

/-- The state of an `IntersectionFromCollisionSegments`. -/
structure IntersectionFromCollisionSegments where
  collisionSegments : List CollisionSegment
  poly1Points : List P
  poly2Points : List P

namespace IntersectionFromCollisionSegments

/-- The member `size1`. -/
def size1 (self : IntersectionFromCollisionSegments) : Nat := self.poly1Points.length

/-- The member `size2`. -/
def size2 (self : IntersectionFromCollisionSegments) : Nat := self.poly2Points.length

/-- The test `ahead` on two overlapping edges of the same direction. -/
def ahead (self : IntersectionFromCollisionSegments) (i1 i2 : Nat) : Run Bool := do
  let p11 ← idx self.poly1Points i1
  let p12 ← idx self.poly1Points (next i1 self.size1)
  let p22 ← idx self.poly2Points (next i2 self.size2)
  let v1 := p12.minus p11
  let v2 := p22.minus p12
  pure (decide (v1.dot v2 < 0))

/-- The step `newResCalc` of `F1` and `F2`: append `p` unless it equals the
last point of `res`. -/
def appendUnlessLast (res : List P) (p : P) : List P :=
  match res.getLast? with
  | some last => if last.equal p then res else res ++ [p]
  | none => [] ++ [p]

mutual

/-- The helper `F1`: follow polygon 1 until the index of the next collision
segment (or, without one, of the last segment) is reached. -/
def F1 (self : IntersectionFromCollisionSegments) :
    Nat → List CollisionSegment → List P → Nat → Nat → Option CollisionSegment → Run (List P)
  | 0, _, _, _, _, _ => .fault .outOfFuel
  | fuel + 1, collisionSegments, res, i1, i2, lastSegmentNull =>
    match collisionSegments with
    | x :: _ =>
      if x.index1 = i1 then
        constructIntersection self fuel collisionSegments res lastSegmentNull
      else do
        let nextI1 := next i1 self.size1
        let p12 ← idx self.poly1Points nextI1
        let newRes := appendUnlessLast res p12
        F1 self fuel collisionSegments newRes nextI1 i2 lastSegmentNull
    | [] =>
      match lastSegmentNull with
      | none => pure res
      | some last =>
        if last.index1 = i1 then pure res
        else do
          let nextI1 := next i1 self.size1
          let p12 ← idx self.poly1Points nextI1
          let newRes := appendUnlessLast res p12
          F1 self fuel collisionSegments newRes nextI1 i2 lastSegmentNull

/-- The helper `F2`: follow polygon 2 until the index of the next collision
segment (or, without one, of the last segment) is reached. -/
def F2 (self : IntersectionFromCollisionSegments) :
    Nat → List CollisionSegment → List P → Nat → Nat → Option CollisionSegment → Run (List P)
  | 0, _, _, _, _, _ => .fault .outOfFuel
  | fuel + 1, collisionSegments, res, i1, i2, lastSegmentNull =>
    match collisionSegments with
    | x :: _ =>
      if x.index2 = i2 then
        constructIntersection self fuel collisionSegments res lastSegmentNull
      else do
        let nextI2 := next i2 self.size2
        let p22 ← idx self.poly2Points nextI2
        let newRes := appendUnlessLast res p22
        F2 self fuel collisionSegments newRes i1 nextI2 lastSegmentNull
    | [] =>
      match lastSegmentNull with
      | none => pure res
      | some last =>
        if last.index2 = i2 then pure res
        else do
          let nextI2 := next i2 self.size2
          let p22 ← idx self.poly2Points nextI2
          let newRes := appendUnlessLast res p22
          F2 self fuel collisionSegments newRes i1 nextI2 lastSegmentNull

/-- The dispatcher `constructIntersection` at the first collision segment. -/
def constructIntersection (self : IntersectionFromCollisionSegments) :
    Nat → List CollisionSegment → List P → Option CollisionSegment → Run (List P)
  | 0, _, _, _ => .fault .outOfFuel
  | fuel + 1, collisionSegments, res, lastSegmentNull =>
    match collisionSegments with
    | [] => pure res
    | x :: xs => do
      let i1 := x.index1
      let nextI1 := next i1 self.size1
      let nextNextI1 := next nextI1 self.size1
      let i2 := x.index2
      let nextI2 := next i2 self.size2
      let nextNextI2 := next nextI2 self.size2
      let p11 ← idx self.poly1Points i1
      let p12 ← idx self.poly1Points nextI1
      let p13 ← idx self.poly1Points nextNextI1
      let p21 ← idx self.poly2Points i2
      let p22 ← idx self.poly2Points nextI2
      let p23 ← idx self.poly2Points nextNextI2
      let v11 := p12.minus p11
      let v12 := p13.minus p12
      let v21 := p22.minus p21
      let v22 := p23.minus p22
      if p12.equal p22 then
        if !sameDir v11 v21 then
          if cwOrder [v11.unaryMinus, v12, v21.unaryMinus]
              && cwOrder [v21.unaryMinus, v22, v11.unaryMinus] then
            pure ([] ++ [p12])
          else if cwOrder [v11.unaryMinus, v21.unaryMinus, v22, v12]
              || cwOrder [v11.unaryMinus, v22, v12, v21.unaryMinus] then
            F2 self fuel xs (res ++ [p12]) i1 i2 lastSegmentNull
          else if oppositeDir v11 v12 then
            pure (([] ++ [p12]) ++
              [if (p11.minus p12).norm.lt (p23.minus p12).norm then p11 else p23])
          else
            F1 self fuel xs (res ++ [p12]) i1 i2 lastSegmentNull
        else
          if cwOrder [v11.unaryMinus, v22, v12] then
            F2 self fuel xs (res ++ [p12]) i1 i2 lastSegmentNull
          else
            F1 self fuel xs (res ++ [p12]) i1 i2 lastSegmentNull
      else
        if oppositeDir v11 v21 then
          pure (([] ++ [if (p12.minus p11).norm.lt (p12.minus p22).norm then p11 else p22]) ++
            [if (p22.minus p21).norm.lt (p22.minus p12).norm then p21 else p12])
        else if sameDir v11 v21 then
          let isAhead ← self.ahead i1 i2
          if isAhead then
            F2 self fuel xs (res ++ [p22]) i1 i2 lastSegmentNull
          else
            F1 self fuel xs (res ++ [p12]) i1 i2 lastSegmentNull
        else
          let collisionPointsInfo ←
            getCollisionDirectedLineSegment i1 i2 self.poly1Points self.poly2Points
          match collisionPointsInfo.head? with
          | none => .fault .undefinedBehaviour
          | some front =>
            let collisionPoint := front.collisionPoint
            if ([p12, p22].any (fun p => p.equal collisionPoint)) = false then
              if v11.cross v21 > 0 then
                F2 self fuel xs (res ++ [collisionPoint]) i1 i2 lastSegmentNull
              else
                F1 self fuel xs (res ++ [collisionPoint]) i1 i2 lastSegmentNull
            else if p12.equal collisionPoint then
              if cwOrder [v21, v11.unaryMinus, v12, v21.unaryMinus] then
                pure ([] ++ [collisionPoint])
              else if cwOrder [v11.unaryMinus, v21, v12] then
                F2 self fuel xs (res ++ [collisionPoint]) i1 i2 lastSegmentNull
              else
                F1 self fuel xs (res ++ [collisionPoint]) i1 i2 lastSegmentNull
            else
              if cwOrder [v11, v21.unaryMinus, v22, v11.unaryMinus] then
                pure ([] ++ [collisionPoint])
              else if cwOrder [v21.unaryMinus, v11, v22] then
                F1 self fuel xs (res ++ [collisionPoint]) i1 i2 lastSegmentNull
              else
                F2 self fuel xs (res ++ [collisionPoint]) i1 i2 lastSegmentNull

end

/-- The conversion at the end of `getIntersectionFromCollisionSegments`: the
variant is chosen by the number of points alone. -/
def polygonOfPoints (intersectingPolygon : List P) : ConvexCCWPolygon :=
  match intersectingPolygon with
  | [] => .Empty
  | [p] => .Point p
  | [p1, p2] => Line.create p1 p2
  | p1 :: p2 :: p3 :: rest => .Polygon p1 p2 p3 rest

/-- The entry point `getIntersectionFromCollisionSegments`. -/
def getIntersectionFromCollisionSegments (self : IntersectionFromCollisionSegments) (fuel : Nat) :
    Run ConvexCCWPolygon := do
  let intersectingPolygon ←
    (match self.collisionSegments.head? with
    | none => do
      let front2 ← idx self.poly2Points 0
      let inside1 ← pointInside self.poly1Points (fun a => next a self.size1) front2
      if inside1 then pure self.poly2Points
      else
        let front1 ← idx self.poly1Points 0
        let inside2 ← pointInside self.poly2Points (fun a => next a self.size2) front1
        if inside2 then pure self.poly1Points
        else pure []
    | some front =>
      self.constructIntersection fuel self.collisionSegments [] (some front))
  pure (polygonOfPoints intersectingPolygon)

end IntersectionFromCollisionSegments

/-! ## `PolygonIntersection`: the driver -/

namespace PolygonIntersection

/-- The fold step `chooseLeftmostUpperPoint` on (point, index) pairs. -/
def chooseLeftmostUpperPoint (oldPointIndex newPointIndex : P × Nat) : P × Nat :=
  if newPointIndex.1.x > oldPointIndex.1.x
      ∨ (newPointIndex.1.x = oldPointIndex.1.x ∧ newPointIndex.1.y < oldPointIndex.1.y) then
    oldPointIndex
  else
    newPointIndex

/-- The exact bounding box `bBoxNonemptyPolygon`; it throws on an empty
point sequence. -/
def bBoxNonemptyPolygon (polyPoints : List P) : Run BoundingBox :=
  if polyPoints.length < 1 then .fault .thrown
  else
    let polyPointsX := polyPoints.map (fun p => p.x)
    let polyPointsY := polyPoints.map (fun p => p.y)
    let pMinX := minDefault polyPointsX 0
    let pMinY := minDefault polyPointsY 0
    let pMaxX := maxDefault polyPointsX 0
    let pMaxY := maxDefault polyPointsY 0
    pure ⟨⟨pMinX, pMinY⟩, ⟨pMaxX, pMaxY⟩⟩

/-- The copy of `goThroughPoly` that its own lambda captures by value, before
the assignment: an empty `std::function`, whose call throws
`std::bad_function_call`. -/
def goThroughPolyCaptured (_polys : List P) : Run Bool := .fault .thrown

/-- The lambda assigned to `goThroughPoly` in `handlePointPolygon`; its
recursive call goes to the captured copy. -/
def goThroughPoly (point : P) (polys : List P) : Run Bool :=
  match polys with
  | x1 :: x2 :: xs =>
    let v1 := x2.minus x1
    let v2 := point.minus x1
    if v1.cross v2 ≥ 0 then goThroughPolyCaptured (x2 :: xs) else pure false
  | _ => pure true

/-- The point-in-polygon case `handlePointPolygon`, for the point `point` and
the polygon with vertices `polyPoints` (first vertex `myP1`). -/
def handlePointPolygon (point : P) (polyPoints : List P) (myP1 : P) : Run ConvexCCWPolygon := do
  let polyPlusHead := polyPoints ++ [myP1]
  let inside ← goThroughPoly point polyPlusHead
  if inside then pure (.Point point) else pure .Empty

/-- The recursion `collideAll` of `handleLinePoly`.  The list passed on is
`prepend(x2, (*xs).tailNull())`, where `xs` is already the tail of the tail. -/
def collideAll (p11 p12 : P) : Nat → List P → List ConvexCCWPolygon → Run (List ConvexCCWPolygon)
  | 0, _, _ => .fault .outOfFuel
  | fuel + 1, polyList, res =>
    match polyList with
    | x1 :: x2 :: xs =>
      let p21 := x1
      let p22 := x2
      let collisionResult := handleLineLine p11 p12 p21 p22
      match collisionResult with
      | .Empty => collideAll p11 p12 fuel (x2 :: xs.tail) res
      | .Point pRes => collideAll p11 p12 fuel (x2 :: xs.tail) (res ++ [.Point pRes])
      | lineRes => pure ([] ++ [lineRes])
    | _ => pure res

/-- The contents of a `std::set<P, P::Comparer>` built from a list: ascending
in the order of `P::Comparer`, without duplicates. -/
def setOfList (ps : List P) : List P :=
  (ps.insertionSort (fun a b => P.comparer b a = false)).dedup

/-- The line-vs-polygon case `handleLinePoly`, for the line `p11 p12` and the
polygon with vertices `polyPoints` (first vertex `myP1`). -/
def handleLinePoly (p11 p12 : P) (polyPoints : List P) (myP1 : P) :
    Run (Either Bool ConvexCCWPolygon) := do
  let front ← idx polyPoints 0
  let polygonListPlusHead := polyPoints ++ [front]
  let part1 ← handlePointPolygon p11 polyPoints myP1
  let part2 ← handlePointPolygon p12 polyPoints myP1
  let insideEnds := [part1] ++ [part2]
  let collisions ← collideAll p11 p12 (polygonListPlusHead.length + 1) polygonListPlusHead []
  let finalResult : ConvexCCWPolygon :=
    match collisions with
    | [.Line a b] => .Line a b
    | _ =>
      let finalFinalRes1 := collisions ++ insideEnds
      let finalFinalResPs := finalFinalRes1.filterMap (fun poly =>
        match poly with
        | .Point p => some p
        | _ => none)
      let finalFinalResSet := setOfList finalFinalResPs
      match finalFinalResSet with
      | [] => .Empty
      | [p] => .Point p
      | first :: second :: _ => Line.create first second
  pure (.Right finalResult)

/-- The origin index of a polygon: `foldLeft` of `chooseLeftmostUpperPoint`
over the vertices zipped with their indices, from `(front, 0)`. -/
def originIndex (polyPoints : List P) : Run Nat := do
  let front ← idx polyPoints 0
  let zipped := polyPoints.zip (List.range polyPoints.length)
  let folded := zipped.foldl chooseLeftmostUpperPoint (front, 0)
  pure folded.2

/-- Dereferencing a possibly null pointer. -/
def deref {α : Type} (pointer : Option α) : Run α :=
  match pointer with
  | some a => pure a
  | none => .fault .undefinedBehaviour

/-- The lambda `boundingBoxesIntersectCalc` of `intersection`. -/
def boundingBoxesIntersectCalc (poly1 poly2 : ConvexCCWPolygon)
    (poly1ApproxBoundingBoxNull poly2ApproxBoundingBoxNull : Option BoundingBox) : Run Bool :=
  let poly1Points := poly1.points
  let poly2Points := poly2.points
  if poly1.getType = .EmptyT ∨ poly2.getType = .EmptyT then pure false
  else
    let poly1ApproxBoundingBoxNullIsNull := poly1ApproxBoundingBoxNull.isNone
    let poly2ApproxBoundingBoxNullIsNull := poly2ApproxBoundingBoxNull.isNone
    if poly1ApproxBoundingBoxNullIsNull && poly2ApproxBoundingBoxNullIsNull then do
      let box1 ← bBoxNonemptyPolygon poly1Points
      let box2 ← bBoxNonemptyPolygon poly2Points
      pure (box1.intersects box2)
    else if !poly1ApproxBoundingBoxNullIsNull then do
      let approx1 ← deref poly1ApproxBoundingBoxNull
      let boundingBox2 ← bBoxNonemptyPolygon poly2Points
      if approx1.intersects boundingBox2 then
        let box1 ← bBoxNonemptyPolygon poly1Points
        pure (box1.intersects boundingBox2)
      else pure false
    else if !poly2ApproxBoundingBoxNullIsNull then do
      let approx2 ← deref poly2ApproxBoundingBoxNull
      let boundingBox1 ← bBoxNonemptyPolygon poly1Points
      if boundingBox1.intersects approx2 then
        let box2 ← bBoxNonemptyPolygon poly2Points
        pure (boundingBox1.intersects box2)
      else pure false
    else do
      let approx1 ← deref poly1ApproxBoundingBoxNull
      let approx2 ← deref poly2ApproxBoundingBoxNull
      if approx1.intersects approx2 then
        let box1 ← bBoxNonemptyPolygon poly1Points
        let box2 ← bBoxNonemptyPolygon poly2Points
        pure (box1.intersects box2)
      else pure false

/-- The entry point `PolygonIntersection::intersection`.  `fuel` bounds the
recursion of the polygon-vs-polygon case (callipers walk and weaving). -/
def intersection (fuel : Nat) (poly1 poly2 : ConvexCCWPolygon) (_poly1Full _poly2Full : Bool)
    (poly1ApproxBoundingBoxNull poly2ApproxBoundingBoxNull : Option BoundingBox) :
    Run (Either Bool ConvexCCWPolygon) := do
  let poly1Points := poly1.points
  let poly2Points := poly2.points
  let boundingBoxesIntersect ←
    boundingBoxesIntersectCalc poly1 poly2 poly1ApproxBoundingBoxNull poly2ApproxBoundingBoxNull
  if !boundingBoxesIntersect then
    pure (.Left false)
  else
    match poly1, poly2 with
    | .Polygon _ _ _ _, .Polygon _ _ _ _ =>
      let originIndex1 ← originIndex poly1Points
      let originIndex2 ← originIndex poly2Points
      let collisionSegmentsFinder : CollisionSegmentsFinder :=
        ⟨poly1Points, poly2Points, originIndex1, originIndex2⟩
      let collisionSegmentsNull ← collisionSegmentsFinder.getCollisionSegmentsNull fuel
      match collisionSegmentsNull with
      | none => pure (.Right .Empty)
      | some collisionSegments =>
        let intersectionFinder : IntersectionFromCollisionSegments :=
          ⟨collisionSegments, poly1Points, poly2Points⟩
        let result ← intersectionFinder.getIntersectionFromCollisionSegments fuel
        pure (.Right result)
    | .Line p11 p12, .Polygon myP1 _ _ _ => handleLinePoly p11 p12 poly2Points myP1
    | .Polygon myP1 _ _ _, .Line p11 p12 => handleLinePoly p11 p12 poly1Points myP1
    | .Point point, .Polygon myP1 _ _ _ => do
      let result ← handlePointPolygon point poly2Points myP1
      pure (.Right result)
    | .Polygon myP1 _ _ _, .Point point => do
      let result ← handlePointPolygon point poly1Points myP1
      pure (.Right result)
    | .Line p11 p12, .Line p21 p22 => pure (.Right (handleLineLine p11 p12 p21 p22))
    | .Line lineP1 lineP2, .Point point => pure (.Right (handlePointLine point lineP1 lineP2))
    | .Point point, .Line lineP1 lineP2 => pure (.Right (handlePointLine point lineP1 lineP2))
    | .Point a, .Point b => if a.equal b then pure (.Right poly1) else pure (.Right .Empty)
    | _, _ => pure (.Right .Empty)

end PolygonIntersection

/-! ## `poxelcoll/DataTypes`: integer points and sets of them

The `int`s of the source are modelled as unbounded integers.  A
`std::set<IP, IP::Comparer>` is the ascending list of its elements, a
`std::map` with `int` keys the list of its entries in ascending key order. -/

/-- A point with two integer coordinates (class `IP`). -/
structure IP where
  x : Int
  y : Int
deriving DecidableEq

namespace IP

/-- The strict order of `IP::Comparer`: by `x`, then by `y`. -/
def comparer (lhs rhs : IP) : Bool :=
  decide (lhs.x < rhs.x) || (decide (lhs.x = rhs.x) && decide (lhs.y < rhs.y))

/-- Insertion of `p` into a `std::set<IP, IP::Comparer>`. -/
def setInsert (p : IP) : List IP → List IP
  | [] => [p]
  | q :: rest =>
    if comparer p q then p :: q :: rest
    else if comparer q p then q :: setInsert p rest
    else q :: rest

/-- The `std::set<IP, IP::Comparer>` that receives the elements of a
collection one after the other. -/
def setOfList (collection : List IP) : List IP :=
  collection.foldl (fun res p => setInsert p res) []

/-- The template `addAll` on two sets. -/
def setAddAll (collection1 collection2 : List IP) : List IP :=
  setOfList (collection1 ++ collection2)

end IP

/-! ## Middle point and translation of the polygon variant -/

namespace ConvexCCWPolygon

/-- The method `middlePoint()` of the three non-empty classes, with the value
each constructor stores.  The class `Empty` has no such method. -/
def middlePoint : ConvexCCWPolygon → Run P
  | Empty => .fault .undefinedBehaviour
  | Point myPoint => pure myPoint
  | Line myP1 myP2 => pure ⟨(myP1.x + myP2.y) / 2, (myP1.y + myP2.y) / 2⟩
  | Polygon p1 p2 p3 rest =>
    let pois := p1 :: p2 :: p3 :: rest
    let xValue := (pois.map (fun p => p.x)).foldl (fun sum i => sum + i) 0
    let yValue := (pois.map (fun p => p.y)).foldl (fun sum i => sum + i) 0
    let length : ℚ := pois.length
    pure ⟨xValue / length, yValue / length⟩

/-- The method `translate(p)`. -/
def translate (self : ConvexCCWPolygon) (p : P) : ConvexCCWPolygon :=
  match self with
  | Empty => Empty
  | Point myPoint => Point ⟨myPoint.x + p.x, myPoint.y + p.y⟩
  | Line myP1 myP2 => Line (myP1.plus p) (myP2.plus p)
  | Polygon myP1 myP2 myP3 myRest =>
    Polygon (myP1.plus p) (myP2.plus p) (myP3.plus p) (myRest.map (fun p1 => p.plus p1))

end ConvexCCWPolygon

/-! ## `PixelPerfect`: the pixel rasterizer -/

namespace PixelPerfect

/-- The `for` loop of the steep branch of `bresenhamsLine`, with `count`
iterations left. -/
def bresenhamsLoopSteep (deltax deltay ystep : Int) : Nat → Int → Int → Int → List IP
  | 0, _, _, _ => []
  | count + 1, x, y, error =>
    let returnValue : IP := ⟨y, x⟩
    let error1 := error - deltay
    if error1 < 0 then
      returnValue :: bresenhamsLoopSteep deltax deltay ystep count (x + 1) (y + ystep)
        (error1 + deltax)
    else
      returnValue :: bresenhamsLoopSteep deltax deltay ystep count (x + 1) y error1

/-- The `for` loop of the other branch of `bresenhamsLine`, with `count`
iterations left; here the source has `error -= deltax`. -/
def bresenhamsLoopFlat (deltax deltay ystep : Int) : Nat → Int → Int → Int → List IP
  | 0, _, _, _ => []
  | count + 1, x, y, error =>
    let returnValue : IP := ⟨x, y⟩
    let error1 := error - deltay
    if error1 < 0 then
      returnValue :: bresenhamsLoopFlat deltax deltay ystep count (x + 1) (y + ystep)
        (error1 - deltax)
    else
      returnValue :: bresenhamsLoopFlat deltax deltay ystep count (x + 1) y error1

/-- The line rasterizer `bresenhamsLine`. -/
def bresenhamsLine (start finish : IP) : List IP :=
  let steep := decide (|finish.y - start.y| > |finish.x - start.x|)
  let x_0 := if steep then start.y else start.x
  let y_0 := if steep then start.x else start.y
  let x_1 := if steep then finish.y else finish.x
  let y_1 := if steep then finish.x else finish.y
  let x0x1 := decide (x_0 > x_1)
  let x0 := if x0x1 then x_1 else x_0
  let x1 := if x0x1 then x_0 else x_1
  let y0 := if x0x1 then y_1 else y_0
  let y1 := if x0x1 then y_0 else y_1
  let deltax := x1 - x0
  let deltay := |y1 - y0|
  let ystep : Int := if y0 < y1 then 1 else -1
  let error := Int.tdiv deltax 2
  let y := y0
  if steep then
    bresenhamsLoopSteep deltax deltay ystep (x1 - x0 + 1).toNat x0 y error
  else
    bresenhamsLoopFlat deltax deltay ystep (x1 - x0 + 1).toNat x0 y error

/-- The helper `r`: `round` (to the nearest integer, halves away from zero)
followed by the conversion to `int`. -/
def r (a : ℚ) : Int := if 0 ≤ a then ⌊a + 1 / 2⌋ else -⌊-a + 1 / 2⌋

/-- The lambda `lineAboveMiddleCalc` of `lineToPoints`. -/
def lineAboveMiddleCalc (c1 c2 middle : P) : Int :=
  let x1 := c1.x
  let y1 := c1.y
  let x2 := c2.x
  let y2 := c2.y
  let xm := middle.x
  let ym := middle.y
  let xD := x2 - x1
  let yD := y2 - y1
  if xD ≠ 0 then
    let ym2 := (xm - x1) * yD / xD + y1
    if ym2 > ym then 1
    else if ym2 < ym then -1
    else 0
  else
    if x1 > xm then 1
    else if x1 < xm then -1
    else 0

/-- The edge rasterizer `lineToPoints`. -/
def lineToPoints (c1 c2 middle : P) : Run (List IP) := do
  let lineAboveMiddle := lineAboveMiddleCalc c1 c2 middle
  let x1 := r c1.x
  let y1 := r c1.y
  let x2 := r c2.x
  let y2 := r c2.y
  let points := IP.setOfList [⟨x1, y1⟩, ⟨x2, y2⟩]
  let xD := x2 - x1
  let yD := y2 - y1
  let line ←
    (if xD = 0 ∧ yD = 0 then
      pure [(⟨x1, y1⟩ : IP)]
    else if xD = 0 then
      pure (bresenhamsLine ⟨x1 + lineAboveMiddle, y1⟩ ⟨x2 + lineAboveMiddle, y2⟩)
    else if yD = 0 then
      pure (bresenhamsLine ⟨x1, y1 + lineAboveMiddle⟩ ⟨x2, y2 + lineAboveMiddle⟩)
    else if (xD > 0 ∧ yD > 0) ∨ (xD < 0 ∧ yD < 0) then
      pure (bresenhamsLine ⟨x1 - lineAboveMiddle, y1 + lineAboveMiddle⟩
        ⟨x2 - lineAboveMiddle, y2 + lineAboveMiddle⟩)
    else if (xD > 0 ∧ yD < 0) ∨ (xD < 0 ∧ yD > 0) then
      pure (bresenhamsLine ⟨x1 + lineAboveMiddle, y1 + lineAboveMiddle⟩
        ⟨x2 + lineAboveMiddle, y2 + lineAboveMiddle⟩)
    else
      (.fault .thrown : Run (List IP)))
  let lineSet := IP.setOfList line
  pure (IP.setAddAll points lineSet)

/-- The vertices that `findOutline` and `findOutlineStoppage` walk along: for
a `Polygon` the first vertex is added again at the end. -/
def polygonWithExtraEnd (convexHullPolygon : ConvexCCWPolygon) : List P :=
  match convexHullPolygon with
  | .Polygon p1 p2 p3 rest => (p1 :: p2 :: p3 :: rest) ++ [p1]
  | other => other.points

/-- The copy of `findOutline2` that its own lambda captures by value, before
the assignment: an empty `std::function`, whose call throws
`std::bad_function_call`. -/
def findOutline2Captured (_coordinates : List P) : Run (List IP) := .fault .thrown

/-- The lambda assigned to `findOutline2`; its recursive call goes to the
captured copy. -/
def findOutline2 (middlePoint : P) (coordinates : List P) : Run (List IP) :=
  match coordinates with
  | a :: b :: rest => do
    let first ← lineToPoints a b middlePoint
    let others ← findOutline2Captured (b :: rest)
    pure (IP.setAddAll first others)
  | [a] => lineToPoints a a middlePoint
  | [] => pure []

/-- The outline `findOutline` of a non-empty convex polygon. -/
def findOutline (convexHullPolygon : ConvexCCWPolygon) : Run (List IP) := do
  let middlePoint ← convexHullPolygon.middlePoint
  findOutline2 middlePoint (polygonWithExtraEnd convexHullPolygon)

/-- The copy of `findOutlineStoppage2` that its own lambda captures by value,
before the assignment: an empty `std::function`, whose call throws
`std::bad_function_call`. -/
def findOutlineStoppage2Captured (_coordinates : List P) :
    Run (Either (List (List IP)) Bool) := .fault .thrown

/-- The lambda assigned to `findOutlineStoppage2`; its recursive call goes to
the captured copy. -/
def findOutlineStoppage2 (middlePoint : P) (testFunction : IP → Bool) (coordinates : List P) :
    Run (Either (List (List IP)) Bool) :=
  match coordinates with
  | a :: b :: rest => do
    let linePoints ← lineToPoints a b middlePoint
    if linePoints.any testFunction then pure (.Right true)
    else
      let result ← findOutlineStoppage2Captured (b :: rest)
      match result with
      | .Left e => pure (.Left (linePoints :: e))
      | .Right bo => pure (.Right bo)
  | [a] => do
    let linePoints ← lineToPoints a a middlePoint
    if linePoints.any testFunction then pure (.Right true)
    else pure (.Left [linePoints])
  | [] => pure (.Left [])

/-- The outline with early exit `findOutlineStoppage`: `Right true` as soon as
the test function holds on an outline pixel, else `Left` with the outline. -/
def findOutlineStoppage (convexHullPolygon : ConvexCCWPolygon) (testFunction : IP → Bool) :
    Run (Either (List IP) Bool) := do
  let middlePoint ← convexHullPolygon.middlePoint
  let result ← findOutlineStoppage2 middlePoint testFunction
    (polygonWithExtraEnd convexHullPolygon)
  match result with
  | .Left left => pure (.Left (IP.setOfList left.flatten))
  | .Right bo => pure (.Right bo)

/-- The step of the template `groupBy` for the element `i` with key `value`:
a new group when the key is absent, else insertion into the found group. -/
def groupByInsert (value : Int) (i : IP) : List (Int × List IP) → List (Int × List IP)
  | [] => [(value, IP.setInsert i [])]
  | (key, group) :: rest =>
    if value < key then (value, IP.setInsert i []) :: (key, group) :: rest
    else if value = key then (key, IP.setInsert i group) :: rest
    else (key, group) :: groupByInsert value i rest

/-- The template `groupBy` on a set of pixels, grouped by `groupByFunction`. -/
def groupBy (collection : List IP) (groupByFunction : IP → Int) : List (Int × List IP) :=
  collection.foldl (fun resultMap i => groupByInsert (groupByFunction i) i resultMap) []

/-- The template `to` (a reserved word here, hence `to_`): from `beginning` to `ending` inclusive in steps of
`step`; it throws on a zero step. -/
def to_ (beginning ending step : Int) : Run (List Int) :=
  if step = 0 then .fault .thrown
  else if step > 0 then
    pure ((List.range ((ending - beginning) / step + 1).toNat).map
      (fun (k : Nat) => beginning + (k : Int) * step))
  else
    pure ((List.range ((beginning - ending) / (-step) + 1).toNat).map
      (fun (k : Nat) => beginning + (k : Int) * step))

/-- The lambda `transformSortFunction`: the sorted `x` values of a row. -/
def transformSortFunction (ab : Int × List IP) : Int × List Int :=
  let a := ab.1
  let xs := ab.2.map (fun ip => ip.x)
  let sortedXS := sortByToVector xs (fun a b => decide (a < b))
  (a, sortedXS)

/-- The rows `horizontalLines` of `fillOutline` and `fillOutlineStoppage`. -/
def horizontalLines (outline : List IP) : List (Int × List Int) :=
  (groupBy outline (fun ip => ip.y)).map transformSortFunction

/-- The lambda `finalTransform` of `fillOutline`. -/
def finalTransform (ab : Int × List Int) : Run (Int × List Int) :=
  let size := ab.2.length
  if size < 1 then .fault .thrown
  else if size = 1 then pure ab
  else
    match ab.2.head?, ab.2.getLast? with
    | some head, some last => do
      let range ← to_ head last 1
      pure (ab.1, range)
    | _, _ => .fault .undefinedBehaviour

/-- The template `map` with a function that can fail. -/
def mapRun {α β : Type} (transformationFunction : α → Run β) : List α → Run (List β)
  | [] => pure []
  | a :: rest => do
    let b ← transformationFunction a
    let others ← mapRun transformationFunction rest
    pure (b :: others)

/-- The template `exists` with a test function that can fail: it stops at the
first element on which the test holds. -/
def existsRun {α : Type} (testFunction : α → Run Bool) : List α → Run Bool
  | [] => pure false
  | a :: rest => do
    let found ← testFunction a
    if found then pure true else existsRun testFunction rest

/-- The span fill `fillOutline`: for every row of the outline the `x` values
from the least to the greatest. -/
def fillOutline (outline : List IP) : Run (List (Int × List Int)) :=
  mapRun finalTransform (horizontalLines outline)

/-- The lambda `testLine` of `fillOutlineStoppage`. -/
def testLine (testFunction : IP → Bool) (yXs : Int × List Int) : Run Bool :=
  let y := yXs.1
  match yXs.2.head?, yXs.2.getLast? with
  | some head, some last => do
    let range ← to_ head last 1
    pure (range.any (fun x => testFunction ⟨x, y⟩))
  | _, _ => .fault .undefinedBehaviour

/-- The span fill with early exit `fillOutlineStoppage`. -/
def fillOutlineStoppage (outline : List IP) (testFunction : IP → Bool) : Run Bool :=
  existsRun (testLine testFunction) (horizontalLines outline)

/-- The entry point `PixelPerfect::collisionTest`.  The translated polygon
`correctedPolygon` is used for the size test only. -/
def collisionTest (nonemptyConvexPolygon : ConvexCCWPolygon) (testFunction : IP → Bool) :
    Run Bool :=
  let correctedPolygon := nonemptyConvexPolygon.translate ⟨-1 / 2, -1 / 2⟩
  let size := correctedPolygon.points.length
  if size < 1 then pure false
  else do
    let outlineResult ← findOutlineStoppage nonemptyConvexPolygon testFunction
    match outlineResult with
    | .Right bo => pure bo
    | .Left outline => fillOutlineStoppage outline testFunction

end PixelPerfect

/-! ## `geometry/matrix`: matrices and transformations -/

/-- A point with three coordinates (class `P3`). -/
structure P3 where
  x : ℚ
  y : ℚ
  z : ℚ
deriving DecidableEq

/-- The 3-by-3 matrix of class `Matrix`: the nine entries of `data`, row by
row. -/
structure Matrix where
  d0 : ℚ
  d1 : ℚ
  d2 : ℚ
  d3 : ℚ
  d4 : ℚ
  d5 : ℚ
  d6 : ℚ
  d7 : ℚ
  d8 : ℚ
deriving DecidableEq

namespace Matrix

/-- The local `det` that `inverseNull` and `hasInverse` compute alike. -/
def det (self : Matrix) : ℚ :=
  let a := self.d0
  let b := self.d1
  let c := self.d2
  let d := self.d3
  let e := self.d4
  let f := self.d5
  let g := self.d6
  let h := self.d7
  let k := self.d8
  a * (e * k - f * h) + b * (f * g - k * d) + c * (d * h - e * g)

/-- The product `Matrix::matrixMult`. -/
def matrixMult (self that : Matrix) : Matrix :=
  { d0 := self.d0 * that.d0 + self.d1 * that.d3 + self.d2 * that.d6
    d1 := self.d0 * that.d1 + self.d1 * that.d4 + self.d2 * that.d7
    d2 := self.d0 * that.d2 + self.d1 * that.d5 + self.d2 * that.d8
    d3 := self.d3 * that.d0 + self.d4 * that.d3 + self.d5 * that.d6
    d4 := self.d3 * that.d1 + self.d4 * that.d4 + self.d5 * that.d7
    d5 := self.d3 * that.d2 + self.d4 * that.d5 + self.d5 * that.d8
    d6 := self.d6 * that.d0 + self.d7 * that.d3 + self.d8 * that.d6
    d7 := self.d6 * that.d1 + self.d7 * that.d4 + self.d8 * that.d7
    d8 := self.d6 * that.d2 + self.d7 * that.d5 + self.d8 * that.d8 }

/-- The product `Matrix::vectorMult` with a column vector. -/
def vectorMult (self : Matrix) (p : P3) : P3 :=
  ⟨self.d0 * p.x + self.d1 * p.y + self.d2 * p.z,
   self.d3 * p.x + self.d4 * p.y + self.d5 * p.z,
   self.d6 * p.x + self.d7 * p.y + self.d8 * p.z⟩

/-- The lambda `tra` of `transformPoints`. -/
def tra (self : Matrix) (p : P) : P :=
  ⟨self.d0 * p.x + self.d1 * p.y + self.d2, self.d3 * p.x + self.d4 * p.y + self.d5⟩

/-- The method `Matrix::transformPoints`. -/
def transformPoints (self : Matrix) (points : List P) : List P := points.map self.tra

/-- The method `Matrix::inverseNull`: the inverse, or null when the
determinant is zero. -/
def inverseNull (self : Matrix) : Option Matrix :=
  let a := self.d0
  let b := self.d1
  let c := self.d2
  let d := self.d3
  let e := self.d4
  let f := self.d5
  let g := self.d6
  let h := self.d7
  let k := self.d8
  let det := a * (e * k - f * h) + b * (f * g - k * d) + c * (d * h - e * g)
  if det ≠ 0 then
    let a1 := e * k - f * h
    let b1 := f * g - d * k
    let c1 := d * h - e * g
    let d1 := c * h - b * k
    let e1 := a * k - c * g
    let f1 := g * b - a * h
    let g1 := b * f - c * e
    let h1 := c * d - a * f
    let k1 := a * e - b * d
    some ⟨a1 / det, d1 / det, g1 / det, b1 / det, e1 / det, h1 / det, c1 / det, f1 / det,
      k1 / det⟩
  else none

/-- The method `Matrix::hasInverse`. -/
def hasInverse (self : Matrix) : Bool := decide (self.det ≠ 0)

end Matrix

/-- The interface `BinaryImage`, of which only `width`, `height` and
`hasPoint` are used. -/
structure BinaryImage where
  width : Nat
  height : Nat
  hasPoint : Nat → Nat → Bool

/-- The class `Mask`; a null `myBinaryImageNull` means a full hull. -/
structure Mask where
  myOrigin : P
  myBoundingBox : BoundingBox
  myConvexHull : ConvexCCWPolygon
  myBinaryImageNull : Option BinaryImage

/-- The method `Mask::isPolygonFull`. -/
def Mask.isPolygonFull (self : Mask) : Bool := self.myBinaryImageNull.isNone

/-- The class `CollisionInfo`. -/
structure CollisionInfo where
  mask : Mask
  position : P
  angle : ℚ
  scaleX : ℚ
  scaleY : ℚ
  id : Int

/-- The library functions `cos` and `sin` and the constant `M_PI`.  They are
left open: the development holds for whatever values they take. -/
structure Trig where
  cos : ℚ → ℚ
  sin : ℚ → ℚ
  pi : ℚ

namespace Transformation

/-- The matrix `Transformation::getTransformationMatrix` of a collision
object: origin, scaling, rotation and position. -/
def getTransformationMatrix (trig : Trig) (collInfo : CollisionInfo) : Matrix :=
  if collInfo.angle ≠ 0 ∨ collInfo.scaleX ≠ 1 ∨ collInfo.scaleY ≠ 1 then
    let pos := collInfo.position
    let posX := pos.x
    let posY := pos.y
    let ang := collInfo.angle
    let ang90 := ang + trig.pi / 2
    let cosA := trig.cos ang
    let sinA := trig.sin ang
    let cosA90 := trig.cos ang90
    let sinA90 := trig.sin ang90
    let scaleX := collInfo.scaleX
    let scaleY := collInfo.scaleY
    let origin := collInfo.mask.myOrigin
    let originX := origin.x
    let originY := origin.y
    ⟨cosA * scaleX, scaleY * sinA, -cosA * originX * scaleX - originY * scaleY * sinA + posX,
     cosA90 * scaleX, scaleY * sinA90,
     -cosA90 * originX * scaleX - originY * scaleY * sinA90 + posY,
     0, 0, 1⟩
  else
    let origin := collInfo.mask.myOrigin
    let originX := origin.x
    let originY := origin.y
    let pos := collInfo.position
    let posX := pos.x
    let posY := pos.y
    ⟨1, 0, -originX + posX, 0, 1, -originY + posY, 0, 0, 1⟩

/-- The box `Transformation::approximateBoundingBox` around the four
transformed corners of a box. -/
def approximateBoundingBox (transformationMatrix : Matrix) (boundingBox : BoundingBox) :
    BoundingBox :=
  let pMin := boundingBox.pMin
  let pMax := boundingBox.pMax
  let p1 := pMin
  let p2 := pMax
  let p3 : P := ⟨pMin.x, pMax.y⟩
  let p4 : P := ⟨pMax.x, pMin.y⟩
  let approximateBoundingBoxPoints := transformationMatrix.transformPoints [p1, p2, p3, p4]
  let xs := approximateBoundingBoxPoints.map (fun p => p.x)
  let ys := approximateBoundingBoxPoints.map (fun p => p.y)
  ⟨⟨minDefault xs 0, minDefault ys 0⟩, ⟨maxDefault xs 0, maxDefault ys 0⟩⟩

end Transformation

/-! ## `SimplePixelPerfectPairwise` -/

/-- The factory `Polygon::createUtterlyUnsafelyNotChecked` on a vector of
points; with fewer than three points it reads past the end. -/
def Polygon.createUtterlyUnsafelyNotChecked (points : List P) : Run ConvexCCWPolygon :=
  match points with
  | p1 :: p2 :: p3 :: rest => pure (.Polygon p1 p2 p3 rest)
  | _ => .fault .undefinedBehaviour

namespace SimplePixelPerfectPairwise

/-- The helper that turns transformed hull points into a polygon variant and
reverses a clockwise point list; three collinear leading points throw. -/
def assumingValidConvexPolygonPointsTransformToCCWEvenIfCW (points : List P) :
    Run ConvexCCWPolygon :=
  match points with
  | [] => pure .Empty
  | [front] => pure (.Point front)
  | [head, last] => pure (Line.create head last)
  | p1 :: p2 :: p3 :: _ =>
    let v1 := p2.minus p1
    let v2 := p3.minus p1
    let v1XV2 := v1.cross v2
    if v1XV2 = 0 then .fault .thrown
    else if v1XV2 > 0 then Polygon.createUtterlyUnsafelyNotChecked points
    else Polygon.createUtterlyUnsafelyNotChecked points.reverse

/-- The helper `checkImage`: a full mask holds everywhere, else the rounded
point has to lie in the image and be set there. -/
def checkImage (image : Mask) (v : P3) : Bool :=
  match image.myBinaryImageNull with
  | none => true
  | some binaryImage =>
    let point : IP := ⟨PixelPerfect.r v.x, PixelPerfect.r v.y⟩
    let x := point.x
    let y := point.y
    decide (x ≥ 0) && decide (x < (binaryImage.width : Int)) &&
      decide (y ≥ 0) && decide (y < (binaryImage.height : Int)) &&
      binaryImage.hasPoint x.toNat y.toNat

/-- The pixel test `generalTestFunction` of two masks and the inverses of
their transformations. -/
def generalTestFunction (image1 image2 : Mask) (inv1 inv2 : Matrix) : IP → Bool :=
  fun point =>
    let vector : P3 := ⟨point.x, point.y, 1⟩
    let imageVector1 := inv1.vectorMult vector
    let imageVector2 := inv2.vectorMult vector
    checkImage image1 imageVector1 && checkImage image2 imageVector2

/-- The pairwise test `SimplePixelPerfectPairwise::testForCollision`.  `fuel`
is handed to `PolygonIntersection.intersection`. -/
def testForCollision (trig : Trig) (fuel : Nat) (collInfo1 collInfo2 : CollisionInfo) :
    Run Bool :=
  let mask1 := collInfo1.mask
  let mask2 := collInfo2.mask
  let transformationMatrix1 := Transformation.getTransformationMatrix trig collInfo1
  let transformationMatrix2 := Transformation.getTransformationMatrix trig collInfo2
  let inv1Null := transformationMatrix1.inverseNull
  let inv2Null := transformationMatrix2.inverseNull
  match inv1Null, inv2Null with
  | some inv1, some inv2 => do
    let transConHull1 ← assumingValidConvexPolygonPointsTransformToCCWEvenIfCW
      (transformationMatrix1.transformPoints mask1.myConvexHull.points)
    let transConHull2 ← assumingValidConvexPolygonPointsTransformToCCWEvenIfCW
      (transformationMatrix2.transformPoints mask2.myConvexHull.points)
    let approxBoundingBox1 :=
      Transformation.approximateBoundingBox transformationMatrix1 mask1.myBoundingBox
    let approxBoundingBox2 :=
      Transformation.approximateBoundingBox transformationMatrix2 mask2.myBoundingBox
    let otherIntersection ← PolygonIntersection.intersection fuel transConHull1 transConHull2
      mask1.isPolygonFull mask2.isPolygonFull (some approxBoundingBox1) (some approxBoundingBox2)
    match otherIntersection with
    | .Right collisionIntersection =>
      let testFunction := generalTestFunction mask1 mask2 inv1 inv2
      match collisionIntersection.getType with
      | .PointT => PixelPerfect.collisionTest collisionIntersection testFunction
      | .LineT => PixelPerfect.collisionTest collisionIntersection testFunction
      | .PolygonT => PixelPerfect.collisionTest collisionIntersection testFunction
      | .EmptyT => pure false
    | .Left hasIntersection => pure hasIntersection
  | _, _ => pure false

end SimplePixelPerfectPairwise

/-! ## `poxelcoll/DataTypes`: collision pairs -/

/-- The class `CollisionPair`: the ids of two collision objects. -/
structure CollisionPair where
  id1 : Int
  id2 : Int
deriving DecidableEq

/-- The factory `CollisionPair::createNull`; null when the ids are equal. -/
def CollisionPair.createNull (id1 id2 : Int) : Option CollisionPair :=
  if id1 = id2 then none
  else if id1 < id2 then some ⟨id1, id2⟩
  else some ⟨id2, id1⟩

/-! ## `binaryimage`: the two realisations of a binary image

`unsigned int` and `size_t` are unbounded natural numbers.  A
`std::deque<std::deque<bool>>` is a list of rows, a `boost::dynamic_bitset` a
list of bits. -/

/-- The class `SimpleBinaryImage`: the rows as given. -/
structure SimpleBinaryImage where
  imageSourceRows : List (List Bool)
  myWidth : Nat
  myHeight : Nat
deriving DecidableEq

namespace SimpleBinaryImage

/-- The method `width`. -/
def width (self : SimpleBinaryImage) : Nat := self.myWidth

/-- The method `height`. -/
def height (self : SimpleBinaryImage) : Nat := self.myHeight

/-- The method `hasPoint`: `(*imageSourceRows)[y][x]`. -/
def hasPoint (self : SimpleBinaryImage) (x y : Nat) : Run Bool := do
  let row ← idx self.imageSourceRows y
  idx row x

end SimpleBinaryImage

/-- The factory `SimpleBinaryImageFactory::createNull`. -/
def SimpleBinaryImageFactory.createNull (imageSourceRows : List (List Bool)) :
    Run (Option SimpleBinaryImage) :=
  let height := imageSourceRows.length
  if height < 1 then pure none
  else do
    let firstRow ← idx imageSourceRows 0
    let width := firstRow.length
    if imageSourceRows.any (fun a => decide (a.length ≠ width)) then pure none
    else
      let copy := imageSourceRows
      pure (some ⟨copy, width, height⟩)

/-- The class `BitsetBinaryImage`: the rows packed into one bit set. -/
structure BitsetBinaryImage where
  imageSourceRows : List Bool
  myWidth : Nat
  myHeight : Nat
deriving DecidableEq

namespace BitsetBinaryImage

/-- The method `width`. -/
def width (self : BitsetBinaryImage) : Nat := self.myWidth

/-- The method `height`. -/
def height (self : BitsetBinaryImage) : Nat := self.myHeight

/-- The method `hasPoint`: `(*imageSourceRows)[x + y * myWidth]`. -/
def hasPoint (self : BitsetBinaryImage) (x y : Nat) : Run Bool :=
  idx self.imageSourceRows (x + y * self.myWidth)

/-- The unchecked factory `createUnsafe`. -/
def createUnsafe (width height : Nat) (imageSourceRows : List Bool) : BitsetBinaryImage :=
  ⟨imageSourceRows, width, height⟩

end BitsetBinaryImage

/-- The assignment `(*bs)[i] = 1`; outside the bit set it is undefined
behaviour. -/
def setBit (bs : List Bool) (i : Nat) : Run (List Bool) :=
  if i < bs.length then pure (bs.set i true) else .fault .undefinedBehaviour

/-- The inner `for` loop of `BitsetBinaryImageFactory::createNull` over the
columns `c` of the row `r`, with `count` iterations left. -/
def bitsetFillRow (imageSourceRows : List (List Bool)) (width r : Nat) :
    Nat → Nat → List Bool → Run (List Bool)
  | 0, _, bs => pure bs
  | count + 1, c, bs => do
    let row ← idx imageSourceRows r
    let value ← idx row c
    let bs1 ← (if value then setBit bs (c + r * width) else pure bs)
    bitsetFillRow imageSourceRows width r count (c + 1) bs1

/-- The outer `for` loop of `BitsetBinaryImageFactory::createNull` over the
rows `r`, with `count` iterations left. -/
def bitsetFill (imageSourceRows : List (List Bool)) (width : Nat) :
    Nat → Nat → List Bool → Run (List Bool)
  | 0, _, bs => pure bs
  | count + 1, r, bs => do
    let bs1 ← bitsetFillRow imageSourceRows width r width 0 bs
    bitsetFill imageSourceRows width count (r + 1) bs1

/-- The factory `BitsetBinaryImageFactory::createNull`. -/
def BitsetBinaryImageFactory.createNull (imageSourceRows : List (List Bool)) :
    Run (Option BitsetBinaryImage) :=
  let height := imageSourceRows.length
  if height < 1 then pure none
  else do
    let firstRow ← idx imageSourceRows 0
    let width := firstRow.length
    if imageSourceRows.any (fun a => decide (a.length ≠ width)) then pure none
    else do
      let bitsetSize := width * height
      let bs ← bitsetFill imageSourceRows width height 0 (List.replicate bitsetSize false)
      pure (some (BitsetBinaryImage.createUnsafe width height bs))

/-! ## `ConvexHull`: the hull of a set of points -/

namespace ConvexHull

/-- The step of the template `groupBy` on a vector of points with keys of type
`double`: a new group when the key is absent, else the point is added at the
end of the found group. -/
def groupByInsert (value : ℚ) (i : P) : List (ℚ × List P) → List (ℚ × List P)
  | [] => [(value, [i])]
  | (key, group) :: rest =>
    if value < key then (value, [i]) :: (key, group) :: rest
    else if value = key then (key, group ++ [i]) :: rest
    else (key, group) :: groupByInsert value i rest

/-- The template `groupBy` on a vector of points: the `std::map` from each key
to the points with that key, in ascending key order. -/
def groupBy (collection : List P) (groupByFunction : P → ℚ) : List (ℚ × List P) :=
  collection.foldl (fun resultMap i => groupByInsert (groupByFunction i) i resultMap) []

/-- The lambda `headEndMapping`: the first and the last point of a column. -/
def headEndMapping (ele : List P) : Run (P × P) :=
  match ele.head?, ele.getLast? with
  | some first, some last => pure (first, last)
  | _, _ => .fault .undefinedBehaviour

/-- The inner `while` loop of an outline, after the point `p3` has been added:
as long as the last three points `p1`, `p2`, `p3` turn the wrong way, `p2` is
removed.  The outline without `p3` is passed, and the outline is returned, with
the last point first. -/
def trimOutline (turnsWrong : ℚ → Bool) (p3 : P) : List P → List P
  | p2 :: rest =>
    match rest with
    | p1 :: _ =>
      let v12 := p2.minus p1
      let v13 := p3.minus p1
      if turnsWrong (v12.cross v13) then trimOutline turnsWrong p3 rest
      else p3 :: p2 :: rest
    | [] => [p3, p2]
  | [] => [p3]

/-- The outer `while` loop of an outline over the points of `lowUp`, taken
from the first to the last; the outline is returned with the last point
first. -/
def buildOutline (turnsWrong : ℚ → Bool) (lowUp : List P) : List P :=
  lowUp.foldl (fun outline p => trimOutline turnsWrong p outline) []

/-- The convex hull `ConvexHull::calculateConvexHull` of a vector of points. -/
def calculateConvexHull (points : List P) : Run ConvexCCWPolygon :=
  match points with
  | [] => pure .Empty
  | [p0] => pure (.Point p0)
  | [p0, p1] => pure (Line.create p0 p1)
  | _ => do
    let groupedPoints1 := groupBy points (fun p => p.x)
    let groupedPoints2 := groupedPoints1
    let groupedPoints3 :=
      sortByToVector groupedPoints2 (fun pair1 _pair2 => decide (pair1.1 < pair1.1))
    let groupedPoints4 := groupedPoints3.map (fun xYPoints =>
      sortByToVector xYPoints.2 (fun p1 p2 => decide (p1.y < p2.y)))
    let trimmedPoints ← PixelPerfect.mapRun headEndMapping groupedPoints4
    let lower := trimmedPoints.map (fun lowUp => lowUp.1)
    let upper := trimmedPoints.map (fun lowUp => lowUp.2)
    let lowerOutline := (buildOutline (fun c => decide (c ≤ 0)) lower).reverse
    let upperOutline := (buildOutline (fun c => decide (c ≥ 0)) upper).reverse
    let upperOutlineReverse := upperOutline.reverse
    let lowerFirst ← PolygonIntersection.deref lowerOutline.head?
    let upperLast ← PolygonIntersection.deref upperOutlineReverse.getLast?
    let upperOutlineReverse1 :=
      if lowerFirst.equal upperLast then upperOutlineReverse.dropLast else upperOutlineReverse
    let lowerOutline1 :=
      match lowerOutline.getLast?, upperOutlineReverse1.head? with
      | some lowerLast, some upperFirst =>
        if lowerLast.equal upperFirst then lowerOutline.dropLast else lowerOutline
      | _, _ => lowerOutline
    let finalRes := lowerOutline1 ++ upperOutlineReverse1
    match finalRes with
    | [] => .fault .thrown
    | [p1] => pure (.Point p1)
    | [p1, p2] => pure (Line.create p1 p2)
    | p1 :: p2 :: p3 :: rest => pure (.Polygon p1 p2 p3 rest)

end ConvexHull

/-! ## `Mask`: creation of masks -/

/-- The interface `BinaryImageFactory`. -/
structure BinaryImageFactory where
  createNull : List (List Bool) → Run (Option BinaryImage)

namespace Mask

/-- The points pushed by the two `for` loops of
`createMaskNullFromImageSource`: the four corners of every pixel that is on,
column by column. -/
def cornerPoints (binaryImage : BinaryImage) : List P :=
  (List.range binaryImage.width).flatMap fun x =>
    (List.range binaryImage.height).flatMap fun y =>
      if binaryImage.hasPoint x y then
        [⟨x, y⟩, ⟨(x : ℚ) + 1, y⟩, ⟨x, (y : ℚ) + 1⟩, ⟨(x : ℚ) + 1, (y : ℚ) + 1⟩]
      else []

/-- The factory `Mask::createMaskNullFromImageSource`: null when the image
factory returns null or no pixel is on. -/
def createMaskNullFromImageSource (imageSourceRows : List (List Bool)) (origin : P)
    (binaryImageFactory : BinaryImageFactory) : Run (Option Mask) := do
  let binaryImageNull ← binaryImageFactory.createNull imageSourceRows
  match binaryImageNull with
  | none => pure none
  | some binaryImage =>
    let points := cornerPoints binaryImage
    if points.isEmpty then pure none
    else do
      let xs := points.map (fun p => p.x)
      let xMin := minDefault xs 0
      let xMax := maxDefault xs 0
      let ys := points.map (fun p => p.y)
      let yMin := minDefault ys 0
      let yMax := maxDefault ys 0
      let boundingBox : BoundingBox := ⟨⟨xMin, yMin⟩, ⟨xMax, yMax⟩⟩
      let someConvexHull ← ConvexHull.calculateConvexHull points
      match someConvexHull.getType with
      | .EmptyT => .fault .thrown
      | .PointT => pure (some ⟨origin, boundingBox, someConvexHull, some binaryImage⟩)
      | .LineT => pure (some ⟨origin, boundingBox, someConvexHull, some binaryImage⟩)
      | .PolygonT => pure (some ⟨origin, boundingBox, someConvexHull, some binaryImage⟩)

end Mask

/-! ## Specification vocabulary -/

/-- The point `q` lies on the closed segment from `a` to `b`. -/
def onSegment (a b q : P) : Prop :=
  ∃ t : ℚ, 0 ≤ t ∧ t ≤ 1 ∧ q = a.plus ((b.minus a).multi t)

/-- The point `q` lies on both closed segments `p11 p12` and `p21 p22`. -/
def sharedPoint (p11 p12 p21 p22 q : P) : Prop :=
  onSegment p11 p12 q ∧ onSegment p21 p22 q

/-- The lexicographic order on points: by `x`, then by `y`. -/
def lexLe (a b : P) : Prop := a.x < b.x ∨ (a.x = b.x ∧ a.y ≤ b.y)

/-- The rational `x` lies between `a` and `b`, in either order. -/
def between (x a b : ℚ) : Prop := (a ≤ x ∧ x ≤ b) ∨ (b ≤ x ∧ x ≤ a)

/-- The point `r` lies on the straight line through `p11` and `p12`. -/
def onLineOf (p11 p12 r : P) : Prop :=
  (p12.x - p11.x) * (r.y - p11.y) - (p12.y - p11.y) * (r.x - p11.x) = 0

/-- The coordinate that orders the points of the line through `p11` and
`p12`: `x`, or `y` when the line is vertical. -/
def lineKey (p11 p12 r : P) : ℚ := if p12.x - p11.x ≠ 0 then r.x else r.y

/-- The variant `res` describes exactly the point set `S`: `Empty` the empty
set, `Point q` the set with the one point `q`, `Line a b` the closed segment
between two different points, `a` the lexicographically greater one. -/
def describesSet (res : ConvexCCWPolygon) (S : P → Prop) : Prop :=
  match res with
  | .Empty => ∀ r, ¬ S r
  | .Point q => ∀ r, S r ↔ r = q
  | .Line a b => a ≠ b ∧ lexLe b a ∧ ∀ r, S r ↔ onSegment a b r
  | .Polygon _ _ _ _ => False

/-- The point `q` is in the closed region of the counter-clockwise polygon
with vertices `points`: on the left of, or on, every edge, the closing edge
included. -/
def inClosedRegion (points : List P) (q : P) : Bool :=
  (List.range points.length).all fun i =>
    let p1 := points.getD i ⟨0, 0⟩
    let p2 := points.getD (next i points.length) ⟨0, 0⟩
    decide ((p2.minus p1).cross (q.minus p1) ≥ 0)

/-- The vertices `points` form a valid convex counter-clockwise polygon: at
least three of them, and every vertex strictly on the left of every edge it is
not an end of (so no duplicates and no three collinear). -/
def validPolygonPoints (points : List P) : Bool :=
  decide (3 ≤ points.length) &&
    (List.range points.length).all fun i =>
      (List.range points.length).all fun j =>
        let p1 := points.getD i ⟨0, 0⟩
        let p2 := points.getD (next i points.length) ⟨0, 0⟩
        decide (j = i) || decide (j = next i points.length)
          || decide ((p2.minus p1).cross ((points.getD j ⟨0, 0⟩).minus p1) > 0)

/-- The box `box` is the exact bounding box of `points`: its corners hold the
least and greatest coordinates that occur among the points. -/
def IsExactBox (points : List P) (box : BoundingBox) : Prop :=
  (∃ p ∈ points, p.x = box.pMin.x) ∧ (∀ p ∈ points, box.pMin.x ≤ p.x) ∧
  (∃ p ∈ points, p.y = box.pMin.y) ∧ (∀ p ∈ points, box.pMin.y ≤ p.y) ∧
  (∃ p ∈ points, p.x = box.pMax.x) ∧ (∀ p ∈ points, p.x ≤ box.pMax.x) ∧
  (∃ p ∈ points, p.y = box.pMax.y) ∧ (∀ p ∈ points, p.y ≤ box.pMax.y)

/-- The point `q` lies in the unit square `[x, x+1) x [y, y+1)` of the pixel
`pixel`. -/
def inPixel (pixel : IP) (q : P) : Bool :=
  decide ((pixel.x : ℚ) ≤ q.x) && decide (q.x < (pixel.x : ℚ) + 1) &&
    decide ((pixel.y : ℚ) ≤ q.y) && decide (q.y < (pixel.y : ℚ) + 1)

/-- The pipeline in the words of the specification: translate the polygon by
`(-0.5, -0.5)`, run the outline with stoppage on the translated polygon and,
on `Left`, the fill with stoppage on that outline. -/
def collisionTestOfTranslated (nonemptyConvexPolygon : ConvexCCWPolygon)
    (testFunction : IP → Bool) : Run Bool := do
  let outlineResult ←
    PixelPerfect.findOutlineStoppage (nonemptyConvexPolygon.translate ⟨-1 / 2, -1 / 2⟩)
      testFunction
  match outlineResult with
  | .Right bo => pure bo
  | .Left outline => PixelPerfect.fillOutlineStoppage outline testFunction

/-- A choice of `cos` and `sin` that is exact at the angle `0` and at the
quarter turn. -/
def axisTrig : Trig := ⟨fun a => if a = 0 then 1 else 0, fun a => if a = 0 then 0 else 1, 22 / 7⟩

/-- The full mask of the unit square, with its origin at the corner `(0,0)`. -/
def unitSquareMask : Mask :=
  ⟨⟨0, 0⟩, ⟨⟨0, 0⟩, ⟨1, 1⟩⟩, .Polygon ⟨0, 0⟩ ⟨1, 0⟩ ⟨1, 1⟩ [⟨0, 1⟩], none⟩

/-- The matrices of the reference code quoted in `getTransformationMatrix`:
the translation by `pos`. -/
def posTransl (pos : P) : Matrix := ⟨1, 0, pos.x, 0, 1, pos.y, 0, 0, 1⟩

/-- The reference matrix `rot` with the rows `(cosA, sinA, 0)`,
`(cosA90, sinA90, 0)`, `(0, 0, 1)`. -/
def rot (cosA sinA cosA90 sinA90 : ℚ) : Matrix := ⟨cosA, sinA, 0, cosA90, sinA90, 0, 0, 0, 1⟩

/-- The reference matrix `scaling`. -/
def scaling (scaleX scaleY : ℚ) : Matrix := ⟨scaleX, 0, 0, 0, scaleY, 0, 0, 0, 1⟩

/-- The reference matrix `originTransl`: the translation by `-origin`. -/
def originTransl (origin : P) : Matrix := ⟨1, 0, -origin.x, 0, 1, -origin.y, 0, 0, 1⟩

/-- The nine entries that the general branch of `getTransformationMatrix`
writes, as a function of the values they are built from. -/
def generalArray (cosA sinA cosA90 sinA90 scaleX scaleY originX originY posX posY : ℚ) :
    Matrix :=
  ⟨cosA * scaleX, scaleY * sinA, -cosA * originX * scaleX - originY * scaleY * sinA + posX,
   cosA90 * scaleX, scaleY * sinA90,
   -cosA90 * originX * scaleX - originY * scaleY * sinA90 + posY,
   0, 0, 1⟩

/-- The identity matrix. -/
def identityMatrix : Matrix := ⟨1, 0, 0, 0, 1, 0, 0, 0, 1⟩

/-- The width of a grid of rows: the length of its first row. -/
def gridWidth (rows : List (List Bool)) : Nat := (rows.headD []).length

/-- A grid of rows is valid: at least one row, and every row as long as the
first. -/
def validGrid (rows : List (List Bool)) : Bool :=
  decide (0 < rows.length) && rows.all (fun row => decide (row.length = gridWidth rows))

/-- The point `q` lies on the directed edge from `a` to `b`, the half-open
segment without `a`. -/
def onHalfOpen (a b q : P) : Prop :=
  ∃ t : ℚ, 0 < t ∧ t ≤ 1 ∧ q = a.plus ((b.minus a).multi t)

/-- The pixel `(x, y)` of a binary image is on. -/
def onPixel (image : BinaryImage) (x y : Nat) : Prop :=
  x < image.width ∧ y < image.height ∧ image.hasPoint x y = true

/-- The box `box` reaches exactly from the least `x` and `y` of the pixels
that are on to their greatest `x` and `y` plus one. -/
def IsPixelBox (image : BinaryImage) (box : BoundingBox) : Prop :=
  (∃ x y, onPixel image x y ∧ box.pMin.x = x) ∧ (∀ x y, onPixel image x y → box.pMin.x ≤ x) ∧
  (∃ x y, onPixel image x y ∧ box.pMin.y = y) ∧ (∀ x y, onPixel image x y → box.pMin.y ≤ y) ∧
  (∃ x y, onPixel image x y ∧ box.pMax.x = x + 1) ∧
  (∀ x y, onPixel image x y → (x : ℚ) + 1 ≤ box.pMax.x) ∧
  (∃ x y, onPixel image x y ∧ box.pMax.y = y + 1) ∧
  (∀ x y, onPixel image x y → (y : ℚ) + 1 ≤ box.pMax.y)

/-- The point `a` comes no later than `b` in the order of the origin choice:
further left, or equally far left and at least as high. -/
def leftUpperLe (a b : P) : Prop := a.x < b.x ∨ (a.x = b.x ∧ b.y ≤ a.y)

/-- The vertices `points` form a valid convex polygon in clockwise order: at
least three of them, and every vertex strictly on the right of every edge it
is not an end of. -/
def validClockwisePoints (points : List P) : Bool :=
  decide (3 ≤ points.length) &&
    (List.range points.length).all fun i =>
      (List.range points.length).all fun j =>
        let p1 := points.getD i ⟨0, 0⟩
        let p2 := points.getD (next i points.length) ⟨0, 0⟩
        decide (j = i) || decide (j = next i points.length)
          || decide ((p2.minus p1).cross ((points.getD j ⟨0, 0⟩).minus p1) < 0)

open PolygonIntersection

/-- C1. Two valid triangles that touch along a whole edge: the driver returns
the first triangle, whose vertex `(0,0)` is outside the second triangle. -/
theorem intersection_touching_triangles_not_inside :
    validPolygonPoints [⟨0, 0⟩, ⟨1, 0⟩, ⟨0, 1⟩] = true ∧
    validPolygonPoints [⟨1, 1⟩, ⟨0, 1⟩, ⟨1, 0⟩] = true ∧
    intersection 100 (.Polygon ⟨0, 0⟩ ⟨1, 0⟩ ⟨0, 1⟩ []) (.Polygon ⟨1, 1⟩ ⟨0, 1⟩ ⟨1, 0⟩ [])
        true true none none
      = .ok (.Right (.Polygon ⟨1, 0⟩ ⟨0, 1⟩ ⟨0, 0⟩ [])) ∧
    inClosedRegion [⟨1, 1⟩, ⟨0, 1⟩, ⟨1, 0⟩] ⟨0, 0⟩ = false := by
  decide!

/-- C2. Two valid triangles that touch along a whole edge: swapping the
arguments changes the result from the one triangle to the other. -/
theorem intersection_touching_triangles_not_symmetric :
    validPolygonPoints [⟨0, 0⟩, ⟨1, 0⟩, ⟨0, 1⟩] = true ∧
    validPolygonPoints [⟨1, 0⟩, ⟨1, 1⟩, ⟨0, 1⟩] = true ∧
    intersection 100 (.Polygon ⟨0, 0⟩ ⟨1, 0⟩ ⟨0, 1⟩ []) (.Polygon ⟨1, 0⟩ ⟨1, 1⟩ ⟨0, 1⟩ [])
        true true none none
      = .ok (.Right (.Polygon ⟨1, 0⟩ ⟨0, 1⟩ ⟨0, 0⟩ [])) ∧
    intersection 100 (.Polygon ⟨1, 0⟩ ⟨1, 1⟩ ⟨0, 1⟩ []) (.Polygon ⟨0, 0⟩ ⟨1, 0⟩ ⟨0, 1⟩ [])
        true true none none
      = .ok (.Right (.Polygon ⟨1, 0⟩ ⟨1, 1⟩ ⟨0, 1⟩ [])) := by
  decide!

/-- C3. Scenario S1: the driver returns the single point `(2,8)`, not the
inner triangle. -/
theorem intersection_S1_is_point :
    intersection 100 (.Polygon ⟨0, 0⟩ ⟨10, 0⟩ ⟨0, 10⟩ []) (.Polygon ⟨2, 2⟩ ⟨8, 2⟩ ⟨2, 8⟩ [])
        true true none none
      = .ok (.Right (.Point ⟨2, 8⟩)) := by
  decide!

/-- C4. Scenario S3: two triangles sharing the single vertex `(1,0)` intersect
in the right-branch `Point (1,0)`. -/
theorem intersection_S3_shared_vertex :
    intersection 100 (.Polygon ⟨0, 0⟩ ⟨1, 0⟩ ⟨0, 1⟩ []) (.Polygon ⟨1, 0⟩ ⟨2, 0⟩ ⟨2, 1⟩ [])
        true true none none
      = .ok (.Right (.Point ⟨1, 0⟩)) := by
  decide!

/-- C5. Scenario S4: for two unit squares sharing a full edge the driver
returns the single point `(1,0)`, not the shared edge. -/
theorem intersection_S4_is_point :
    intersection 100 (.Polygon ⟨0, 0⟩ ⟨1, 0⟩ ⟨1, 1⟩ [⟨0, 1⟩])
        (.Polygon ⟨1, 0⟩ ⟨2, 0⟩ ⟨2, 1⟩ [⟨1, 1⟩]) true true none none
      = .ok (.Right (.Point ⟨1, 0⟩)) := by
  decide!

/-! ## Bounding-box culling -/

/-- The fold of `minDefault` returns its start value or an element, below both. -/
theorem foldl_min_spec (l : List ℚ) (v : ℚ) :
    let r := l.foldl (fun value i => if value > i then i else value) v
    (r = v ∨ r ∈ l) ∧ r ≤ v ∧ ∀ x ∈ l, r ≤ x := by
  induction l generalizing v with
  | nil => simp
  | cons a t ih =>
    simp only [List.foldl_cons]
    by_cases h : v > a
    · simp only [h, if_true]
      obtain ⟨h1, h2, h3⟩ := ih a
      refine ⟨?_, by linarith, ?_⟩
      · rcases h1 with h1 | h1
        · right; simp [h1]
        · right; simp [h1]
      · intro x hx
        rcases List.mem_cons.mp hx with rfl | hx
        · exact h2
        · exact h3 x hx
    · simp only [h, if_false]
      obtain ⟨h1, h2, h3⟩ := ih v
      refine ⟨?_, h2, ?_⟩
      · rcases h1 with h1 | h1
        · left; exact h1
        · right; simp [h1]
      · intro x hx
        rcases List.mem_cons.mp hx with rfl | hx
        · linarith [not_lt.mp h]
        · exact h3 x hx

/-- The fold of `maxDefault` returns its start value or an element, above both. -/
theorem foldl_max_spec (l : List ℚ) (v : ℚ) :
    let r := l.foldl (fun value i => if value < i then i else value) v
    (r = v ∨ r ∈ l) ∧ v ≤ r ∧ ∀ x ∈ l, x ≤ r := by
  induction l generalizing v with
  | nil => simp
  | cons a t ih =>
    simp only [List.foldl_cons]
    by_cases h : v < a
    · simp only [h, if_true]
      obtain ⟨h1, h2, h3⟩ := ih a
      refine ⟨?_, by linarith, ?_⟩
      · rcases h1 with h1 | h1
        · right; simp [h1]
        · right; simp [h1]
      · intro x hx
        rcases List.mem_cons.mp hx with rfl | hx
        · exact h2
        · exact h3 x hx
    · simp only [h, if_false]
      obtain ⟨h1, h2, h3⟩ := ih v
      refine ⟨?_, h2, ?_⟩
      · rcases h1 with h1 | h1
        · left; exact h1
        · right; simp [h1]
      · intro x hx
        rcases List.mem_cons.mp hx with rfl | hx
        · linarith [not_lt.mp h]
        · exact h3 x hx

/-- On a non-empty collection `minDefault` is its least element. -/
theorem minDefault_spec (l : List ℚ) (d : ℚ) (hl : l ≠ []) :
    minDefault l d ∈ l ∧ ∀ x ∈ l, minDefault l d ≤ x := by
  cases l with
  | nil => exact absurd rfl hl
  | cons a t =>
    have h := foldl_min_spec (a :: t) a
    simp only [minDefault]
    obtain ⟨h1, _, h3⟩ := h
    refine ⟨?_, h3⟩
    rcases h1 with h1 | h1
    · rw [h1]; simp
    · exact h1

/-- On a non-empty collection `maxDefault` is its greatest element. -/
theorem maxDefault_spec (l : List ℚ) (d : ℚ) (hl : l ≠ []) :
    maxDefault l d ∈ l ∧ ∀ x ∈ l, x ≤ maxDefault l d := by
  cases l with
  | nil => exact absurd rfl hl
  | cons a t =>
    have h := foldl_max_spec (a :: t) a
    simp only [maxDefault]
    obtain ⟨h1, _, h3⟩ := h
    refine ⟨?_, h3⟩
    rcases h1 with h1 | h1
    · rw [h1]; simp
    · exact h1

/-- On a non-empty point sequence `bBoxNonemptyPolygon` returns the exact box. -/
theorem bBoxNonemptyPolygon_exact (points : List P) (hp : points ≠ []) :
    ∃ box, bBoxNonemptyPolygon points = .ok box ∧ IsExactBox points box := by
  have hlen : ¬ points.length < 1 := by
    cases points with
    | nil => exact absurd rfl hp
    | cons a t => simp
  have hx : points.map (fun p => p.x) ≠ [] := by simpa using hp
  have hy : points.map (fun p => p.y) ≠ [] := by simpa using hp
  obtain ⟨a1, a2⟩ := minDefault_spec _ 0 hx
  obtain ⟨b1, b2⟩ := minDefault_spec _ 0 hy
  obtain ⟨c1, c2⟩ := maxDefault_spec _ 0 hx
  obtain ⟨d1, d2⟩ := maxDefault_spec _ 0 hy
  refine ⟨_, by simp only [bBoxNonemptyPolygon, hlen, if_false]; rfl, ?_⟩
  simp only [List.mem_map] at a1 b1 c1 d1
  refine ⟨a1, fun p hp => a2 _ (List.mem_map_of_mem _ hp), b1,
    fun p hp => b2 _ (List.mem_map_of_mem _ hp), c1, fun p hp => c2 _ (List.mem_map_of_mem _ hp),
    d1, fun p hp => d2 _ (List.mem_map_of_mem _ hp)⟩

/-- A point sequence has at most one exact bounding box. -/
theorem IsExactBox_unique (points : List P) (b b' : BoundingBox)
    (h : IsExactBox points b) (h' : IsExactBox points b') : b = b' := by
  obtain ⟨⟨p1, m1, e1⟩, l1, ⟨p2, m2, e2⟩, l2, ⟨p3, m3, e3⟩, l3, ⟨p4, m4, e4⟩, l4⟩ := h
  obtain ⟨⟨q1, n1, f1⟩, k1, ⟨q2, n2, f2⟩, k2, ⟨q3, n3, f3⟩, k3, ⟨q4, n4, f4⟩, k4⟩ := h'
  have hminx : b.pMin.x = b'.pMin.x :=
    le_antisymm (by rw [← f1]; exact l1 _ n1) (by rw [← e1]; exact k1 _ m1)
  have hminy : b.pMin.y = b'.pMin.y :=
    le_antisymm (by rw [← f2]; exact l2 _ n2) (by rw [← e2]; exact k2 _ m2)
  have hmaxx : b.pMax.x = b'.pMax.x :=
    le_antisymm (by rw [← e3]; exact k3 _ m3) (by rw [← f3]; exact l3 _ n3)
  have hmaxy : b.pMax.y = b'.pMax.y :=
    le_antisymm (by rw [← e4]; exact k4 _ m4) (by rw [← f4]; exact l4 _ n4)
  cases b with
  | mk bmin bmax =>
    cases b' with
    | mk bmin' bmax' =>
      cases bmin; cases bmax; cases bmin'; cases bmax'
      simp_all

/-- A non-empty variant has at least one vertex. -/
theorem points_ne_nil (poly : ConvexCCWPolygon) (h : poly ≠ .Empty) : poly.points ≠ [] := by
  cases poly <;> simp_all [ConvexCCWPolygon.points]

/-- A non-empty variant does not carry the tag `EmptyT`. -/
theorem getType_ne_EmptyT (poly : ConvexCCWPolygon) (h : poly ≠ .Empty) :
    poly.getType ≠ .EmptyT := by
  cases poly <;> simp_all [ConvexCCWPolygon.getType]

/-- With disjoint exact boxes every reachable branch of `boundingBoxesIntersectCalc`
answers `false`. -/
theorem boundingBoxesIntersectCalc_disjoint (poly1 poly2 : ConvexCCWPolygon)
    (approx1 approx2 : Option BoundingBox) (box1 box2 : BoundingBox)
    (h1 : poly1 ≠ .Empty) (h2 : poly2 ≠ .Empty)
    (hb1 : bBoxNonemptyPolygon poly1.points = .ok box1)
    (hb2 : bBoxNonemptyPolygon poly2.points = .ok box2)
    (hdisj : box1.intersects box2 = false) :
    boundingBoxesIntersectCalc poly1 poly2 approx1 approx2 = .ok false := by
  have t1 := getType_ne_EmptyT poly1 h1
  have t2 := getType_ne_EmptyT poly2 h2
  unfold boundingBoxesIntersectCalc
  simp only [t1, t2, or_self, if_false]
  cases approx1 with
  | none =>
    cases approx2 with
    | none =>
      simp [hb1, hb2, hdisj, bind, Run.bind, pure]
    | some a2 =>
      simp only [Option.isNone_none, Option.isNone_some, Bool.and_false, Bool.not_true,
        Bool.not_false, if_true, if_false, deref, hb1, hb2, bind, Run.bind, pure]
      by_cases hc : box1.intersects a2 = true
      · simp [hc, hdisj]
      · simp [hc]
  | some a1 =>
    simp only [Option.isNone_some, Bool.false_and, Bool.not_false, if_true, if_false, deref,
      hb1, hb2, bind, Run.bind, pure]
    by_cases hc : a1.intersects box2 = true
    · simp [hc, hdisj]
    · simp [hc]

/-- C6. Two non-empty polygons whose exact bounding boxes do not intersect:
the driver returns `Left false`, whatever the flags and whichever approximate
boxes are supplied. -/
theorem intersection_culls_disjoint_exact_boxes (fuel : Nat) (poly1 poly2 : ConvexCCWPolygon)
    (poly1Full poly2Full : Bool) (approx1 approx2 : Option BoundingBox) (box1 box2 : BoundingBox)
    (h1 : poly1 ≠ .Empty) (h2 : poly2 ≠ .Empty)
    (hb1 : IsExactBox poly1.points box1) (hb2 : IsExactBox poly2.points box2)
    (hdisj : box1.intersects box2 = false) :
    intersection fuel poly1 poly2 poly1Full poly2Full approx1 approx2 = .ok (.Left false) := by
  obtain ⟨b1, e1, x1⟩ := bBoxNonemptyPolygon_exact poly1.points (points_ne_nil poly1 h1)
  obtain ⟨b2, e2, x2⟩ := bBoxNonemptyPolygon_exact poly2.points (points_ne_nil poly2 h2)
  have u1 := IsExactBox_unique _ _ _ x1 hb1
  have u2 := IsExactBox_unique _ _ _ x2 hb2
  subst u1 u2
  have hc := boundingBoxesIntersectCalc_disjoint poly1 poly2 approx1 approx2 b1 b2 h1 h2 e1 e2 hdisj
  unfold intersection
  simp [hc, bind, Run.bind, pure]

/-- C6, scenario S2: the two disjoint unit squares have the exact boxes
`(0,0)-(1,1)` and `(2,0)-(3,1)`, which do not intersect, and the driver
returns `Left false`. -/
theorem intersection_culls_S2 :
    ConvexCCWPolygon.Polygon ⟨0, 0⟩ ⟨1, 0⟩ ⟨1, 1⟩ [⟨0, 1⟩] ≠ .Empty ∧
    ConvexCCWPolygon.Polygon ⟨2, 0⟩ ⟨3, 0⟩ ⟨3, 1⟩ [⟨2, 1⟩] ≠ .Empty ∧
    IsExactBox (ConvexCCWPolygon.Polygon ⟨0, 0⟩ ⟨1, 0⟩ ⟨1, 1⟩ [⟨0, 1⟩]).points ⟨⟨0, 0⟩, ⟨1, 1⟩⟩ ∧
    IsExactBox (ConvexCCWPolygon.Polygon ⟨2, 0⟩ ⟨3, 0⟩ ⟨3, 1⟩ [⟨2, 1⟩]).points ⟨⟨2, 0⟩, ⟨3, 1⟩⟩ ∧
    BoundingBox.intersects ⟨⟨0, 0⟩, ⟨1, 1⟩⟩ ⟨⟨2, 0⟩, ⟨3, 1⟩⟩ = false ∧
    intersection 100 (.Polygon ⟨0, 0⟩ ⟨1, 0⟩ ⟨1, 1⟩ [⟨0, 1⟩])
        (.Polygon ⟨2, 0⟩ ⟨3, 0⟩ ⟨3, 1⟩ [⟨2, 1⟩]) true true none none
      = .ok (.Left false) :=
  ⟨by decide, by decide, by unfold IsExactBox; decide!, by unfold IsExactBox; decide!, by decide!,
    intersection_culls_disjoint_exact_boxes 100 _ _ true true none none
      ⟨⟨0, 0⟩, ⟨1, 1⟩⟩ ⟨⟨2, 0⟩, ⟨3, 1⟩⟩ (by decide) (by decide)
      (by unfold IsExactBox; decide!) (by unfold IsExactBox; decide!) (by decide!)⟩

/-- C8, as stated, fails: with an empty first polygon the driver answers on
the left branch, not with the right-branch `Empty`. -/
theorem intersection_empty_not_right :
    intersection 100 .Empty (.Point ⟨0, 0⟩) true true none none ≠ .ok (.Right .Empty) := by
  decide!

/-- C8, amended. Whenever one of the two polygons is `Empty` the driver
returns `Left false`, for every other polygon, flags, boxes and fuel. -/
theorem intersection_empty_is_left_false (fuel : Nat) (p : ConvexCCWPolygon)
    (poly1Full poly2Full : Bool) (approx1 approx2 : Option BoundingBox) :
    intersection fuel .Empty p poly1Full poly2Full approx1 approx2 = .ok (.Left false) ∧
    intersection fuel p .Empty poly1Full poly2Full approx1 approx2 = .ok (.Left false) := by
  constructor
  · unfold intersection boundingBoxesIntersectCalc
    simp [ConvexCCWPolygon.getType, bind, Run.bind, pure]
  · unfold intersection boundingBoxesIntersectCalc
    simp [ConvexCCWPolygon.getType, bind, Run.bind, pure]

/-! ## Point against segment -/

/-- C10. The parameter of `handlePointLine` is computed as `x - x1 / dx`: the
midpoint `(2,0)` of the segment `(0,0)-(4,0)` is rejected, and the point
`(1,0)`, which is not on the segment `(4,0)-(8,0)`, is accepted. -/
theorem handlePointLine_misjudges :
    (handlePointLine ⟨2, 0⟩ ⟨0, 0⟩ ⟨4, 0⟩ = .Empty ∧ onSegment ⟨0, 0⟩ ⟨4, 0⟩ ⟨2, 0⟩) ∧
    (handlePointLine ⟨1, 0⟩ ⟨4, 0⟩ ⟨8, 0⟩ = .Point ⟨1, 0⟩ ∧ ¬ onSegment ⟨4, 0⟩ ⟨8, 0⟩ ⟨1, 0⟩) := by
  refine ⟨⟨by decide!, ⟨1 / 2, by norm_num, by norm_num, ?_⟩⟩, by decide!, ?_⟩
  · simp only [P.plus, P.minus, P.multi]
    norm_num
  · rintro ⟨t, h0, _, ht⟩
    simp only [P.plus, P.minus, P.multi, P.mk.injEq] at ht
    linarith [ht.1]

/-! ## Segment against segment -/

theorem P.eq_iff (a b : P) : a = b ↔ a.x = b.x ∧ a.y = b.y := by
  cases a; cases b; simp

/-- The method `P::equal` decides equality of points. -/
theorem P.equal_iff (a b : P) : a.equal b = true ↔ a = b := by
  simp [P.equal, P.eq_iff]

/-- The comparator does not put `a` in front of `b` exactly when `a` is
lexicographically at most `b`. -/
theorem sorterFunction_false_iff (a b : P) : sorterFunction a b = false ↔ lexLe a b := by
  simp only [sorterFunction, lexLe, gt_iff_lt]
  split_ifs with h1 h2
  · simp only [decide_eq_false_iff_not, not_lt]
    constructor
    · intro h
      left
      rcases lt_or_eq_of_le h with h | h
      · linarith
      · exact absurd h h1
    · rintro (h | ⟨h, _⟩)
      · linarith
      · linarith
  · have hx : a.x = b.x := by
      have := not_not.mp h1
      linarith
    simp only [decide_eq_false_iff_not, not_lt]
    constructor
    · intro h
      right
      exact ⟨hx, by linarith⟩
    · rintro (h | ⟨_, h⟩)
      · linarith
      · linarith
  · have hx : a.x = b.x := by
      have := not_not.mp h1
      linarith
    have hy : a.y = b.y := by
      have := not_not.mp h2
      linarith
    simp only [true_iff]
    right
    exact ⟨hx, le_of_eq hy⟩

/-- The lexicographic order is total. -/
theorem lexLe_total (a b : P) : lexLe a b ∨ lexLe b a := by
  unfold lexLe
  rcases lt_trichotomy a.x b.x with h | h | h
  · left; left; exact h
  · rcases le_total a.y b.y with h2 | h2
    · left; right; exact ⟨h, h2⟩
    · right; right; exact ⟨h.symm, h2⟩
  · right; left; exact h

/-- The lexicographic order is transitive. -/
theorem lexLe_trans (a b c : P) (h1 : lexLe a b) (h2 : lexLe b c) : lexLe a c := by
  unfold lexLe at *
  rcases h1 with h1 | ⟨h1, h1'⟩ <;> rcases h2 with h2 | ⟨h2, h2'⟩
  · left; linarith
  · left; linarith
  · left; linarith
  · right; exact ⟨by linarith, by linarith⟩

/-- The lexicographic order is antisymmetric. -/
theorem lexLe_antisymm (a b : P) (h1 : lexLe a b) (h2 : lexLe b a) : a = b := by
  unfold lexLe at *
  rw [P.eq_iff]
  rcases h1 with h1 | ⟨h1, h1'⟩ <;> rcases h2 with h2 | ⟨h2, h2'⟩
  · linarith
  · linarith
  · linarith
  · exact ⟨h1, by linarith⟩

/-- The relation under which `sortByToVector … sorterFunction` is sorted. -/
theorem sortRel_total : IsTotal P (fun a b => sorterFunction b a = false) :=
  ⟨fun a b => by
    simp only [sorterFunction_false_iff]
    exact (lexLe_total b a)⟩

/-- The relation under which `sortByToVector` sorts with `sorterFunction` is
transitive. -/
theorem sortRel_trans : IsTrans P (fun a b => sorterFunction b a = false) :=
  ⟨fun a b c h1 h2 => by
    simp only [sorterFunction_false_iff] at *
    exact lexLe_trans c b a h2 h1⟩

/-- In a pairwise-related list every element is the last one or related to it. -/
theorem pairwise_last {α : Type} (r : α → α → Prop) (l : List α) (h : l.Pairwise r)
    (g : α) (hg : l.getLast? = some g) : ∀ q ∈ l, q = g ∨ r q g := by
  induction l with
  | nil => simp at hg
  | cons a t ih =>
    intro q hq
    cases t with
    | nil =>
      simp at hg hq
      left; rw [hq, hg]
    | cons b t' =>
      have hg' : (b :: t').getLast? = some g := by
        simpa [List.getLast?_cons_cons] using hg
      have hp := List.pairwise_cons.mp h
      rcases List.mem_cons.mp hq with rfl | hq
      · right
        exact hp.1 g (List.mem_of_getLast?_eq_some hg')
      · exact ih hp.2 hg' q hq

/-- The sorted vector of a non-empty collection starts with its lexicographic
maximum and ends with its lexicographic minimum. -/
theorem sortByToVector_ends (K : List P) (hK : K ≠ []) :
    ∃ F G, (sortByToVector K sorterFunction).head? = some F ∧
      (sortByToVector K sorterFunction).getLast? = some G ∧ F ∈ K ∧ G ∈ K ∧
      ∀ q ∈ K, lexLe q F ∧ lexLe G q := by
  have hperm : (sortByToVector K sorterFunction).Perm K := by
    unfold sortByToVector
    exact List.perm_insertionSort _ K
  have hsorted : (sortByToVector K sorterFunction).Pairwise
      (fun a b => sorterFunction b a = false) := by
    unfold sortByToVector
    haveI := sortRel_total
    haveI := sortRel_trans
    exact List.sorted_insertionSort (fun a b => sorterFunction b a = false) K
  have hne : sortByToVector K sorterFunction ≠ [] := by
    intro h
    rw [h] at hperm
    exact hK (List.Perm.eq_nil hperm.symm)
  generalize sortByToVector K sorterFunction = S at hperm hsorted hne
  cases S with
  | nil => exact absurd rfl hne
  | cons F T =>
    obtain ⟨G, hG⟩ : ∃ G, (F :: T).getLast? = some G := by
      cases h : (F :: T).getLast? with
      | none => simp at h
      | some G => exact ⟨G, rfl⟩
    have hGmem : G ∈ F :: T := List.mem_of_getLast?_eq_some hG
    refine ⟨F, G, rfl, hG, hperm.subset (List.mem_cons_self _ _), hperm.subset hGmem, ?_⟩
    intro q hq
    have hq' : q ∈ F :: T := hperm.symm.subset hq
    constructor
    · rcases List.mem_cons.mp hq' with rfl | hqT
      · right; exact ⟨rfl, le_refl _⟩
      · have := (List.pairwise_cons.mp hsorted).1 q hqT
        exact (sorterFunction_false_iff q F).mp this
    · rcases pairwise_last _ _ hsorted G hG q hq' with rfl | h
      · right; exact ⟨rfl, le_refl _⟩
      · exact (sorterFunction_false_iff G q).mp h


/-- Membership of a closed segment, in coordinates. -/
theorem onSegment_iff (a b q : P) :
    onSegment a b q ↔
      ∃ t : ℚ, 0 ≤ t ∧ t ≤ 1 ∧ q.x = a.x + (b.x - a.x) * t ∧ q.y = a.y + (b.y - a.y) * t := by
  simp only [onSegment, P.plus, P.minus, P.multi, P.eq_iff]

/-- An interval with both ends inside another interval lies inside it. -/
theorem between_trans (x f g a b : ℚ) (hx : between x f g) (hf : between f a b)
    (hg : between g a b) : between x a b := by
  unfold between at *
  rcases hx with ⟨h1, h2⟩ | ⟨h1, h2⟩ <;> rcases hf with ⟨h3, h4⟩ | ⟨h3, h4⟩ <;>
    rcases hg with ⟨h5, h6⟩ | ⟨h5, h6⟩ <;>
    first
      | (left; constructor <;> linarith)
      | (right; constructor <;> linarith)

/-- A parameter `(x - A) / c` is in `[0,1]` exactly when `x` is between `A` and
`A + c`. -/
theorem between_iff_param (x A c : ℚ) (hc : c ≠ 0) :
    (0 ≤ (x - A) / c ∧ (x - A) / c ≤ 1) ↔ between x A (A + c) := by
  unfold between
  rcases lt_or_gt_of_ne hc with h | h
  · have hneg : 0 < -c := by linarith
    have e : (x - A) / c = (A - x) / (-c) := by
      field_simp
      ring
    rw [e, div_nonneg_iff, div_le_one hneg]
    constructor
    · rintro ⟨h1 | h1, h2⟩
      · right; constructor <;> linarith [h1.1]
      · exfalso; linarith [h1.2]
    · rintro (⟨h1, h2⟩ | ⟨h1, h2⟩)
      · exfalso; linarith
      · exact ⟨Or.inl ⟨by linarith, by linarith⟩, by linarith⟩
  · rw [div_nonneg_iff, div_le_one h]
    constructor
    · rintro ⟨h1 | h1, h2⟩
      · left; constructor <;> linarith [h1.1]
      · exfalso; linarith [h1.2]
    · rintro (⟨h1, h2⟩ | ⟨h1, h2⟩)
      · exact ⟨Or.inl ⟨by linarith, by linarith⟩, by linarith⟩
      · exfalso; linarith

/-- A segment with distinct end points and no extent in `x` has extent in `y`. -/
theorem dir_y_ne_zero (p11 p12 : P) (hne : p11 ≠ p12)
    (hx : p12.x - p11.x = 0) : p12.y - p11.y ≠ 0 := by
  intro hy
  apply hne
  rw [P.eq_iff]
  constructor <;> linarith

/-- On a line the ordering coordinate determines the point. -/
theorem lineKey_inj (p11 p12 : P) (hne : p11 ≠ p12) (a b : P)
    (ha : onLineOf p11 p12 a) (hb : onLineOf p11 p12 b)
    (hk : lineKey p11 p12 a = lineKey p11 p12 b) : a = b := by
  unfold onLineOf at ha hb
  unfold lineKey at hk
  rw [P.eq_iff]
  by_cases hx : p12.x - p11.x ≠ 0
  · rw [if_pos hx, if_pos hx] at hk
    refine ⟨hk, ?_⟩
    have h : (p12.x - p11.x) * (a.y - b.y) = 0 := by
      have e : a.x = b.x := hk
      linear_combination ha - hb + (p12.y - p11.y) * e
    rcases mul_eq_zero.mp h with h | h
    · exact absurd h hx
    · linarith
  · rw [if_neg hx, if_neg hx] at hk
    have hx0 : p12.x - p11.x = 0 := not_not.mp hx
    have hy := dir_y_ne_zero p11 p12 hne hx0
    refine ⟨?_, hk⟩
    have h1 : (p12.y - p11.y) * (a.x - b.x) = 0 := by
      linear_combination hb - ha + (a.y - b.y) * hx0
    rcases mul_eq_zero.mp h1 with h | h
    · exact absurd h hy
    · linarith

/-- On a line the lexicographic order is the order of the ordering coordinate. -/
theorem lexLe_iff_key (p11 p12 : P) (hne : p11 ≠ p12) (a b : P)
    (ha : onLineOf p11 p12 a) (hb : onLineOf p11 p12 b) :
    lexLe a b ↔ lineKey p11 p12 a ≤ lineKey p11 p12 b := by
  by_cases hx : p12.x - p11.x ≠ 0
  · have ka : lineKey p11 p12 a = a.x := by unfold lineKey; rw [if_pos hx]
    have kb : lineKey p11 p12 b = b.x := by unfold lineKey; rw [if_pos hx]
    rw [ka, kb]
    unfold lexLe
    constructor
    · rintro (h | ⟨h, _⟩)
      · exact le_of_lt h
      · exact le_of_eq h
    · intro h
      rcases lt_or_eq_of_le h with h | h
      · left; exact h
      · right
        have := lineKey_inj p11 p12 hne a b ha hb (by rw [ka, kb]; exact h)
        rw [this]
        exact ⟨rfl, le_refl _⟩
  · have ka : lineKey p11 p12 a = a.y := by unfold lineKey; rw [if_neg hx]
    have kb : lineKey p11 p12 b = b.y := by unfold lineKey; rw [if_neg hx]
    rw [ka, kb]
    have hx0 : p12.x - p11.x = 0 := not_not.mp hx
    have hy := dir_y_ne_zero p11 p12 hne hx0
    unfold onLineOf at ha hb
    have hax : a.x = b.x := by
      have h1 : (p12.y - p11.y) * (a.x - b.x) = 0 := by
        linear_combination hb - ha + (a.y - b.y) * hx0
      rcases mul_eq_zero.mp h1 with h | h
      · exact absurd h hy
      · linarith
    unfold lexLe
    constructor
    · rintro (h | ⟨_, h⟩)
      · linarith
      · exact h
    · intro h
      right
      exact ⟨hax, h⟩

/-- A segment between two points of a line stays on the line. -/
theorem onSegment_onLine (p11 p12 : P) (a b r : P)
    (ha : onLineOf p11 p12 a) (hb : onLineOf p11 p12 b)
    (hr : onSegment a b r) : onLineOf p11 p12 r := by
  rw [onSegment_iff] at hr
  obtain ⟨t, _, _, hx, hy⟩ := hr
  unfold onLineOf at *
  rw [hx, hy]
  linear_combination (1 - t) * ha + t * hb

/-- On a line, a closed segment is the set of points whose ordering coordinate
is between those of its end points. -/
theorem onSegment_iff_between (p11 p12 : P) (hne : p11 ≠ p12) (a b r : P)
    (ha : onLineOf p11 p12 a) (hb : onLineOf p11 p12 b)
    (hab : a ≠ b) :
    onSegment a b r ↔ onLineOf p11 p12 r ∧
      between (lineKey p11 p12 r) (lineKey p11 p12 a) (lineKey p11 p12 b) := by
  have hkab : lineKey p11 p12 a ≠ lineKey p11 p12 b := fun h =>
    hab (lineKey_inj p11 p12 hne a b ha hb h)
  constructor
  · intro hr
    refine ⟨onSegment_onLine p11 p12 a b r ha hb hr, ?_⟩
    rw [onSegment_iff] at hr
    obtain ⟨t, h0, h1, hx, hy⟩ := hr
    have hk : lineKey p11 p12 r = lineKey p11 p12 a
        + (lineKey p11 p12 b - lineKey p11 p12 a) * t := by
      unfold lineKey
      split_ifs
      · exact hx
      · exact hy
    have hb' := (between_iff_param (lineKey p11 p12 r) (lineKey p11 p12 a)
      (lineKey p11 p12 b - lineKey p11 p12 a) (sub_ne_zero.mpr (Ne.symm hkab))).mp
    have e : (lineKey p11 p12 r - lineKey p11 p12 a) / (lineKey p11 p12 b - lineKey p11 p12 a)
        = t := by
      rw [hk]
      field_simp [sub_ne_zero.mpr (Ne.symm hkab)]
    rw [e] at hb'
    have := hb' ⟨h0, h1⟩
    simpa using this
  · rintro ⟨hr, hbt⟩
    have hc : lineKey p11 p12 b - lineKey p11 p12 a ≠ 0 := sub_ne_zero.mpr (Ne.symm hkab)
    have hbt' : between (lineKey p11 p12 r) (lineKey p11 p12 a)
        (lineKey p11 p12 a + (lineKey p11 p12 b - lineKey p11 p12 a)) := by
      simpa using hbt
    obtain ⟨h0, h1⟩ := (between_iff_param _ _ _ hc).mpr hbt'
    rw [onSegment_iff]
    refine ⟨_, h0, h1, ?_⟩
    unfold onLineOf at ha hb hr
    unfold lineKey at hc ⊢
    by_cases hx : p12.x - p11.x ≠ 0
    · simp only [if_pos hx] at hc ⊢
      constructor
      · field_simp
      · have h2 : (p12.x - p11.x) * ((r.y - a.y) * (b.x - a.x) - (b.y - a.y) * (r.x - a.x)) = 0 := by
          linear_combination (b.x - a.x) * hr - (b.x - r.x) * ha - (r.x - a.x) * hb
        have h3 : (r.y - a.y) * (b.x - a.x) - (b.y - a.y) * (r.x - a.x) = 0 := by
          rcases mul_eq_zero.mp h2 with h | h
          · exact absurd h hx
          · exact h
        field_simp
        linear_combination h3
    · simp only [if_neg hx] at hc ⊢
      have hx0 : p12.x - p11.x = 0 := not_not.mp hx
      have hy := dir_y_ne_zero p11 p12 hne hx0
      have hrx : r.x = p11.x := by
        have h1 : (p12.y - p11.y) * (r.x - p11.x) = 0 := by
          linear_combination -hr + (r.y - p11.y) * hx0
        rcases mul_eq_zero.mp h1 with h | h
        · exact absurd h hy
        · linarith
      have hax : a.x = p11.x := by
        have h1 : (p12.y - p11.y) * (a.x - p11.x) = 0 := by
          linear_combination -ha + (a.y - p11.y) * hx0
        rcases mul_eq_zero.mp h1 with h | h
        · exact absurd h hy
        · linarith
      have hbx : b.x = p11.x := by
        have h1 : (p12.y - p11.y) * (b.x - p11.x) = 0 := by
          linear_combination -hb + (b.y - p11.y) * hx0
        rcases mul_eq_zero.mp h1 with h | h
        · exact absurd h hy
        · linarith
      constructor
      · rw [hrx, hax, hbx]; ring
      · field_simp



/-- The denominator of `handleLineLine` in coordinates. -/
theorem cross_dirs (p11 p12 p21 p22 : P) :
    (p22.minus p21).cross (p12.minus p11)
      = (p22.x - p21.x) * (p12.y - p11.y) - (p22.y - p21.y) * (p12.x - p11.x) := by
  simp [P.cross, P.minus]

/-- The test `dist == 0.0` of `handleLineLine` in coordinates: the first point
of the second segment is on the line of the second direction through `p11`. -/
theorem dist_isZero_iff (p11 p21 p22 : P) :
    (((P.mk (-(p22.minus p21).y) (p22.minus p21).x).divide (p22.minus p21).norm).dotP
        (p21.minus p11)).abs.isZero = true
      ↔ (p22.x - p21.x) * (p21.y - p11.y) - (p22.y - p21.y) * (p21.x - p11.x) = 0 := by
  simp only [Scaled.isZero, Scaled.abs, ScaledP.dotP, P.divide, P.dot, P.minus,
    decide_eq_true_eq, abs_eq_zero]
  constructor <;> intro h <;> linarith

/-- Segments that are not parallel share at most the point with the parameters
`u1`, `u2` of the source, and share it exactly when both are in `[0,1]`. -/
theorem transversal_shared (p11 p12 p21 p22 r : P)
    (hden : (p22.x - p21.x) * (p12.y - p11.y) - (p22.y - p21.y) * (p12.x - p11.x) ≠ 0) :
    let den := (p22.x - p21.x) * (p12.y - p11.y) - (p22.y - p21.y) * (p12.x - p11.x)
    let u1 := (-p21.x * (p22.y - p21.y) + p11.x * (p22.y - p21.y)
      + (p21.y - p11.y) * (p22.x - p21.x)) / den
    let u2 := (-p21.x * (p12.y - p11.y) + p11.x * (p12.y - p11.y)
      + (p21.y - p11.y) * (p12.x - p11.x)) / den
    sharedPoint p11 p12 p21 p22 r ↔
      (0 ≤ u1 ∧ u1 ≤ 1 ∧ 0 ≤ u2 ∧ u2 ≤ 1) ∧ r = p11.plus ((p12.minus p11).multi u1) := by
  intro den u1 u2
  unfold sharedPoint
  rw [onSegment_iff, onSegment_iff]
  constructor
  · rintro ⟨⟨t, t0, t1, hx1, hy1⟩, ⟨s, s0, s1, hx2, hy2⟩⟩
    have ht : t = u1 := by
      show t = _ / den
      rw [eq_div_iff hden]
      show t * ((p22.x - p21.x) * (p12.y - p11.y) - (p22.y - p21.y) * (p12.x - p11.x)) = _
      linear_combination (p22.x - p21.x) * (hy2 - hy1) - (p22.y - p21.y) * (hx2 - hx1)
    have hs : s = u2 := by
      show s = _ / den
      rw [eq_div_iff hden]
      show s * ((p22.x - p21.x) * (p12.y - p11.y) - (p22.y - p21.y) * (p12.x - p11.x)) = _
      linear_combination (p12.x - p11.x) * (hy2 - hy1) - (p12.y - p11.y) * (hx2 - hx1)
    refine ⟨⟨ht ▸ t0, ht ▸ t1, hs ▸ s0, hs ▸ s1⟩, ?_⟩
    rw [P.eq_iff]
    simp only [P.plus, P.minus, P.multi]
    rw [← ht]
    exact ⟨hx1, hy1⟩
  · rintro ⟨⟨a0, a1, b0, b1⟩, hr⟩
    rw [P.eq_iff] at hr
    simp only [P.plus, P.minus, P.multi] at hr
    refine ⟨⟨u1, a0, a1, hr.1, hr.2⟩, ⟨u2, b0, b1, ?_, ?_⟩⟩
    · rw [hr.1]
      show _ + _ * (_ / den) = _ + _ * (_ / den)
      field_simp
      ring
    · rw [hr.2]
      show _ + _ * (_ / den) = _ + _ * (_ / den)
      field_simp
      ring

/-- Parallel segments on different lines share no point. -/
theorem parallel_apart_no_shared (p11 p12 p21 p22 r : P)
    (hden : (p22.x - p21.x) * (p12.y - p11.y) - (p22.y - p21.y) * (p12.x - p11.x) = 0)
    (hdist : (p22.x - p21.x) * (p21.y - p11.y) - (p22.y - p21.y) * (p21.x - p11.x) ≠ 0) :
    ¬ sharedPoint p11 p12 p21 p22 r := by
  unfold sharedPoint
  rw [onSegment_iff, onSegment_iff]
  rintro ⟨⟨t, _, _, hx1, hy1⟩, ⟨s, _, _, hx2, hy2⟩⟩
  apply hdist
  linear_combination t * hden + (p22.x - p21.x) * (hy1 - hy2) - (p22.y - p21.y) * (hx1 - hx2)

/-- The points that pass the filter of `handleLineLine` are the end points
whose parameter on the other segment is in `[0,1]`. -/
theorem kept_mem (u11 u12 u21 u22 : ℚ) (p11 p12 p21 p22 q : P) :
    q ∈ List.map (fun partPoint : ℚ × P => partPoint.2)
        (List.filter (fun partPoint : ℚ × P => decide (0 ≤ partPoint.1 ∧ partPoint.1 ≤ 1))
          [(u11, p21), (u12, p22), (u21, p11), (u22, p12)])
      ↔ (q = p21 ∧ 0 ≤ u11 ∧ u11 ≤ 1) ∨ (q = p22 ∧ 0 ≤ u12 ∧ u12 ≤ 1)
        ∨ (q = p11 ∧ 0 ≤ u21 ∧ u21 ≤ 1) ∨ (q = p12 ∧ 0 ≤ u22 ∧ u22 ≤ 1) := by
  simp only [List.mem_map, List.mem_filter, List.mem_cons, List.mem_singleton,
    decide_eq_true_eq, Prod.exists, List.not_mem_nil, or_false]
  constructor
  · rintro ⟨u, p, ⟨h | h | h | h, hu⟩, rfl⟩
    · simp only [Prod.mk.injEq] at h; obtain ⟨rfl, rfl⟩ := h; exact Or.inl ⟨rfl, hu⟩
    · simp only [Prod.mk.injEq] at h; obtain ⟨rfl, rfl⟩ := h; exact Or.inr (Or.inl ⟨rfl, hu⟩)
    · simp only [Prod.mk.injEq] at h; obtain ⟨rfl, rfl⟩ := h
      exact Or.inr (Or.inr (Or.inl ⟨rfl, hu⟩))
    · simp only [Prod.mk.injEq] at h; obtain ⟨rfl, rfl⟩ := h
      exact Or.inr (Or.inr (Or.inr ⟨rfl, hu⟩))
  · rintro (⟨rfl, hu⟩ | ⟨rfl, hu⟩ | ⟨rfl, hu⟩ | ⟨rfl, hu⟩)
    · exact ⟨u11, _, ⟨Or.inl rfl, hu⟩, rfl⟩
    · exact ⟨u12, _, ⟨Or.inr (Or.inl rfl), hu⟩, rfl⟩
    · exact ⟨u21, _, ⟨Or.inr (Or.inr (Or.inl rfl)), hu⟩, rfl⟩
    · exact ⟨u22, _, ⟨Or.inr (Or.inr (Or.inr rfl)), hu⟩, rfl⟩

/-- At most four points pass the filter of `handleLineLine`. -/
theorem kept_length (u11 u12 u21 u22 : ℚ) (p11 p12 p21 p22 : P) :
    (List.map (fun partPoint : ℚ × P => partPoint.2)
        (List.filter (fun partPoint : ℚ × P => decide (0 ≤ partPoint.1 ∧ partPoint.1 ≤ 1))
          [(u11, p21), (u12, p22), (u21, p11), (u22, p12)])).length ≤ 4 := by
  rw [List.length_map]
  exact List.length_filter_le _ _

/-- The three outcomes of `overlappingPointsResult` on at most four points. -/
theorem overlappingPointsResult_cases (K : List P) (hlen : K.length ≤ 4) :
    (K = [] ∧ overlappingPointsResult K = .Empty) ∨
    (∃ q, K = [q] ∧ overlappingPointsResult K = .Point q) ∨
    (∃ F G, F ∈ K ∧ G ∈ K ∧ (∀ q ∈ K, lexLe q F ∧ lexLe G q) ∧
      overlappingPointsResult K = Line.create F G) := by
  match K, hlen with
  | [], _ =>
    left
    exact ⟨rfl, by simp [overlappingPointsResult]⟩
  | [q], _ =>
    right; left
    exact ⟨q, rfl, by simp [overlappingPointsResult]⟩
  | a :: b :: t, hlen =>
    right; right
    obtain ⟨F, G, hF, hG, mF, mG, hall⟩ := sortByToVector_ends (a :: b :: t) (by simp)
    refine ⟨F, G, mF, mG, hall, ?_⟩
    have hsize : (a :: b :: t).length = 2 ∨ (a :: b :: t).length = 3 ∨ (a :: b :: t).length = 4 := by
      simp only [List.length_cons] at hlen ⊢
      omega
    simp only [overlappingPointsResult, if_pos hsize, hF, hG]


/-- A common value of two intervals is at least one of the four interval ends
that lies in the other interval. -/
theorem extreme_low (A1 B1 A2 B2 x : ℚ) (h1 : between x A1 B1) (h2 : between x A2 B2) :
    (between A2 A1 B1 ∧ A2 ≤ x) ∨ (between B2 A1 B1 ∧ B2 ≤ x)
      ∨ (between A1 A2 B2 ∧ A1 ≤ x) ∨ (between B1 A2 B2 ∧ B1 ≤ x) := by
  unfold between at *
  rcases h1 with ⟨a, b⟩ | ⟨a, b⟩ <;> rcases h2 with ⟨c, d⟩ | ⟨c, d⟩ <;>
    rcases le_total A1 A2 with g1 | g1 <;> rcases le_total A1 B2 with g2 | g2 <;>
    rcases le_total B1 A2 with g3 | g3 <;> rcases le_total B1 B2 with g4 | g4 <;>
    first
      | exact Or.inl ⟨Or.inl ⟨by linarith, by linarith⟩, by linarith⟩
      | exact Or.inl ⟨Or.inr ⟨by linarith, by linarith⟩, by linarith⟩
      | exact Or.inr (Or.inl ⟨Or.inl ⟨by linarith, by linarith⟩, by linarith⟩)
      | exact Or.inr (Or.inl ⟨Or.inr ⟨by linarith, by linarith⟩, by linarith⟩)
      | exact Or.inr (Or.inr (Or.inl ⟨Or.inl ⟨by linarith, by linarith⟩, by linarith⟩))
      | exact Or.inr (Or.inr (Or.inl ⟨Or.inr ⟨by linarith, by linarith⟩, by linarith⟩))
      | exact Or.inr (Or.inr (Or.inr ⟨Or.inl ⟨by linarith, by linarith⟩, by linarith⟩))
      | exact Or.inr (Or.inr (Or.inr ⟨Or.inr ⟨by linarith, by linarith⟩, by linarith⟩))

/-- A common value of two intervals is at most one of the four interval ends
that lies in the other interval. -/
theorem extreme_high (A1 B1 A2 B2 x : ℚ) (h1 : between x A1 B1) (h2 : between x A2 B2) :
    (between A2 A1 B1 ∧ x ≤ A2) ∨ (between B2 A1 B1 ∧ x ≤ B2)
      ∨ (between A1 A2 B2 ∧ x ≤ A1) ∨ (between B1 A2 B2 ∧ x ≤ B1) := by
  unfold between at *
  rcases h1 with ⟨a, b⟩ | ⟨a, b⟩ <;> rcases h2 with ⟨c, d⟩ | ⟨c, d⟩ <;>
    rcases le_total A1 A2 with g1 | g1 <;> rcases le_total A1 B2 with g2 | g2 <;>
    rcases le_total B1 A2 with g3 | g3 <;> rcases le_total B1 B2 with g4 | g4 <;>
    first
      | exact Or.inl ⟨Or.inl ⟨by linarith, by linarith⟩, by linarith⟩
      | exact Or.inl ⟨Or.inr ⟨by linarith, by linarith⟩, by linarith⟩
      | exact Or.inr (Or.inl ⟨Or.inl ⟨by linarith, by linarith⟩, by linarith⟩)
      | exact Or.inr (Or.inl ⟨Or.inr ⟨by linarith, by linarith⟩, by linarith⟩)
      | exact Or.inr (Or.inr (Or.inl ⟨Or.inl ⟨by linarith, by linarith⟩, by linarith⟩))
      | exact Or.inr (Or.inr (Or.inl ⟨Or.inr ⟨by linarith, by linarith⟩, by linarith⟩))
      | exact Or.inr (Or.inr (Or.inr ⟨Or.inl ⟨by linarith, by linarith⟩, by linarith⟩))
      | exact Or.inr (Or.inr (Or.inr ⟨Or.inr ⟨by linarith, by linarith⟩, by linarith⟩))

/-- The first end of an interval is in the interval. -/
theorem between_self_left (a b : ℚ) : between a a b := by
  unfold between
  rcases le_total a b with h | h
  · exact Or.inl ⟨le_refl _, h⟩
  · exact Or.inr ⟨h, le_refl _⟩

/-- The second end of an interval is in the interval. -/
theorem between_self_right (a b : ℚ) : between b a b := by
  unfold between
  rcases le_total a b with h | h
  · exact Or.inl ⟨h, le_refl _⟩
  · exact Or.inr ⟨le_refl _, h⟩

/-- The first point of a line is on the line. -/
theorem onLineOf_first (p11 p12 : P) : onLineOf p11 p12 p11 := by
  unfold onLineOf; ring

/-- The second point of a line is on the line. -/
theorem onLineOf_second (p11 p12 : P) : onLineOf p11 p12 p12 := by
  unfold onLineOf; ring

/-- When both tests of the collinear branch of `handleLineLine` succeed, the
second segment lies on the line of the first. -/
theorem collinear_onLine (p11 p12 p21 p22 : P) (h2 : p21 ≠ p22)
    (hden : (p22.x - p21.x) * (p12.y - p11.y) - (p22.y - p21.y) * (p12.x - p11.x) = 0)
    (hdist : (p22.x - p21.x) * (p21.y - p11.y) - (p22.y - p21.y) * (p21.x - p11.x) = 0) :
    onLineOf p11 p12 p21 ∧ onLineOf p11 p12 p22 := by
  have hx : (p22.x - p21.x)
      * ((p12.x - p11.x) * (p21.y - p11.y) - (p12.y - p11.y) * (p21.x - p11.x)) = 0 := by
    linear_combination (p12.x - p11.x) * hdist - (p21.x - p11.x) * hden
  have hy : (p22.y - p21.y)
      * ((p12.x - p11.x) * (p21.y - p11.y) - (p12.y - p11.y) * (p21.x - p11.x)) = 0 := by
    linear_combination (p12.y - p11.y) * hdist - (p21.y - p11.y) * hden
  have h21 : (p12.x - p11.x) * (p21.y - p11.y) - (p12.y - p11.y) * (p21.x - p11.x) = 0 := by
    rcases mul_eq_zero.mp hx with h | h
    · rcases mul_eq_zero.mp hy with h' | h'
      · exfalso
        apply h2
        rw [P.eq_iff]
        constructor <;> linarith
      · exact h'
    · exact h
  refine ⟨h21, ?_⟩
  unfold onLineOf
  linear_combination h21 - hden

/-- For collinear segments a point is shared exactly when it is on the common
line and its ordering coordinate is in both intervals. -/
theorem shared_iff_between (p11 p12 p21 p22 r : P) (h1 : p11 ≠ p12) (h2 : p21 ≠ p22)
    (hl1 : onLineOf p11 p12 p21) (hl2 : onLineOf p11 p12 p22) :
    sharedPoint p11 p12 p21 p22 r ↔ onLineOf p11 p12 r ∧
      between (lineKey p11 p12 r) (lineKey p11 p12 p11) (lineKey p11 p12 p12) ∧
      between (lineKey p11 p12 r) (lineKey p11 p12 p21) (lineKey p11 p12 p22) := by
  unfold sharedPoint
  rw [onSegment_iff_between p11 p12 h1 p11 p12 r (onLineOf_first _ _) (onLineOf_second _ _) h1,
    onSegment_iff_between p11 p12 h1 p21 p22 r hl1 hl2 h2]
  tauto

/-- The collinear branch of `handleLineLine` describes the shared points. -/
theorem collinear_describes (p11 p12 p21 p22 : P) (h1 : p11 ≠ p12) (h2 : p21 ≠ p22)
    (hl1 : onLineOf p11 p12 p21) (hl2 : onLineOf p11 p12 p22) (K : List P)
    (hK : ∀ q, q ∈ K ↔
      (q = p21 ∧ between (lineKey p11 p12 p21) (lineKey p11 p12 p11) (lineKey p11 p12 p12))
      ∨ (q = p22 ∧ between (lineKey p11 p12 p22) (lineKey p11 p12 p11) (lineKey p11 p12 p12))
      ∨ (q = p11 ∧ between (lineKey p11 p12 p11) (lineKey p11 p12 p21) (lineKey p11 p12 p22))
      ∨ (q = p12 ∧ between (lineKey p11 p12 p12) (lineKey p11 p12 p21) (lineKey p11 p12 p22)))
    (hlen : K.length ≤ 4) :
    describesSet (overlappingPointsResult K) (sharedPoint p11 p12 p21 p22) := by
  have hs := fun r => shared_iff_between p11 p12 p21 p22 r h1 h2 hl1 hl2
  have l11 := onLineOf_first p11 p12
  have l12 := onLineOf_second p11 p12
  -- every kept point is shared
  have kept_shared : ∀ q ∈ K, sharedPoint p11 p12 p21 p22 q := by
    intro q hq
    rw [hs]
    rcases (hK q).mp hq with ⟨rfl, hb⟩ | ⟨rfl, hb⟩ | ⟨rfl, hb⟩ | ⟨rfl, hb⟩
    · exact ⟨hl1, hb, between_self_left _ _⟩
    · exact ⟨hl2, hb, between_self_right _ _⟩
    · exact ⟨l11, between_self_left _ _, hb⟩
    · exact ⟨l12, between_self_right _ _, hb⟩
  -- every shared point lies between two kept points
  have low : ∀ r, sharedPoint p11 p12 p21 p22 r →
      ∃ m ∈ K, lineKey p11 p12 m ≤ lineKey p11 p12 r := by
    intro r hr
    obtain ⟨_, hb1, hb2⟩ := (hs r).mp hr
    rcases extreme_low _ _ _ _ _ hb1 hb2 with ⟨hb, hle⟩ | ⟨hb, hle⟩ | ⟨hb, hle⟩ | ⟨hb, hle⟩
    · exact ⟨p21, (hK _).mpr (Or.inl ⟨rfl, hb⟩), hle⟩
    · exact ⟨p22, (hK _).mpr (Or.inr (Or.inl ⟨rfl, hb⟩)), hle⟩
    · exact ⟨p11, (hK _).mpr (Or.inr (Or.inr (Or.inl ⟨rfl, hb⟩))), hle⟩
    · exact ⟨p12, (hK _).mpr (Or.inr (Or.inr (Or.inr ⟨rfl, hb⟩))), hle⟩
  have high : ∀ r, sharedPoint p11 p12 p21 p22 r →
      ∃ m ∈ K, lineKey p11 p12 r ≤ lineKey p11 p12 m := by
    intro r hr
    obtain ⟨_, hb1, hb2⟩ := (hs r).mp hr
    rcases extreme_high _ _ _ _ _ hb1 hb2 with ⟨hb, hle⟩ | ⟨hb, hle⟩ | ⟨hb, hle⟩ | ⟨hb, hle⟩
    · exact ⟨p21, (hK _).mpr (Or.inl ⟨rfl, hb⟩), hle⟩
    · exact ⟨p22, (hK _).mpr (Or.inr (Or.inl ⟨rfl, hb⟩)), hle⟩
    · exact ⟨p11, (hK _).mpr (Or.inr (Or.inr (Or.inl ⟨rfl, hb⟩))), hle⟩
    · exact ⟨p12, (hK _).mpr (Or.inr (Or.inr (Or.inr ⟨rfl, hb⟩))), hle⟩
  have kept_line : ∀ q ∈ K, onLineOf p11 p12 q := fun q hq => ((hs q).mp (kept_shared q hq)).1
  rcases overlappingPointsResult_cases K hlen with ⟨hnil, hres⟩ | ⟨q, hq, hres⟩
      | ⟨F, G, mF, mG, hall, hres⟩
  · rw [hres]
    intro r hr
    obtain ⟨m, hm, _⟩ := low r hr
    rw [hnil] at hm
    simp at hm
  · rw [hres]
    intro r
    have hqK : q ∈ K := by rw [hq]; simp
    constructor
    · intro hr
      obtain ⟨m, hm, hle⟩ := low r hr
      obtain ⟨M, hM, hge⟩ := high r hr
      rw [hq] at hm hM
      simp only [List.mem_singleton] at hm hM
      rw [hm] at hle
      rw [hM] at hge
      exact lineKey_inj p11 p12 h1 r q ((hs r).mp hr).1 (kept_line q hqK) (le_antisymm hge hle)
    · rintro rfl
      exact kept_shared r hqK
  · rw [hres]
    have lF := kept_line F mF
    have lG := kept_line G mG
    have hGF : lexLe G F := (hall F mF).2
    have key_bounds : ∀ r, sharedPoint p11 p12 p21 p22 r →
        lineKey p11 p12 G ≤ lineKey p11 p12 r ∧ lineKey p11 p12 r ≤ lineKey p11 p12 F := by
      intro r hr
      obtain ⟨m, hm, hle⟩ := low r hr
      obtain ⟨M, hM, hge⟩ := high r hr
      have e1 := (lexLe_iff_key p11 p12 h1 G m lG (kept_line m hm)).mp (hall m hm).2
      have e2 := (lexLe_iff_key p11 p12 h1 M F (kept_line M hM) lF).mp (hall M hM).1
      exact ⟨le_trans e1 hle, le_trans hge e2⟩
    unfold Line.create
    by_cases hFG : F = G
    · have heq : F.equal G = true := (P.equal_iff F G).mpr hFG
      rw [if_pos heq]
      intro r
      constructor
      · intro hr
        obtain ⟨b1, b2⟩ := key_bounds r hr
        rw [← hFG] at b1
        exact lineKey_inj p11 p12 h1 r F ((hs r).mp hr).1 lF (le_antisymm b2 b1)
      · rintro rfl
        exact kept_shared r mF
    · have hne : ¬ F.equal G = true := fun h => hFG ((P.equal_iff F G).mp h)
      rw [if_neg hne]
      refine ⟨hFG, hGF, fun r => ?_⟩
      rw [onSegment_iff_between p11 p12 h1 F G r lF lG hFG]
      constructor
      · intro hr
        obtain ⟨b1, b2⟩ := key_bounds r hr
        exact ⟨((hs r).mp hr).1, Or.inr ⟨b1, b2⟩⟩
      · rintro ⟨hrl, hrb⟩
        rw [hs]
        have sF := (hs F).mp (kept_shared F mF)
        have sG := (hs G).mp (kept_shared G mG)
        exact ⟨hrl, between_trans _ _ _ _ _ hrb sF.2.1 sG.2.1,
          between_trans _ _ _ _ _ hrb sF.2.2 sG.2.2⟩

/-- The parameter test of the source, with the second end of the interval
named. -/
theorem param_between (x A B c : ℚ) (hc : c ≠ 0) (hB : B - A = c) :
    (0 ≤ (x - A) / c ∧ (x - A) / c ≤ 1) ↔ between x A B := by
  have : B = A + c := by linarith
  rw [this]
  exact between_iff_param x A c hc

/-- The first coordinate of a difference. -/
theorem P.minus_x (a b : P) : (a.minus b).x = a.x - b.x := rfl

/-- The second coordinate of a difference. -/
theorem P.minus_y (a b : P) : (a.minus b).y = a.y - b.y := rfl

/-- Parallel segments with distinct end points have extent in `x` together. -/
theorem parallel_dir_x (p11 p12 p21 p22 : P) (h1 : p11 ≠ p12) (h2 : p21 ≠ p22)
    (hden : (p22.x - p21.x) * (p12.y - p11.y) - (p22.y - p21.y) * (p12.x - p11.x) = 0) :
    p12.x - p11.x ≠ 0 ↔ p22.x - p21.x ≠ 0 := by
  constructor
  · intro hx hx2
    have hy : p22.y - p21.y ≠ 0 := by
      intro hy
      apply h2
      rw [P.eq_iff]
      constructor <;> linarith
    have : (p22.y - p21.y) * (p12.x - p11.x) = 0 := by
      linear_combination (p12.y - p11.y) * hx2 - hden
    rcases mul_eq_zero.mp this with h | h
    · exact hy h
    · exact hx h
  · intro hx2 hx
    have hy : p12.y - p11.y ≠ 0 := by
      intro hy
      apply h1
      rw [P.eq_iff]
      constructor <;> linarith
    have : (p22.x - p21.x) * (p12.y - p11.y) = 0 := by
      linear_combination hden + (p22.y - p21.y) * hx
    rcases mul_eq_zero.mp this with h | h
    · exact hx2 h
    · exact hy h

/-- For segments with distinct end points `handleLineLine` describes the set
of points shared by the two closed segments. -/
theorem handleLineLine_describes (p11 p12 p21 p22 : P) (h1 : p11 ≠ p12) (h2 : p21 ≠ p22) :
    describesSet (handleLineLine p11 p12 p21 p22) (sharedPoint p11 p12 p21 p22) := by
  simp only [handleLineLine, cross_dirs, dist_isZero_iff]
  simp only [P.minus_x, P.minus_y]
  by_cases hden : (p22.x - p21.x) * (p12.y - p11.y) - (p22.y - p21.y) * (p12.x - p11.x) = 0
  · rw [if_pos hden]
    by_cases hdist : (p22.x - p21.x) * (p21.y - p11.y) - (p22.y - p21.y) * (p21.x - p11.x) = 0
    · rw [if_pos hdist]
      obtain ⟨hl1, hl2⟩ := collinear_onLine p11 p12 p21 p22 h2 hden hdist
      apply collinear_describes p11 p12 p21 p22 h1 h2 hl1 hl2 _ _ (kept_length _ _ _ _ _ _ _ _)
      intro q
      rw [kept_mem]
      have hxx := parallel_dir_x p11 p12 p21 p22 h1 h2 hden
      by_cases hx : p12.x - p11.x ≠ 0
      · have hx2 : p22.x - p21.x ≠ 0 := hxx.mp hx
        simp only [if_pos hx, if_pos hx2, lineKey]
        rw [param_between p21.x p11.x p12.x _ hx rfl, param_between p22.x p11.x p12.x _ hx rfl,
          param_between p11.x p21.x p22.x _ hx2 rfl, param_between p12.x p21.x p22.x _ hx2 rfl]
      · have hx2 : ¬ (p22.x - p21.x ≠ 0) := fun h => hx (hxx.mpr h)
        have hy : p12.y - p11.y ≠ 0 := dir_y_ne_zero p11 p12 h1 (not_not.mp hx)
        have hy2 : p22.y - p21.y ≠ 0 := dir_y_ne_zero p21 p22 h2 (not_not.mp hx2)
        simp only [if_neg hx, if_neg hx2, lineKey]
        rw [param_between p21.y p11.y p12.y _ hy rfl, param_between p22.y p11.y p12.y _ hy rfl,
          param_between p11.y p21.y p22.y _ hy2 rfl, param_between p12.y p21.y p22.y _ hy2 rfl]
    · rw [if_neg hdist]
      exact fun r => parallel_apart_no_shared p11 p12 p21 p22 r hden hdist
  · rw [if_neg hden]
    have hsh := fun r => transversal_shared p11 p12 p21 p22 r hden
    simp only at hsh
    split_ifs with hc
    · intro r
      rw [hsh r]
      constructor
      · exact fun h => h.2
      · exact fun h => ⟨hc, h⟩
    · intro r hr
      exact hc ((hsh r).mp hr).1

/-- The first end point is on the segment. -/
theorem onSegment_left (a b : P) : onSegment a b a := by
  rw [onSegment_iff]
  exact ⟨0, le_refl _, zero_le_one, by ring, by ring⟩

/-- The second end point is on the segment. -/
theorem onSegment_right (a b : P) : onSegment a b b := by
  rw [onSegment_iff]
  exact ⟨1, zero_le_one, le_refl _, by ring, by ring⟩

/-- A point of a segment is lexicographically between its end points. -/
theorem onSegment_lex_bounds (a b r : P) (hab : a ≠ b) (hlex : lexLe b a)
    (hr : onSegment a b r) : lexLe b r ∧ lexLe r a := by
  have la := onLineOf_first a b
  have lb := onLineOf_second a b
  obtain ⟨lr, hbt⟩ := (onSegment_iff_between a b hab a b r la lb hab).mp hr
  have hk := (lexLe_iff_key a b hab b a lb la).mp hlex
  rw [lexLe_iff_key a b hab b r lb lr, lexLe_iff_key a b hab r a lr la]
  unfold between at hbt
  rcases hbt with ⟨h1, h2⟩ | ⟨h1, h2⟩
  · constructor <;> linarith
  · exact ⟨h1, h2⟩

/-- C9. For segments with distinct end points `handleLineLine` returns exactly
the intersection of the two closed segments: `Empty` iff they share no point,
`Point q` iff they share exactly `q`, a `Line` iff they share more than one
point, and the end points of a returned `Line a b` are the lexicographic
maximum `a` and minimum `b` of the shared points, which fill the segment
between them. -/
theorem handleLineLine_is_segment_intersection (p11 p12 p21 p22 : P)
    (h1 : p11 ≠ p12) (h2 : p21 ≠ p22) :
    (handleLineLine p11 p12 p21 p22 = .Empty ↔ ∀ r, ¬ sharedPoint p11 p12 p21 p22 r) ∧
    (∀ q, handleLineLine p11 p12 p21 p22 = .Point q ↔
      ∀ r, sharedPoint p11 p12 p21 p22 r ↔ r = q) ∧
    ((∃ a b, handleLineLine p11 p12 p21 p22 = .Line a b) ↔
      ∃ r s, r ≠ s ∧ sharedPoint p11 p12 p21 p22 r ∧ sharedPoint p11 p12 p21 p22 s) ∧
    (∀ a b, handleLineLine p11 p12 p21 p22 = .Line a b →
      a ≠ b ∧ sharedPoint p11 p12 p21 p22 a ∧ sharedPoint p11 p12 p21 p22 b ∧
      (∀ r, sharedPoint p11 p12 p21 p22 r ↔ onSegment a b r) ∧
      ∀ r, sharedPoint p11 p12 p21 p22 r → lexLe b r ∧ lexLe r a) := by
  have D := handleLineLine_describes p11 p12 p21 p22 h1 h2
  generalize handleLineLine p11 p12 p21 p22 = res at D
  cases res with
  | Empty =>
    have D' : ∀ r, ¬ sharedPoint p11 p12 p21 p22 r := D
    refine ⟨⟨fun _ => D', fun _ => rfl⟩, ?_, ⟨?_, ?_⟩, ?_⟩
    · intro q
      constructor
      · intro h
        cases h
      · intro h
        exact absurd ((h q).mpr rfl) (D' q)
    · rintro ⟨_, _, h⟩
      cases h
    · rintro ⟨r, _, _, hr, _⟩
      exact absurd hr (D' r)
    · intro a b h
      cases h
  | Point q0 =>
    have D' : ∀ r, sharedPoint p11 p12 p21 p22 r ↔ r = q0 := D
    refine ⟨⟨?_, ?_⟩, ?_, ⟨?_, ?_⟩, ?_⟩
    · intro h
      cases h
    · intro h
      exact absurd ((D' q0).mpr rfl) (h q0)
    · intro q
      constructor
      · intro h
        cases h
        exact D'
      · intro h
        have : q0 = q := (h q0).mp ((D' q0).mpr rfl)
        rw [this]
    · rintro ⟨_, _, h⟩
      cases h
    · rintro ⟨r, s, hrs, hr, hs⟩
      exact absurd (((D' r).mp hr).trans ((D' s).mp hs).symm) hrs
    · intro a b h
      cases h
  | Line a b =>
    obtain ⟨hab, hlex, hS⟩ : a ≠ b ∧ lexLe b a ∧
      ∀ r, sharedPoint p11 p12 p21 p22 r ↔ onSegment a b r := D
    have sa := (hS a).mpr (onSegment_left a b)
    have sb := (hS b).mpr (onSegment_right a b)
    refine ⟨⟨?_, ?_⟩, ?_, ⟨fun _ => ⟨a, b, hab, sa, sb⟩, fun _ => ⟨a, b, rfl⟩⟩, ?_⟩
    · intro h
      cases h
    · intro h
      exact absurd sa (h a)
    · intro q
      constructor
      · intro h
        cases h
      · intro h
        exact absurd (((h a).mp sa).trans ((h b).mp sb).symm) hab
    · intro a' b' h
      cases h
      exact ⟨hab, sa, sb, hS, fun r hr => onSegment_lex_bounds a b r hab hlex ((hS r).mp hr)⟩
  | Polygon _ _ _ _ => exact absurd D id

/-- C9 at the overlapping collinear segments `(0,0)-(2,0)` and `(1,0)-(3,0)`. -/
theorem handleLineLine_is_segment_intersection_witness :
    (P.mk 0 0 ≠ P.mk 2 0) ∧ (P.mk 1 0 ≠ P.mk 3 0) ∧
    ((handleLineLine ⟨0, 0⟩ ⟨2, 0⟩ ⟨1, 0⟩ ⟨3, 0⟩ = .Empty ↔
      ∀ r, ¬ sharedPoint ⟨0, 0⟩ ⟨2, 0⟩ ⟨1, 0⟩ ⟨3, 0⟩ r) ∧
    (∀ q, handleLineLine ⟨0, 0⟩ ⟨2, 0⟩ ⟨1, 0⟩ ⟨3, 0⟩ = .Point q ↔
      ∀ r, sharedPoint ⟨0, 0⟩ ⟨2, 0⟩ ⟨1, 0⟩ ⟨3, 0⟩ r ↔ r = q) ∧
    ((∃ a b, handleLineLine ⟨0, 0⟩ ⟨2, 0⟩ ⟨1, 0⟩ ⟨3, 0⟩ = .Line a b) ↔
      ∃ r s, r ≠ s ∧ sharedPoint ⟨0, 0⟩ ⟨2, 0⟩ ⟨1, 0⟩ ⟨3, 0⟩ r
        ∧ sharedPoint ⟨0, 0⟩ ⟨2, 0⟩ ⟨1, 0⟩ ⟨3, 0⟩ s) ∧
    (∀ a b, handleLineLine ⟨0, 0⟩ ⟨2, 0⟩ ⟨1, 0⟩ ⟨3, 0⟩ = .Line a b →
      a ≠ b ∧ sharedPoint ⟨0, 0⟩ ⟨2, 0⟩ ⟨1, 0⟩ ⟨3, 0⟩ a
      ∧ sharedPoint ⟨0, 0⟩ ⟨2, 0⟩ ⟨1, 0⟩ ⟨3, 0⟩ b ∧
      (∀ r, sharedPoint ⟨0, 0⟩ ⟨2, 0⟩ ⟨1, 0⟩ ⟨3, 0⟩ r ↔ onSegment a b r) ∧
      ∀ r, sharedPoint ⟨0, 0⟩ ⟨2, 0⟩ ⟨1, 0⟩ ⟨3, 0⟩ r → lexLe b r ∧ lexLe r a)) :=
  ⟨by decide!, by decide!,
    handleLineLine_is_segment_intersection ⟨0, 0⟩ ⟨2, 0⟩ ⟨1, 0⟩ ⟨3, 0⟩ (by decide!) (by decide!)⟩


/-! ## The number representation against the reals -/

/-- The comparison `Root.lt` is the comparison of the square roots. -/
theorem Root.lt_iff_sqrt_lt (r s : Root) (hr : 0 ≤ r.sq) :
    r.lt s = true ↔ Real.sqrt (r.sq : ℝ) < Real.sqrt (s.sq : ℝ) := by
  have hrr : (0 : ℝ) ≤ (r.sq : ℝ) := by exact_mod_cast hr
  unfold Root.lt
  rw [decide_eq_true_eq, Real.sqrt_lt_sqrt_iff hrr]
  exact_mod_cast Iff.rfl

/-- C11. The segment `(1,1)-(3,1)` lies inside the valid square
`(0,0),(4,0),(4,4),(0,4)`, yet the driver throws in either argument order; and
the edge walk `collideAll` on the segment `(3,1)-(5,1)`, which crosses the
edge `(4,0)-(4,4)` at `(4,1)`, tests only the edges `(0,0)-(4,0)` and
`(4,0)-(0,4)` and reports the point `(3,1)` alone. -/
theorem intersection_line_in_square_throws :
    validPolygonPoints [⟨0, 0⟩, ⟨4, 0⟩, ⟨4, 4⟩, ⟨0, 4⟩] = true ∧
    inClosedRegion [⟨0, 0⟩, ⟨4, 0⟩, ⟨4, 4⟩, ⟨0, 4⟩] ⟨1, 1⟩ = true ∧
    inClosedRegion [⟨0, 0⟩, ⟨4, 0⟩, ⟨4, 4⟩, ⟨0, 4⟩] ⟨3, 1⟩ = true ∧
    intersection 100 (.Line ⟨1, 1⟩ ⟨3, 1⟩) (.Polygon ⟨0, 0⟩ ⟨4, 0⟩ ⟨4, 4⟩ [⟨0, 4⟩])
        true true none none = .fault .thrown ∧
    intersection 100 (.Polygon ⟨0, 0⟩ ⟨4, 0⟩ ⟨4, 4⟩ [⟨0, 4⟩]) (.Line ⟨1, 1⟩ ⟨3, 1⟩)
        true true none none = .fault .thrown ∧
    handleLineLine ⟨3, 1⟩ ⟨5, 1⟩ ⟨4, 0⟩ ⟨4, 4⟩ = .Point ⟨4, 1⟩ ∧
    collideAll ⟨3, 1⟩ ⟨5, 1⟩ 10 [⟨0, 0⟩, ⟨4, 0⟩, ⟨4, 4⟩, ⟨0, 4⟩, ⟨0, 0⟩] []
      = .ok [.Point ⟨3, 1⟩] := by
  decide!

/-- C12. On a polygon, `handlePointPolygon` throws when the point is on the
left of, or on, the first edge and returns `Empty` otherwise, so it never
returns the point; for the point `(1,1)` inside the square
`(0,0),(4,0),(4,4),(0,4)` it throws where `pointInside` answers `true`. -/
theorem handlePointPolygon_never_point :
    (∀ (q p1 p2 p3 : P) (rest : List P),
      handlePointPolygon q (p1 :: p2 :: p3 :: rest) p1 =
        if (p2.minus p1).cross (q.minus p1) ≥ 0 then .fault .thrown else .ok .Empty) ∧
    validPolygonPoints [⟨0, 0⟩, ⟨4, 0⟩, ⟨4, 4⟩, ⟨0, 4⟩] = true ∧
    inClosedRegion [⟨0, 0⟩, ⟨4, 0⟩, ⟨4, 4⟩, ⟨0, 4⟩] ⟨1, 1⟩ = true ∧
    handlePointPolygon ⟨1, 1⟩ [⟨0, 0⟩, ⟨4, 0⟩, ⟨4, 4⟩, ⟨0, 4⟩] ⟨0, 0⟩ = .fault .thrown ∧
    pointInside [⟨0, 0⟩, ⟨4, 0⟩, ⟨4, 4⟩, ⟨0, 4⟩] (fun i => next i 4) ⟨1, 1⟩ = .ok true := by
  refine ⟨?_, by decide!, by decide!, by decide!, by decide!⟩
  intro q p1 p2 p3 rest
  unfold handlePointPolygon
  simp only [List.cons_append, goThroughPoly, goThroughPolyCaptured]
  split_ifs <;> rfl

/-! ## The pixel rasterizer -/

/-- Every call of `lineToPoints` returns a pixel set. -/
theorem lineToPoints_ok (c1 c2 middle : P) : ∃ s, PixelPerfect.lineToPoints c1 c2 middle = .ok s := by
  unfold PixelPerfect.lineToPoints
  simp only [bind, Run.bind, pure]
  split_ifs with h1 h2 h3 h4 h5
  · exact ⟨_, rfl⟩
  · exact ⟨_, rfl⟩
  · exact ⟨_, rfl⟩
  · exact ⟨_, rfl⟩
  · exact ⟨_, rfl⟩
  · exfalso
    omega

/-- C13. The point `(0.6, 0.6)` lies in the unit square of the pixel `(0,0)`,
yet `collisionTest` on `Point(0.6, 0.6)` with a test function that holds at the
pixel `(0,0)` only answers `false`; and on the valid triangle
`(0,0),(4,0),(0,4)`, whose region contains the corner `(1,1)` of the pixel
`(1,1)`, it throws for the test function that holds at that pixel only. -/
theorem collisionTest_misses_pixel :
    inPixel ⟨0, 0⟩ ⟨3 / 5, 3 / 5⟩ = true ∧
    PixelPerfect.collisionTest (.Point ⟨3 / 5, 3 / 5⟩) (fun p => decide (p = ⟨0, 0⟩))
      = .ok false ∧
    validPolygonPoints [⟨0, 0⟩, ⟨4, 0⟩, ⟨0, 4⟩] = true ∧
    inClosedRegion [⟨0, 0⟩, ⟨4, 0⟩, ⟨0, 4⟩] ⟨1, 1⟩ = true ∧
    inPixel ⟨1, 1⟩ ⟨1, 1⟩ = true ∧
    PixelPerfect.collisionTest (.Polygon ⟨0, 0⟩ ⟨4, 0⟩ ⟨0, 4⟩ []) (fun p => decide (p = ⟨1, 1⟩))
      = .fault .thrown := by
  decide!

/-- C14. On `Point(0.6, 0.6)` with a test function that holds at the pixel
`(0,0)` only, `collisionTest` answers `false`, while the outline with stoppage
of the polygon translated by `(-0.5, -0.5)` answers `Right true`: the outline
that `collisionTest` rasterises is the one of the polygon as given. -/
theorem collisionTest_outline_not_translated :
    PixelPerfect.collisionTest (.Point ⟨3 / 5, 3 / 5⟩) (fun p => decide (p = ⟨0, 0⟩))
      = .ok false ∧
    PixelPerfect.findOutlineStoppage
        ((ConvexCCWPolygon.Point ⟨3 / 5, 3 / 5⟩).translate ⟨-1 / 2, -1 / 2⟩)
        (fun p => decide (p = ⟨0, 0⟩))
      = .ok (.Right true) ∧
    collisionTestOfTranslated (.Point ⟨3 / 5, 3 / 5⟩) (fun p => decide (p = ⟨0, 0⟩))
      = .ok true := by
  decide!

/-- On two or more vertices the walk `findOutline2` throws after its first
edge. -/
theorem findOutline2_throws (middlePoint a b : P) (rest : List P) :
    PixelPerfect.findOutline2 middlePoint (a :: b :: rest) = .fault .thrown := by
  obtain ⟨s, hs⟩ := lineToPoints_ok a b middlePoint
  simp [PixelPerfect.findOutline2, PixelPerfect.findOutline2Captured, hs, bind, Run.bind]

/-- On two or more vertices the walk `findOutlineStoppage2` throws after its
first edge when the test function holds nowhere. -/
theorem findOutlineStoppage2_throws (middlePoint a b : P) (rest : List P) :
    PixelPerfect.findOutlineStoppage2 middlePoint (fun _ => false) (a :: b :: rest)
      = .fault .thrown := by
  obtain ⟨s, hs⟩ := lineToPoints_ok a b middlePoint
  simp [PixelPerfect.findOutlineStoppage2, PixelPerfect.findOutlineStoppage2Captured, hs, bind,
    Run.bind]

/-- C15. On every `Line` and every `Polygon`, `findOutline` throws, and so
does `findOutlineStoppage` with a test function that holds nowhere: neither
returns an outline. -/
theorem findOutlineStoppage_throws_beyond_point :
    (∀ p1 p2 : P, PixelPerfect.findOutline (.Line p1 p2) = .fault .thrown ∧
      PixelPerfect.findOutlineStoppage (.Line p1 p2) (fun _ => false) = .fault .thrown) ∧
    (∀ (p1 p2 p3 : P) (rest : List P),
      PixelPerfect.findOutline (.Polygon p1 p2 p3 rest) = .fault .thrown ∧
      PixelPerfect.findOutlineStoppage (.Polygon p1 p2 p3 rest) (fun _ => false)
        = .fault .thrown) := by
  refine ⟨fun p1 p2 => ⟨?_, ?_⟩, fun p1 p2 p3 rest => ⟨?_, ?_⟩⟩
  · simp [PixelPerfect.findOutline, ConvexCCWPolygon.middlePoint,
      PixelPerfect.polygonWithExtraEnd, ConvexCCWPolygon.points, findOutline2_throws, bind,
      Run.bind, pure]
  · simp [PixelPerfect.findOutlineStoppage, ConvexCCWPolygon.middlePoint,
      PixelPerfect.polygonWithExtraEnd, ConvexCCWPolygon.points, findOutlineStoppage2_throws,
      bind, Run.bind, pure]
  · simp [PixelPerfect.findOutline, ConvexCCWPolygon.middlePoint,
      PixelPerfect.polygonWithExtraEnd, findOutline2_throws, bind, Run.bind, pure]
  · simp [PixelPerfect.findOutlineStoppage, ConvexCCWPolygon.middlePoint,
      PixelPerfect.polygonWithExtraEnd, findOutlineStoppage2_throws, bind, Run.bind, pure]

/-- C17. From `(0,0)` to `(4,1)` the rasterizer returns
`(0,0),(1,0),(2,0),(3,1),(4,2)`: the end point `(4,1)` is not among the
pixels. -/
theorem bresenhamsLine_misses_end :
    PixelPerfect.bresenhamsLine ⟨0, 0⟩ ⟨4, 1⟩ = [⟨0, 0⟩, ⟨1, 0⟩, ⟨2, 0⟩, ⟨3, 1⟩, ⟨4, 2⟩] ∧
    (⟨4, 1⟩ : IP) ∉ PixelPerfect.bresenhamsLine ⟨0, 0⟩ ⟨4, 1⟩ ∧
    PixelPerfect.bresenhamsLine ⟨0, 0⟩ ⟨1, 4⟩ = [⟨0, 0⟩, ⟨0, 1⟩, ⟨0, 2⟩, ⟨1, 3⟩, ⟨1, 4⟩] := by
  refine ⟨by decide, ?_, by decide⟩
  have h : PixelPerfect.bresenhamsLine ⟨0, 0⟩ ⟨4, 1⟩
      = [⟨0, 0⟩, ⟨1, 0⟩, ⟨2, 0⟩, ⟨3, 1⟩, ⟨4, 2⟩] := by decide
  rw [h]
  decide

/-- C18. The middle point of `Line((0,0),(2,4))` is `(2,2)`, not the mean
`(1,2)` of its end points: for every line the first coordinate is
`(p1.x + p2.y) / 2`. -/
theorem Line_middlePoint_not_mean :
    (ConvexCCWPolygon.Line ⟨0, 0⟩ ⟨2, 4⟩).middlePoint = .ok ⟨2, 2⟩ ∧
    (ConvexCCWPolygon.Line ⟨0, 0⟩ ⟨2, 4⟩).middlePoint ≠ .ok ⟨(0 + 2) / 2, (0 + 4) / 2⟩ ∧
    (∀ p1 p2 : P, (ConvexCCWPolygon.Line p1 p2).middlePoint
      = .ok ⟨(p1.x + p2.y) / 2, (p1.y + p2.y) / 2⟩) := by
  refine ⟨by decide!, by decide!, fun p1 p2 => rfl⟩

/-! ## The span fill -/

/-- Two pixels that `IP::Comparer` does not order either way are equal. -/
theorem IP.comparer_trichotomy (p q : IP) (h1 : IP.comparer p q = false)
    (h2 : IP.comparer q p = false) : q = p := by
  cases p with
  | mk px py =>
  cases q with
  | mk qx qy =>
  simp only [IP.comparer, Bool.or_eq_false_iff, Bool.and_eq_false_iff, decide_eq_false_iff_not]
    at h1 h2
  simp only [IP.mk.injEq]
  omega

/-- The template `map` over transformations that all return. -/
theorem mapRun_spec {α β : Type} (transformationFunction : α → Run β) (R : α → β → Prop)
    (l : List α) (h : ∀ a ∈ l, ∃ b, transformationFunction a = .ok b ∧ R a b) :
    ∃ bs, PixelPerfect.mapRun transformationFunction l = .ok bs ∧
      (∀ b ∈ bs, ∃ a ∈ l, R a b) ∧ ∀ a ∈ l, ∃ b ∈ bs, R a b := by
  induction l with
  | nil => exact ⟨[], rfl, by simp, by simp⟩
  | cons a rest ih =>
    obtain ⟨b, hb, hR⟩ := h a (List.mem_cons_self _ _)
    obtain ⟨bs, hbs, h1, h2⟩ := ih (fun a ha => h a (List.mem_cons_of_mem _ ha))
    refine ⟨b :: bs, by simp [PixelPerfect.mapRun, hb, hbs, bind, Run.bind, pure], ?_, ?_⟩
    · intro c hc
      rcases List.mem_cons.mp hc with rfl | hc
      · exact ⟨a, List.mem_cons_self _ _, hR⟩
      · obtain ⟨a', ha', hR'⟩ := h1 c hc
        exact ⟨a', List.mem_cons_of_mem _ ha', hR'⟩
    · intro c hc
      rcases List.mem_cons.mp hc with rfl | hc
      · exact ⟨b, List.mem_cons_self _ _, hR⟩
      · obtain ⟨b', hb', hR'⟩ := h2 c hc
        exact ⟨b', List.mem_cons_of_mem _ hb', hR'⟩

/-- A matrix with determinant zero has no inverse. -/
theorem inverseNull_of_det_eq_zero (M : Matrix) (h : M.det = 0) : M.inverseNull = none := by
  unfold Matrix.det at h
  unfold Matrix.inverseNull
  simp only [h, ne_eq, not_true_eq_false, if_false]

/-- A matrix with a determinant other than zero has an inverse. -/
theorem inverseNull_of_det_ne_zero (M : Matrix) (h : M.det ≠ 0) :
    ∃ inv, M.inverseNull = some inv := by
  unfold Matrix.det at h
  unfold Matrix.inverseNull
  simp only [h, ne_eq, not_false_eq_true, if_true]
  exact ⟨_, rfl⟩

/-- The determinant of the matrix of a collision object. -/
theorem getTransformationMatrix_det (trig : Trig) (c : CollisionInfo) :
    (Transformation.getTransformationMatrix trig c).det =
      if c.angle ≠ 0 ∨ c.scaleX ≠ 1 ∨ c.scaleY ≠ 1 then
        c.scaleX * c.scaleY *
          (trig.cos c.angle * trig.sin (c.angle + trig.pi / 2)
            - trig.sin c.angle * trig.cos (c.angle + trig.pi / 2))
      else 1 := by
  unfold Transformation.getTransformationMatrix
  split_ifs with h
  · simp only [Matrix.det]
    ring
  · simp only [Matrix.det]
    ring

/-- A collision object scaled by zero along an axis has a matrix with
determinant zero. -/
theorem getTransformationMatrix_det_of_scale (trig : Trig) (c : CollisionInfo)
    (h : c.scaleX = 0 ∨ c.scaleY = 0) :
    (Transformation.getTransformationMatrix trig c).det = 0 := by
  rw [getTransformationMatrix_det]
  have hbranch : c.angle ≠ 0 ∨ c.scaleX ≠ 1 ∨ c.scaleY ≠ 1 := by
    rcases h with h | h
    · right; left; rw [h]; norm_num
    · right; right; rw [h]; norm_num
  rw [if_pos hbranch]
  rcases h with h | h <;> rw [h] <;> ring

/-- C19. When the matrix of either collision object has determinant zero, and
so whenever either object is scaled by zero along an axis, `testForCollision`
returns `false`; the determinant of the matrix of an object that is rotated or
scaled is `scaleX * scaleY * (cosA * sinA90 - sinA * cosA90)`. -/
theorem testForCollision_singular_is_false (trig : Trig) (fuel : Nat)
    (collInfo1 collInfo2 : CollisionInfo)
    (h : (Transformation.getTransformationMatrix trig collInfo1).det = 0 ∨
      (Transformation.getTransformationMatrix trig collInfo2).det = 0 ∨
      collInfo1.scaleX = 0 ∨ collInfo1.scaleY = 0 ∨
      collInfo2.scaleX = 0 ∨ collInfo2.scaleY = 0) :
    SimplePixelPerfectPairwise.testForCollision trig fuel collInfo1 collInfo2 = .ok false ∧
    ∀ c : CollisionInfo, (Transformation.getTransformationMatrix trig c).det =
      if c.angle ≠ 0 ∨ c.scaleX ≠ 1 ∨ c.scaleY ≠ 1 then
        c.scaleX * c.scaleY *
          (trig.cos c.angle * trig.sin (c.angle + trig.pi / 2)
            - trig.sin c.angle * trig.cos (c.angle + trig.pi / 2))
      else 1 := by
  refine ⟨?_, getTransformationMatrix_det trig⟩
  have hdet : (Transformation.getTransformationMatrix trig collInfo1).det = 0 ∨
      (Transformation.getTransformationMatrix trig collInfo2).det = 0 := by
    rcases h with h | h | h | h | h | h
    · exact Or.inl h
    · exact Or.inr h
    · exact Or.inl (getTransformationMatrix_det_of_scale trig collInfo1 (Or.inl h))
    · exact Or.inl (getTransformationMatrix_det_of_scale trig collInfo1 (Or.inr h))
    · exact Or.inr (getTransformationMatrix_det_of_scale trig collInfo2 (Or.inl h))
    · exact Or.inr (getTransformationMatrix_det_of_scale trig collInfo2 (Or.inr h))
  unfold SimplePixelPerfectPairwise.testForCollision
  rcases hdet with h1 | h2
  · simp only [inverseNull_of_det_eq_zero _ h1]
    rfl
  · simp only [inverseNull_of_det_eq_zero _ h2]
    cases (Transformation.getTransformationMatrix trig collInfo1).inverseNull <;> rfl

/-- C19, scenario: two unit-square masks, the first scaled by zero along `x`;
the test returns `false`. -/
theorem testForCollision_singular_is_false_witness :
    ((Transformation.getTransformationMatrix axisTrig ⟨unitSquareMask, ⟨0, 0⟩, 0, 0, 1, 1⟩).det = 0 ∨
      (Transformation.getTransformationMatrix axisTrig ⟨unitSquareMask, ⟨0, 0⟩, 0, 1, 1, 2⟩).det = 0 ∨
      (⟨unitSquareMask, ⟨0, 0⟩, 0, 0, 1, 1⟩ : CollisionInfo).scaleX = 0 ∨
      (⟨unitSquareMask, ⟨0, 0⟩, 0, 0, 1, 1⟩ : CollisionInfo).scaleY = 0 ∨
      (⟨unitSquareMask, ⟨0, 0⟩, 0, 1, 1, 2⟩ : CollisionInfo).scaleX = 0 ∨
      (⟨unitSquareMask, ⟨0, 0⟩, 0, 1, 1, 2⟩ : CollisionInfo).scaleY = 0) ∧
    (SimplePixelPerfectPairwise.testForCollision axisTrig 100
        ⟨unitSquareMask, ⟨0, 0⟩, 0, 0, 1, 1⟩ ⟨unitSquareMask, ⟨0, 0⟩, 0, 1, 1, 2⟩ = .ok false ∧
      ∀ c : CollisionInfo, (Transformation.getTransformationMatrix axisTrig c).det =
        if c.angle ≠ 0 ∨ c.scaleX ≠ 1 ∨ c.scaleY ≠ 1 then
          c.scaleX * c.scaleY *
            (axisTrig.cos c.angle * axisTrig.sin (c.angle + axisTrig.pi / 2)
              - axisTrig.sin c.angle * axisTrig.cos (c.angle + axisTrig.pi / 2))
        else 1) :=
  ⟨Or.inr (Or.inr (Or.inl rfl)),
    testForCollision_singular_is_false axisTrig 100 ⟨unitSquareMask, ⟨0, 0⟩, 0, 0, 1, 1⟩
      ⟨unitSquareMask, ⟨0, 0⟩, 0, 1, 1, 2⟩ (Or.inr (Or.inr (Or.inl rfl)))⟩

/-- The matrix of a collision object, branch by branch. -/
theorem getTransformationMatrix_eq (trig : Trig) (c : CollisionInfo) :
    Transformation.getTransformationMatrix trig c =
      if c.angle ≠ 0 ∨ c.scaleX ≠ 1 ∨ c.scaleY ≠ 1 then
        generalArray (trig.cos c.angle) (trig.sin c.angle) (trig.cos (c.angle + trig.pi / 2))
          (trig.sin (c.angle + trig.pi / 2)) c.scaleX c.scaleY c.mask.myOrigin.x
          c.mask.myOrigin.y c.position.x c.position.y
      else ⟨1, 0, -c.mask.myOrigin.x + c.position.x, 0, 1, -c.mask.myOrigin.y + c.position.y,
        0, 0, 1⟩ := by
  unfold Transformation.getTransformationMatrix generalArray
  split_ifs <;> rfl

/-- The entries of the general branch are those of the product of the four
reference matrices. -/
theorem generalArray_eq_product
    (cosA sinA cosA90 sinA90 scaleX scaleY originX originY posX posY : ℚ) :
    generalArray cosA sinA cosA90 sinA90 scaleX scaleY originX originY posX posY =
      (((posTransl ⟨posX, posY⟩).matrixMult (rot cosA sinA cosA90 sinA90)).matrixMult
        (scaling scaleX scaleY)).matrixMult (originTransl ⟨originX, originY⟩) := by
  simp only [generalArray, posTransl, rot, scaling, originTransl, Matrix.matrixMult,
    Matrix.mk.injEq]
  refine ⟨?_, ?_, ?_, ?_, ?_, ?_, ?_, ?_, ?_⟩ <;> ring

/-- C22. The nine entries written by the general branch equal, for all values
of the position, the origin, the scales and the four trigonometric values, the
product `posTransl * rot * scaling * originTransl` computed with `matrixMult`;
and whenever the object is rotated or scaled, the matrix returned for it is
that product. -/
theorem getTransformationMatrix_is_product (trig : Trig) (c : CollisionInfo)
    (h : c.angle ≠ 0 ∨ c.scaleX ≠ 1 ∨ c.scaleY ≠ 1) :
    Transformation.getTransformationMatrix trig c =
      (((posTransl c.position).matrixMult
          (rot (trig.cos c.angle) (trig.sin c.angle) (trig.cos (c.angle + trig.pi / 2))
            (trig.sin (c.angle + trig.pi / 2)))).matrixMult
        (scaling c.scaleX c.scaleY)).matrixMult (originTransl c.mask.myOrigin) ∧
    ∀ cosA sinA cosA90 sinA90 scaleX scaleY originX originY posX posY : ℚ,
      generalArray cosA sinA cosA90 sinA90 scaleX scaleY originX originY posX posY =
        (((posTransl ⟨posX, posY⟩).matrixMult (rot cosA sinA cosA90 sinA90)).matrixMult
          (scaling scaleX scaleY)).matrixMult (originTransl ⟨originX, originY⟩) := by
  refine ⟨?_, generalArray_eq_product⟩
  rw [getTransformationMatrix_eq, if_pos h, generalArray_eq_product]

/-- C22, scenario: the unit-square mask with origin `(0,0)`, moved to `(3,4)`
and scaled by `2` and `5`. -/
theorem getTransformationMatrix_is_product_witness :
    ((⟨unitSquareMask, ⟨3, 4⟩, 0, 2, 5, 1⟩ : CollisionInfo).angle ≠ 0 ∨
      (⟨unitSquareMask, ⟨3, 4⟩, 0, 2, 5, 1⟩ : CollisionInfo).scaleX ≠ 1 ∨
      (⟨unitSquareMask, ⟨3, 4⟩, 0, 2, 5, 1⟩ : CollisionInfo).scaleY ≠ 1) ∧
    (Transformation.getTransformationMatrix axisTrig ⟨unitSquareMask, ⟨3, 4⟩, 0, 2, 5, 1⟩ =
      (((posTransl (⟨unitSquareMask, ⟨3, 4⟩, 0, 2, 5, 1⟩ : CollisionInfo).position).matrixMult
          (rot (axisTrig.cos (⟨unitSquareMask, ⟨3, 4⟩, 0, 2, 5, 1⟩ : CollisionInfo).angle)
            (axisTrig.sin (⟨unitSquareMask, ⟨3, 4⟩, 0, 2, 5, 1⟩ : CollisionInfo).angle)
            (axisTrig.cos ((⟨unitSquareMask, ⟨3, 4⟩, 0, 2, 5, 1⟩ : CollisionInfo).angle
              + axisTrig.pi / 2))
            (axisTrig.sin ((⟨unitSquareMask, ⟨3, 4⟩, 0, 2, 5, 1⟩ : CollisionInfo).angle
              + axisTrig.pi / 2)))).matrixMult
        (scaling (⟨unitSquareMask, ⟨3, 4⟩, 0, 2, 5, 1⟩ : CollisionInfo).scaleX
          (⟨unitSquareMask, ⟨3, 4⟩, 0, 2, 5, 1⟩ : CollisionInfo).scaleY)).matrixMult
        (originTransl (⟨unitSquareMask, ⟨3, 4⟩, 0, 2, 5, 1⟩ : CollisionInfo).mask.myOrigin) ∧
    ∀ cosA sinA cosA90 sinA90 scaleX scaleY originX originY posX posY : ℚ,
      generalArray cosA sinA cosA90 sinA90 scaleX scaleY originX originY posX posY =
        (((posTransl ⟨posX, posY⟩).matrixMult (rot cosA sinA cosA90 sinA90)).matrixMult
          (scaling scaleX scaleY)).matrixMult (originTransl ⟨originX, originY⟩)) :=
  ⟨by decide!, getTransformationMatrix_is_product axisTrig ⟨unitSquareMask, ⟨3, 4⟩, 0, 2, 5, 1⟩
    (by decide!)⟩

/-- C23. With angle `0` and both scales `1` the matrix returned is the
translation by `position - origin`, for any other angle or scale it is the
array of the general branch; and that array, taken at `cosA = 1`, `sinA = 0`,
`cosA90 = 0`, `sinA90 = 1` and both scales `1`, is the same translation. -/
theorem getTransformationMatrix_fast_path (trig : Trig) (c : CollisionInfo) :
    Transformation.getTransformationMatrix trig c =
      (if c.angle = 0 ∧ c.scaleX = 1 ∧ c.scaleY = 1 then
        ⟨1, 0, c.position.x - c.mask.myOrigin.x, 0, 1, c.position.y - c.mask.myOrigin.y, 0, 0, 1⟩
      else
        generalArray (trig.cos c.angle) (trig.sin c.angle) (trig.cos (c.angle + trig.pi / 2))
          (trig.sin (c.angle + trig.pi / 2)) c.scaleX c.scaleY c.mask.myOrigin.x
          c.mask.myOrigin.y c.position.x c.position.y) ∧
    ∀ originX originY posX posY : ℚ,
      generalArray 1 0 0 1 1 1 originX originY posX posY =
        ⟨1, 0, posX - originX, 0, 1, posY - originY, 0, 0, 1⟩ := by
  constructor
  · rw [getTransformationMatrix_eq]
    by_cases h : c.angle = 0 ∧ c.scaleX = 1 ∧ c.scaleY = 1
    · have h' : ¬ (c.angle ≠ 0 ∨ c.scaleX ≠ 1 ∨ c.scaleY ≠ 1) := by tauto
      rw [if_neg h', if_pos h]
      simp only [Matrix.mk.injEq, true_and, and_true]
      constructor <;> ring
    · have h' : c.angle ≠ 0 ∨ c.scaleX ≠ 1 ∨ c.scaleY ≠ 1 := by tauto
      rw [if_pos h', if_neg h]
  · intro originX originY posX posY
    simp only [generalArray, Matrix.mk.injEq]
    refine ⟨?_, ?_, ?_, ?_, ?_, ?_, trivial, trivial, trivial⟩ <;> ring

/-- C24. `inverseNull` returns null exactly when the determinant is zero,
which is exactly when `hasInverse` is false; and a matrix it returns is a
two-sided inverse under `matrixMult`. -/
theorem inverseNull_is_inverse (M : Matrix) :
    (M.inverseNull = none ↔ M.det = 0) ∧ (M.det = 0 ↔ M.hasInverse = false) ∧
    match M.inverseNull with
    | none => True
    | some N => M.matrixMult N = identityMatrix ∧ N.matrixMult M = identityMatrix := by
  refine ⟨?_, ?_, ?_⟩
  · constructor
    · intro h
      by_contra hd
      obtain ⟨inv, hinv⟩ := inverseNull_of_det_ne_zero M hd
      rw [hinv] at h
      exact absurd h (by simp)
    · exact inverseNull_of_det_eq_zero M
  · simp [Matrix.hasInverse]
  · by_cases hd : M.det = 0
    · rw [inverseNull_of_det_eq_zero M hd]
      trivial
    · obtain ⟨a, b, c, d, e, f, g, h, k⟩ := M
      have hD : a * (e * k - f * h) + b * (f * g - k * d) + c * (d * h - e * g) ≠ 0 := hd
      simp only [Matrix.inverseNull, ne_eq, hD, not_false_eq_true, if_true]
      generalize hDe : a * (e * k - f * h) + b * (f * g - k * d) + c * (d * h - e * g) = D
        at hD
      constructor
      · simp only [Matrix.matrixMult, identityMatrix, Matrix.mk.injEq]
        refine ⟨?_, ?_, ?_, ?_, ?_, ?_, ?_, ?_, ?_⟩ <;> field_simp <;> subst hDe <;> ring
      · simp only [Matrix.matrixMult, identityMatrix, Matrix.mk.injEq]
        refine ⟨?_, ?_, ?_, ?_, ?_, ?_, ?_, ?_, ?_⟩ <;> field_simp <;> subst hDe <;> ring

/-! ## Boxes and pairs -/

/-- C25. The test `intersects` does not depend on the order of the two boxes,
and a box whose minimum corner is not beyond its maximum corner, a single
point included, intersects itself. -/
theorem BoundingBox_intersects_symm_refl :
    (∀ a b : BoundingBox, a.intersects b = b.intersects a) ∧
    (∀ a : BoundingBox, a.pMin.x ≤ a.pMax.x → a.pMin.y ≤ a.pMax.y → a.intersects a = true) ∧
    (∀ p : P, BoundingBox.intersects ⟨p, p⟩ ⟨p, p⟩ = true) := by
  refine ⟨fun a b => ?_, fun a hx hy => ?_, fun p => ?_⟩
  · simp only [BoundingBox.intersects]
    rw [Bool.eq_iff_iff]
    simp only [Bool.and_eq_true, decide_eq_true_eq]
    tauto
  · simp only [BoundingBox.intersects, Bool.and_eq_true, decide_eq_true_eq]
    exact ⟨⟨⟨hx, hx⟩, hy⟩, hy⟩
  · simp [BoundingBox.intersects]

/-- C26. `createNull` returns null exactly for equal ids; otherwise the pair
holds the smaller id first and the greater second, so `id1 < id2`, and the
order of the arguments does not matter. -/
theorem CollisionPair_createNull_spec (a b : Int) :
    (CollisionPair.createNull a b = none ↔ a = b) ∧
    CollisionPair.createNull a b = (if a = b then none else some ⟨min a b, max a b⟩) ∧
    (match CollisionPair.createNull a b with
      | none => True
      | some pair => pair.id1 < pair.id2) ∧
    CollisionPair.createNull a b = CollisionPair.createNull b a := by
  unfold CollisionPair.createNull
  refine ⟨?_, ?_, ?_, ?_⟩
  · split_ifs <;> simp_all
  · split_ifs with h1 h2
    · rfl
    · rw [min_eq_left (le_of_lt h2), max_eq_right (le_of_lt h2)]
    · have : b < a := by omega
      rw [min_eq_right (le_of_lt this), max_eq_left (le_of_lt this)]
  · split_ifs with h1 h2
    · trivial
    · exact h2
    · show b < a
      omega
  · split_ifs with h1 h2 h3 h4 h5 h6 <;> first | rfl | (exfalso; omega)

/-! ## Binary images -/

/-- A grid is not valid exactly when it has no row or a row whose length
differs from the length of the first row. -/
theorem validGrid_eq_false_iff (rows : List (List Bool)) :
    validGrid rows = false ↔
      rows.length = 0 ∨ ∃ row ∈ rows, row.length ≠ (rows.headD []).length := by
  unfold validGrid gridWidth
  rw [Bool.and_eq_false_iff, decide_eq_false_iff_not, List.all_eq_false]
  constructor
  · rintro (h | ⟨row, hrow, hne⟩)
    · left; omega
    · right
      exact ⟨row, hrow, by simpa using hne⟩
  · rintro (h | ⟨row, hrow, hne⟩)
    · left; omega
    · right
      exact ⟨row, hrow, by simpa using hne⟩

/-- The row-of-rows factory, case by case. -/
theorem SimpleBinaryImageFactory_createNull_eq (rows : List (List Bool)) :
    SimpleBinaryImageFactory.createNull rows =
      .ok (if validGrid rows then some ⟨rows, gridWidth rows, rows.length⟩ else none) := by
  unfold SimpleBinaryImageFactory.createNull validGrid gridWidth
  cases rows with
  | nil => rfl
  | cons first rest =>
    simp only [List.length_cons, Nat.lt_one_iff, Nat.add_one_ne_zero, if_false, idx,
      List.getElem?_cons_zero, bind, Run.bind, List.headD_cons]
    by_cases h : (first :: rest).any (fun a => decide (a.length ≠ first.length)) = true
    · have h2 : (first :: rest).all (fun row => decide (row.length = first.length)) = false := by
        rw [List.all_eq_false]
        obtain ⟨row, hrow, hne⟩ := List.any_eq_true.mp h
        exact ⟨row, hrow, by simpa using hne⟩
      rw [if_pos h, h2]
      simp [pure]
    · have h2 : (first :: rest).all (fun row => decide (row.length = first.length)) = true := by
        rw [List.all_eq_true]
        intro row hrow
        by_contra hne
        apply h
        exact List.any_eq_true.mpr ⟨row, hrow, by simpa using hne⟩
      rw [if_neg h, h2]
      simp [pure]

/-- In a grid whose rows all have the length `W`, the flattened grid holds the
entry of row `r` and column `c` at the place `c + r * W`. -/
theorem flatten_getElem (rows : List (List Bool)) (W : Nat)
    (hW : ∀ row ∈ rows, row.length = W) (r c : Nat) (hc : c < W) :
    rows.flatten[c + r * W]? = (rows[r]?).bind (fun row => row[c]?) := by
  induction rows generalizing r with
  | nil => simp
  | cons first rest ih =>
    have hf : first.length = W := hW first (List.mem_cons_self _ _)
    cases r with
    | zero =>
      simp only [List.flatten_cons, Nat.zero_mul, Nat.add_zero, List.getElem?_cons_zero,
        Option.some_bind]
      rw [List.getElem?_append_left (by omega)]
    | succ r' =>
      simp only [List.flatten_cons, List.getElem?_cons_succ]
      rw [List.getElem?_append_right (by rw [hf, Nat.succ_mul]; omega)]
      have : c + (r' + 1) * W - first.length = c + r' * W := by
        rw [hf, Nat.succ_mul]; omega
      rw [this]
      exact ih (fun row hrow => hW row (List.mem_cons_of_mem _ hrow)) r'

/-- The length of a flattened grid whose rows all have the length `W`. -/
theorem flatten_length (rows : List (List Bool)) (W : Nat)
    (hW : ∀ row ∈ rows, row.length = W) : rows.flatten.length = W * rows.length := by
  induction rows with
  | nil => simp
  | cons first rest ih =>
    simp only [List.flatten_cons, List.length_append, List.length_cons]
    rw [ih (fun row hrow => hW row (List.mem_cons_of_mem _ hrow)),
      hW first (List.mem_cons_self _ _), Nat.mul_succ]
    omega

/-- One step of the fill: with the first `k` bits copied, the bit `k` is set
when the flattened grid has it set. -/
theorem fill_step (flat : List Bool) (k : Nat) (hk : k < flat.length) (value : Bool)
    (hv : flat[k]? = some value) :
    (if value then setBit (flat.take k ++ List.replicate (flat.length - k) false) k
      else pure (flat.take k ++ List.replicate (flat.length - k) false)) =
      Run.ok (flat.take (k + 1) ++ List.replicate (flat.length - (k + 1)) false) := by
  have hlen : (flat.take k ++ List.replicate (flat.length - k) false).length = flat.length := by
    simp only [List.length_append, List.length_take, List.length_replicate]
    omega
  have hrep : List.replicate (flat.length - k) false =
      false :: List.replicate (flat.length - (k + 1)) false := by
    have : flat.length - k = (flat.length - (k + 1)) + 1 := by omega
    rw [this, List.replicate_succ]
  have htake : flat.take (k + 1) = flat.take k ++ [value] := by
    rw [List.take_succ, hv]
    rfl
  have hkl : (flat.take k).length = k := by
    rw [List.length_take]; omega
  cases value with
  | true =>
    simp only [if_true, setBit, hlen, hk, pure]
    congr 1
    rw [hrep, htake, List.set_append_right _ _ (by omega), hkl, Nat.sub_self]
    simp
  | false =>
    simp only [Bool.false_eq_true, if_false, pure]
    congr 1
    rw [hrep, htake]
    simp

/-- The inner loop of the fill copies the rest of the row `r`. -/
theorem bitsetFillRow_spec (rows : List (List Bool)) (W : Nat)
    (hW : ∀ row ∈ rows, row.length = W) (r : Nat) (hr : r < rows.length) (count c : Nat)
    (hc : c + count = W) :
    bitsetFillRow rows W r count c
        (rows.flatten.take (c + r * W) ++
          List.replicate (rows.flatten.length - (c + r * W)) false) =
      .ok (rows.flatten.take (W + r * W) ++
        List.replicate (rows.flatten.length - (W + r * W)) false) := by
  induction count generalizing c with
  | zero =>
    have : c = W := by omega
    subst this
    rfl
  | succ n ih =>
    have hcW : c < W := by omega
    obtain ⟨row, hrow⟩ : ∃ row, rows[r]? = some row := ⟨rows[r], List.getElem?_eq_getElem hr⟩
    have hrowlen : row.length = W := hW row (List.getElem?_mem hrow)
    obtain ⟨value, hvalue⟩ : ∃ value, row[c]? = some value :=
      ⟨row[c], List.getElem?_eq_getElem (by omega)⟩
    have hflat := flatten_getElem rows W hW r c hcW
    rw [hrow, Option.some_bind, hvalue] at hflat
    have hk : c + r * W < rows.flatten.length := by
      rw [flatten_length rows W hW]
      calc c + r * W < W + r * W := by omega
        _ = W * (r + 1) := by ring
        _ ≤ W * rows.length := Nat.mul_le_mul_left W hr
    have hstep := fill_step rows.flatten (c + r * W) hk value hflat
    unfold bitsetFillRow
    simp only [idx, hrow, hvalue, bind, Run.bind]
    rw [hstep]
    simp only []
    have := ih (c + 1) (by omega)
    rw [show c + 1 + r * W = c + r * W + 1 by omega] at this
    exact this

/-- The outer loop of the fill copies the rest of the rows. -/
theorem bitsetFill_spec (rows : List (List Bool)) (W : Nat)
    (hW : ∀ row ∈ rows, row.length = W) (count r : Nat) (hr : r + count = rows.length) :
    bitsetFill rows W count r
        (rows.flatten.take (r * W) ++ List.replicate (rows.flatten.length - r * W) false) =
      .ok rows.flatten := by
  induction count generalizing r with
  | zero =>
    have hr' : r = rows.length := by omega
    have hlen := flatten_length rows W hW
    unfold bitsetFill
    simp only [pure]
    congr 1
    rw [hr', Nat.mul_comm, ← hlen, List.take_length, Nat.sub_self]
    simp
  | succ n ih =>
    unfold bitsetFill
    have hrow := bitsetFillRow_spec rows W hW r (by omega) W 0 (by omega)
    simp only [Nat.zero_add] at hrow
    simp only [bind, Run.bind, hrow]
    have := ih (r + 1) (by omega)
    rw [show (r + 1) * W = W + r * W by ring] at this
    exact this

/-- The bit-packed factory, case by case: on a valid grid the bit set is the
flattened grid. -/
theorem BitsetBinaryImageFactory_createNull_eq (rows : List (List Bool)) :
    BitsetBinaryImageFactory.createNull rows =
      .ok (if validGrid rows then some ⟨rows.flatten, gridWidth rows, rows.length⟩ else none) := by
  unfold BitsetBinaryImageFactory.createNull validGrid gridWidth
  cases rows with
  | nil => rfl
  | cons first rest =>
    simp only [List.length_cons, Nat.lt_one_iff, Nat.add_one_ne_zero, if_false, idx,
      List.getElem?_cons_zero, bind, Run.bind, List.headD_cons]
    by_cases h : (first :: rest).any (fun a => decide (a.length ≠ first.length)) = true
    · have h2 : (first :: rest).all (fun row => decide (row.length = first.length)) = false := by
        rw [List.all_eq_false]
        obtain ⟨row, hrow, hne⟩ := List.any_eq_true.mp h
        exact ⟨row, hrow, by simpa using hne⟩
      rw [if_pos h, h2]
      simp [pure]
    · have h2 : (first :: rest).all (fun row => decide (row.length = first.length)) = true := by
        rw [List.all_eq_true]
        intro row hrow
        by_contra hne
        apply h
        exact List.any_eq_true.mpr ⟨row, hrow, by simpa using hne⟩
      have hW : ∀ row ∈ first :: rest, row.length = first.length := by
        intro row hrow
        simpa using List.all_eq_true.mp h2 row hrow
      have hfill := bitsetFill_spec (first :: rest) first.length hW (rest.length + 1) 0
        (by simp)
      rw [flatten_length _ _ hW] at hfill
      simp only [Nat.zero_mul, List.take_zero, List.nil_append, Nat.sub_zero,
        List.length_cons] at hfill
      rw [if_neg h, h2, hfill]
      simp [pure, BitsetBinaryImage.createUnsafe]

/-- C27. Each of the two factories returns, and returns no image exactly when
the grid is not valid, i.e. has no row or a row whose length differs from the
length of the first row; the image of a valid grid has the length of the
first row as its width and the number of rows as its height. -/
theorem createNull_fails_iff_invalid (rows : List (List Bool)) :
    (validGrid rows = false ↔
      rows.length = 0 ∨ ∃ row ∈ rows, row.length ≠ (rows.headD []).length) ∧
    (SimpleBinaryImageFactory.createNull rows = .ok none ↔ validGrid rows = false) ∧
    (BitsetBinaryImageFactory.createNull rows = .ok none ↔ validGrid rows = false) ∧
    (match SimpleBinaryImageFactory.createNull rows with
      | .ok (some image) =>
        image.width = (rows.headD []).length ∧ image.height = rows.length
      | .ok none => validGrid rows = false
      | .fault _ => False) ∧
    (match BitsetBinaryImageFactory.createNull rows with
      | .ok (some image) =>
        image.width = (rows.headD []).length ∧ image.height = rows.length
      | .ok none => validGrid rows = false
      | .fault _ => False) := by
  rw [SimpleBinaryImageFactory_createNull_eq, BitsetBinaryImageFactory_createNull_eq]
  refine ⟨validGrid_eq_false_iff rows, ?_, ?_, ?_, ?_⟩
  · cases h : validGrid rows <;> simp
  · cases h : validGrid rows <;> simp
  · cases h : validGrid rows
    · simp
    · simp [SimpleBinaryImage.width, SimpleBinaryImage.height, gridWidth]
  · cases h : validGrid rows
    · simp
    · simp [BitsetBinaryImage.width, BitsetBinaryImage.height, gridWidth]

/-- C28. On a valid grid both factories return an image, the two images have
the same width and height, and at every place inside the image both answer
with the entry `rows[y][x]` of the grid. -/
theorem hasPoint_agree (rows : List (List Bool)) (x y : Nat) (hvalid : validGrid rows = true)
    (hx : x < gridWidth rows) (hy : y < rows.length) :
    ∃ (simple : SimpleBinaryImage) (bitset : BitsetBinaryImage) (value : Bool),
      SimpleBinaryImageFactory.createNull rows = .ok (some simple) ∧
      BitsetBinaryImageFactory.createNull rows = .ok (some bitset) ∧
      simple.width = bitset.width ∧ simple.height = bitset.height ∧
      simple.width = gridWidth rows ∧ simple.height = rows.length ∧
      (rows[y]?).bind (fun row => row[x]?) = some value ∧
      simple.hasPoint x y = .ok value ∧ bitset.hasPoint x y = .ok value := by
  have hW : ∀ row ∈ rows, row.length = gridWidth rows := by
    intro row hrow
    unfold validGrid at hvalid
    rw [Bool.and_eq_true, List.all_eq_true] at hvalid
    simpa using hvalid.2 row hrow
  obtain ⟨row, hrow⟩ : ∃ row, rows[y]? = some row := ⟨rows[y], List.getElem?_eq_getElem hy⟩
  have hrowlen : row.length = gridWidth rows := hW row (List.getElem?_mem hrow)
  obtain ⟨value, hvalue⟩ : ∃ value, row[x]? = some value :=
    ⟨row[x], List.getElem?_eq_getElem (by omega)⟩
  have hflat := flatten_getElem rows (gridWidth rows) hW y x hx
  rw [hrow, Option.some_bind, hvalue] at hflat
  refine ⟨⟨rows, gridWidth rows, rows.length⟩, ⟨rows.flatten, gridWidth rows, rows.length⟩,
    value, ?_, ?_, rfl, rfl, rfl, rfl, ?_, ?_, ?_⟩
  · rw [SimpleBinaryImageFactory_createNull_eq, hvalid]
    rfl
  · rw [BitsetBinaryImageFactory_createNull_eq, hvalid]
    rfl
  · rw [hrow, Option.some_bind, hvalue]
  · simp [SimpleBinaryImage.hasPoint, idx, hrow, hvalue, bind, Run.bind]
  · simp [BitsetBinaryImage.hasPoint, idx, hflat]

/-- C28, scenario: the grid with the rows `10` and `01`, read at column `1`
of row `1`. -/
theorem hasPoint_agree_witness :
    validGrid [[true, false], [false, true]] = true ∧
    1 < gridWidth [[true, false], [false, true]] ∧
    1 < [[true, false], [false, true]].length ∧
    ∃ (simple : SimpleBinaryImage) (bitset : BitsetBinaryImage) (value : Bool),
      SimpleBinaryImageFactory.createNull [[true, false], [false, true]] = .ok (some simple) ∧
      BitsetBinaryImageFactory.createNull [[true, false], [false, true]] = .ok (some bitset) ∧
      simple.width = bitset.width ∧ simple.height = bitset.height ∧
      simple.width = gridWidth [[true, false], [false, true]] ∧
      simple.height = [[true, false], [false, true]].length ∧
      ([[true, false], [false, true]][1]?).bind (fun row => row[1]?) = some value ∧
      simple.hasPoint 1 1 = .ok value ∧ bitset.hasPoint 1 1 = .ok value :=
  ⟨by decide, by decide, by decide,
    hasPoint_agree [[true, false], [false, true]] 1 1 (by decide) (by decide) (by decide)⟩

/-! ## Directed edges -/

/-- Membership in a directed edge, in coordinates. -/
theorem onHalfOpen_iff (a b q : P) :
    onHalfOpen a b q ↔
      ∃ t : ℚ, 0 < t ∧ t ≤ 1 ∧ q.x = a.x + (b.x - a.x) * t ∧ q.y = a.y + (b.y - a.y) * t := by
  simp only [onHalfOpen, P.plus, P.minus, P.multi, P.eq_iff]

/-- The head of a directed edge lies on the edge. -/
theorem onHalfOpen_head (a b : P) : onHalfOpen a b b := by
  rw [onHalfOpen_iff]
  exact ⟨1, by norm_num, le_refl _, by ring, by ring⟩

/-- A point lies on a directed edge exactly when it is on the line of the
edge and its parameter, read off the coordinate the source reads, is in
`(0,1]`. -/
theorem onHalfOpen_iff_param (a b h : P) (hne : a ≠ b) :
    onHalfOpen a b h ↔
      onLineOf a b h ∧
        0 < (if b.x - a.x ≠ 0 then (h.x - a.x) / (b.x - a.x) else (h.y - a.y) / (b.y - a.y)) ∧
        (if b.x - a.x ≠ 0 then (h.x - a.x) / (b.x - a.x) else (h.y - a.y) / (b.y - a.y)) ≤ 1 := by
  rw [onHalfOpen_iff]
  unfold onLineOf
  by_cases hx : b.x - a.x ≠ 0
  · rw [if_pos hx]
    constructor
    · rintro ⟨t, t0, t1, ex, ey⟩
      have ht : (h.x - a.x) / (b.x - a.x) = t := by
        rw [div_eq_iff hx, ex]; ring
      rw [ht]
      refine ⟨?_, t0, t1⟩
      rw [ex, ey]; ring
    · rintro ⟨hl, u0, u1⟩
      refine ⟨_, u0, u1, ?_, ?_⟩
      · field_simp
      · field_simp
        linear_combination hl
  · rw [if_neg hx]
    have hx0 : b.x - a.x = 0 := not_not.mp hx
    have hy : b.y - a.y ≠ 0 := dir_y_ne_zero a b hne hx0
    constructor
    · rintro ⟨t, t0, t1, ex, ey⟩
      have ht : (h.y - a.y) / (b.y - a.y) = t := by
        rw [div_eq_iff hy, ey]; ring
      rw [ht]
      refine ⟨?_, t0, t1⟩
      rw [ex, ey]; ring
    · rintro ⟨hl, u0, u1⟩
      refine ⟨_, u0, u1, ?_, ?_⟩
      · rw [hx0] at hl ⊢
        have : (b.y - a.y) * (h.x - a.x) = 0 := by linear_combination -hl
        rcases mul_eq_zero.mp this with h' | h'
        · exact absurd h' hy
        · linarith
      · field_simp

/-- For parallel edges the test `dist == 0.0` of the source holds exactly when
the head of the second edge is on the line of the first. -/
theorem parallel_head_onLine (p11 p12 p21 p22 : P) (h1 : p11 ≠ p12) (h2 : p21 ≠ p22)
    (hden : (p22.x - p21.x) * (p12.y - p11.y) - (p22.y - p21.y) * (p12.x - p11.x) = 0) :
    onLineOf p11 p12 p22 ↔
      (p22.x - p21.x) * (p21.y - p11.y) - (p22.y - p21.y) * (p21.x - p11.x) = 0 := by
  constructor
  · intro hl
    unfold onLineOf at hl
    have ex : (p12.x - p11.x)
        * ((p22.x - p21.x) * (p21.y - p11.y) - (p22.y - p21.y) * (p21.x - p11.x)) = 0 := by
      linear_combination (p22.x - p21.x) * hl + (p22.x - p11.x) * hden
    have ey : (p12.y - p11.y)
        * ((p22.x - p21.x) * (p21.y - p11.y) - (p22.y - p21.y) * (p21.x - p11.x)) = 0 := by
      linear_combination (p22.y - p21.y) * hl + (p22.y - p11.y) * hden
    rcases mul_eq_zero.mp ex with hx | hx
    · rcases mul_eq_zero.mp ey with hy | hy
      · exfalso
        apply h1
        rw [P.eq_iff]
        constructor <;> linarith
      · exact hy
    · exact hx
  · intro hdist
    exact (collinear_onLine p11 p12 p21 p22 h2 hden hdist).2

/-- For parallel edges the test `dist == 0.0` of the source holds exactly when
the head of the first edge is on the line of the second. -/
theorem parallel_head_onLine2 (p11 p12 p21 p22 : P)
    (hden : (p22.x - p21.x) * (p12.y - p11.y) - (p22.y - p21.y) * (p12.x - p11.x) = 0) :
    onLineOf p21 p22 p12 ↔
      (p22.x - p21.x) * (p21.y - p11.y) - (p22.y - p21.y) * (p21.x - p11.x) = 0 := by
  unfold onLineOf
  constructor
  · intro h
    linear_combination hden - h
  · intro h
    linear_combination hden - h

/-- The box of the least and greatest coordinates of a non-empty point
sequence is its exact bounding box. -/
theorem minmax_box_exact (points : List P) (hp : points ≠ []) :
    IsExactBox points
      ⟨⟨minDefault (points.map (fun p => p.x)) 0, minDefault (points.map (fun p => p.y)) 0⟩,
       ⟨maxDefault (points.map (fun p => p.x)) 0, maxDefault (points.map (fun p => p.y)) 0⟩⟩ := by
  have hx : points.map (fun p => p.x) ≠ [] := by simpa using hp
  have hy : points.map (fun p => p.y) ≠ [] := by simpa using hp
  obtain ⟨a1, a2⟩ := minDefault_spec _ 0 hx
  obtain ⟨b1, b2⟩ := minDefault_spec _ 0 hy
  obtain ⟨c1, c2⟩ := maxDefault_spec _ 0 hx
  obtain ⟨d1, d2⟩ := maxDefault_spec _ 0 hy
  simp only [List.mem_map] at a1 b1 c1 d1
  exact ⟨a1, fun p hp => a2 _ (List.mem_map_of_mem _ hp), b1,
    fun p hp => b2 _ (List.mem_map_of_mem _ hp), c1, fun p hp => c2 _ (List.mem_map_of_mem _ hp),
    d1, fun p hp => d2 _ (List.mem_map_of_mem _ hp)⟩

/-- The corner points are the four corners of the pixels that are on. -/
theorem mem_cornerPoints (image : BinaryImage) (p : P) :
    p ∈ Mask.cornerPoints image ↔
      ∃ x y, onPixel image x y ∧
        (p = ⟨x, y⟩ ∨ p = ⟨(x : ℚ) + 1, y⟩ ∨ p = ⟨x, (y : ℚ) + 1⟩
          ∨ p = ⟨(x : ℚ) + 1, (y : ℚ) + 1⟩) := by
  unfold Mask.cornerPoints onPixel
  simp only [List.mem_flatMap, List.mem_range]
  constructor
  · rintro ⟨x, hx, y, hy, hp⟩
    by_cases h : image.hasPoint x y = true
    · rw [if_pos h] at hp
      refine ⟨x, y, ⟨hx, hy, h⟩, ?_⟩
      simpa using hp
    · rw [if_neg h] at hp
      simp at hp
  · rintro ⟨x, y, ⟨hx, hy, h⟩, hp⟩
    refine ⟨x, hx, y, hy, ?_⟩
    rw [if_pos h]
    simpa using hp

/-- After the point `p3` is added, the trimmed outline ends with `p3`. -/
theorem trimOutline_cons (turnsWrong : ℚ → Bool) (p3 : P) (outline : List P) :
    ∃ rest, ConvexHull.trimOutline turnsWrong p3 outline = p3 :: rest := by
  induction outline with
  | nil => exact ⟨[], rfl⟩
  | cons p2 rest ih =>
    cases rest with
    | nil => exact ⟨[p2], rfl⟩
    | cons p1 rest' =>
      unfold ConvexHull.trimOutline
      simp only []
      split_ifs
      · exact ih
      · exact ⟨_, rfl⟩

/-- The outline of a non-empty sequence of points is not empty. -/
theorem buildOutline_ne_nil (turnsWrong : ℚ → Bool) (lowUp : List P) (h : lowUp ≠ []) :
    ConvexHull.buildOutline turnsWrong lowUp ≠ [] := by
  unfold ConvexHull.buildOutline
  have key : ∀ (l : List P) (a : P) (outline : List P),
      (a :: l).foldl (fun outline p => ConvexHull.trimOutline turnsWrong p outline) outline
        ≠ [] := by
    intro l
    induction l with
    | nil =>
      intro a outline
      obtain ⟨rest, hr⟩ := trimOutline_cons turnsWrong a outline
      simp [hr]
    | cons b t ih =>
      intro a outline
      rw [List.foldl_cons]
      exact ih b _
  cases lowUp with
  | nil => exact absurd rfl h
  | cons a t => exact key t a []

/-- A `groupBy` step on points leaves a map that is not empty and has no empty
group. -/
theorem hull_groupByInsert_nonempty (value : ℚ) (i : P) (G : List (ℚ × List P))
    (h : ∀ kg ∈ G, kg.2 ≠ []) :
    ConvexHull.groupByInsert value i G ≠ [] ∧
      ∀ kg ∈ ConvexHull.groupByInsert value i G, kg.2 ≠ [] := by
  induction G with
  | nil => simp [ConvexHull.groupByInsert]
  | cons kg0 rest ih =>
    obtain ⟨key, group⟩ := kg0
    unfold ConvexHull.groupByInsert
    split_ifs with h1 h2
    · refine ⟨by simp, ?_⟩
      intro kg hkg
      rcases List.mem_cons.mp hkg with rfl | hkg
      · simp
      · exact h kg hkg
    · refine ⟨by simp, ?_⟩
      intro kg hkg
      rcases List.mem_cons.mp hkg with rfl | hkg
      · simp
      · exact h kg (List.mem_cons_of_mem _ hkg)
    · refine ⟨by simp, ?_⟩
      intro kg hkg
      rcases List.mem_cons.mp hkg with rfl | hkg
      · exact h _ (List.mem_cons_self _ _)
      · exact (ih (fun kg hkg => h kg (List.mem_cons_of_mem _ hkg))).2 kg hkg

/-- The map that `groupBy` builds from a non-empty vector of points is not
empty and has no empty group. -/
theorem hull_groupBy_nonempty (points : List P) (groupByFunction : P → ℚ) (h : points ≠ []) :
    ConvexHull.groupBy points groupByFunction ≠ [] ∧
      ∀ kg ∈ ConvexHull.groupBy points groupByFunction, kg.2 ≠ [] := by
  unfold ConvexHull.groupBy
  have key : ∀ (l : List P) (G : List (ℚ × List P)), (∀ kg ∈ G, kg.2 ≠ []) →
      (G ≠ [] ∨ l ≠ []) →
      l.foldl (fun resultMap i =>
          ConvexHull.groupByInsert (groupByFunction i) i resultMap) G ≠ [] ∧
        ∀ kg ∈ l.foldl (fun resultMap i =>
          ConvexHull.groupByInsert (groupByFunction i) i resultMap) G, kg.2 ≠ [] := by
    intro l
    induction l with
    | nil =>
      intro G hG hne
      rcases hne with hne | hne
      · exact ⟨hne, hG⟩
      · exact absurd rfl hne
    | cons a t ih =>
      intro G hG _
      rw [List.foldl_cons]
      obtain ⟨h1, h2⟩ := hull_groupByInsert_nonempty (groupByFunction a) a G hG
      exact ih _ h2 (Or.inl h1)
  exact key points [] (by simp) (Or.inr h)

/-- The template `sortByToVector` rearranges its collection. -/
theorem sortByToVector_perm {α : Type} (collection : List α) (sortFunction : α → α → Bool) :
    (sortByToVector collection sortFunction).Perm collection := by
  unfold sortByToVector
  exact List.perm_insertionSort _ collection

/-- The first and last point of a column that is not empty. -/
theorem headEndMapping_ok (ele : List P) (h : ele ≠ []) :
    ∃ lowUp, ConvexHull.headEndMapping ele = .ok lowUp := by
  unfold ConvexHull.headEndMapping
  cases ele with
  | nil => exact absurd rfl h
  | cons a t =>
    cases hl : (a :: t).getLast? with
    | none => simp at hl
    | some last => exact ⟨(a, last), by simp [pure]⟩

/-- The hull of a non-empty vector of points is returned and is not the empty
polygon. -/
theorem calculateConvexHull_nonempty (points : List P) (h : points ≠ []) :
    ∃ hull, ConvexHull.calculateConvexHull points = .ok hull ∧ hull ≠ .Empty := by
  match points, h with
  | [p0], _ => exact ⟨.Point p0, rfl, by simp⟩
  | [p0, p1], _ =>
    refine ⟨Line.create p0 p1, rfl, ?_⟩
    unfold Line.create
    split_ifs <;> simp
  | p0 :: p1 :: p2 :: rest, _ =>
    obtain ⟨hg1, hg2⟩ := hull_groupBy_nonempty (p0 :: p1 :: p2 :: rest) (fun p => p.x) (by simp)
    have hperm := sortByToVector_perm (ConvexHull.groupBy (p0 :: p1 :: p2 :: rest) (fun p => p.x))
      (fun pair1 _pair2 => decide (pair1.1 < pair1.1))
    have h3ne : sortByToVector (ConvexHull.groupBy (p0 :: p1 :: p2 :: rest) (fun p => p.x))
        (fun pair1 _pair2 => decide (pair1.1 < pair1.1)) ≠ [] := by
      intro h0
      rw [h0] at hperm
      exact hg1 (List.Perm.eq_nil hperm.symm)
    have h3g : ∀ kg ∈ sortByToVector
        (ConvexHull.groupBy (p0 :: p1 :: p2 :: rest) (fun p => p.x))
        (fun pair1 _pair2 => decide (pair1.1 < pair1.1)), kg.2 ≠ [] :=
      fun kg hkg => hg2 kg (hperm.subset hkg)
    simp only [ConvexHull.calculateConvexHull, bind, Run.bind, List.reverse_reverse]
    generalize sortByToVector (ConvexHull.groupBy (p0 :: p1 :: p2 :: rest) (fun p => p.x))
        (fun pair1 _pair2 => decide (pair1.1 < pair1.1)) = g3 at h3ne h3g ⊢
    obtain ⟨trimmed, htr, _, htr2⟩ := mapRun_spec ConvexHull.headEndMapping (fun _ _ => True)
      (g3.map (fun xYPoints => sortByToVector xYPoints.2 (fun p1 p2 => decide (p1.y < p2.y))))
      (by
        intro ele hele
        obtain ⟨kg, hkg, rfl⟩ := List.mem_map.mp hele
        have hne : sortByToVector kg.2 (fun p1 p2 => decide (p1.y < p2.y)) ≠ [] := by
          intro h0
          have hp := sortByToVector_perm kg.2 (fun p1 p2 => decide (p1.y < p2.y))
          rw [h0] at hp
          exact h3g kg hkg (List.Perm.eq_nil hp.symm)
        obtain ⟨lowUp, hl⟩ := headEndMapping_ok _ hne
        exact ⟨lowUp, hl, trivial⟩)
    have htrne : trimmed ≠ [] := by
      cases g3 with
      | nil => exact absurd rfl h3ne
      | cons a t =>
        obtain ⟨b, hb, _⟩ := htr2 _ (List.mem_map_of_mem _ (List.mem_cons_self a t))
        exact List.ne_nil_of_mem hb
    have hlow : ConvexHull.buildOutline (fun c => decide (c ≤ 0))
        (trimmed.map (fun lowUp => lowUp.1)) ≠ [] :=
      buildOutline_ne_nil _ _ (by simpa using htrne)
    have hup : ConvexHull.buildOutline (fun c => decide (c ≥ 0))
        (trimmed.map (fun lowUp => lowUp.2)) ≠ [] :=
      buildOutline_ne_nil _ _ (by simpa using htrne)
    simp only [htr]
    generalize ConvexHull.buildOutline (fun c => decide (c ≤ 0))
        (trimmed.map (fun lowUp => lowUp.1)) = lowRev at hlow ⊢
    generalize ConvexHull.buildOutline (fun c => decide (c ≥ 0))
        (trimmed.map (fun lowUp => lowUp.2)) = U at hup ⊢
    have hL : lowRev.reverse ≠ [] := by simpa using hlow
    generalize lowRev.reverse = L at hL ⊢
    obtain ⟨lf, hlf⟩ : ∃ lf, L.head? = some lf := by
      cases L with
      | nil => exact absurd rfl hL
      | cons a t => exact ⟨a, rfl⟩
    obtain ⟨ul, hul⟩ : ∃ ul, U.getLast? = some ul := by
      cases hl : U.getLast? with
      | none => exact absurd (List.getLast?_eq_none_iff.mp hl) hup
      | some ul => exact ⟨ul, rfl⟩
    simp only [hlf, hul, deref, pure]
    generalize (if lf.equal ul = true then U.dropLast else U) = U1
    have hfin : ∀ L1 : List P, (L1 = L ∨ U1 ≠ []) → L1 ++ U1 ≠ [] := by
      intro L1 h1
      rcases h1 with h1 | h1
      · rw [h1]
        simp [hL]
      · simp [h1]
    generalize hfr : (_ : List P) ++ U1 = finalRes
    have hfinal : finalRes ≠ [] := by
      rw [← hfr]
      apply hfin
      cases hU1 : U1 with
      | nil =>
        left
        cases L.getLast? <;> rfl
      | cons a t =>
        right
        simp
    match finalRes, hfinal with
    | [q1], _ => exact ⟨.Point q1, rfl, by simp⟩
    | [q1, q2], _ =>
      refine ⟨Line.create q1 q2, rfl, ?_⟩
      unfold Line.create
      split_ifs <;> simp
    | q1 :: q2 :: q3 :: qs, _ => exact ⟨.Polygon q1 q2 q3 qs, rfl, by simp⟩

/-- The exact bounding box of the corner points reaches from the least pixel
that is on to the greatest one plus one. -/
theorem cornerPoints_box (image : BinaryImage) (box : BoundingBox)
    (hb : IsExactBox (Mask.cornerPoints image) box) : IsPixelBox image box := by
  obtain ⟨⟨p1, m1, e1⟩, l1, ⟨p2, m2, e2⟩, l2, ⟨p3, m3, e3⟩, l3, ⟨p4, m4, e4⟩, l4⟩ := hb
  have corner : ∀ x y, onPixel image x y →
      (⟨x, y⟩ : P) ∈ Mask.cornerPoints image ∧
      (⟨(x : ℚ) + 1, (y : ℚ) + 1⟩ : P) ∈ Mask.cornerPoints image := by
    intro x y hxy
    constructor
    · exact (mem_cornerPoints image _).mpr ⟨x, y, hxy, Or.inl rfl⟩
    · exact (mem_cornerPoints image _).mpr ⟨x, y, hxy, Or.inr (Or.inr (Or.inr rfl))⟩
  refine ⟨?_, ?_, ?_, ?_, ?_, ?_, ?_, ?_⟩
  · obtain ⟨x, y, hxy, hp⟩ := (mem_cornerPoints image p1).mp m1
    refine ⟨x, y, hxy, ?_⟩
    rcases hp with rfl | rfl | rfl | rfl
    · exact e1.symm
    · exfalso
      have := l1 _ (corner x y hxy).1
      simp only at this e1
      linarith
    · exact e1.symm
    · exfalso
      have := l1 _ (corner x y hxy).1
      simp only at this e1
      linarith
  · intro x y hxy
    exact l1 _ (corner x y hxy).1
  · obtain ⟨x, y, hxy, hp⟩ := (mem_cornerPoints image p2).mp m2
    refine ⟨x, y, hxy, ?_⟩
    rcases hp with rfl | rfl | rfl | rfl
    · exact e2.symm
    · exact e2.symm
    · exfalso
      have := l2 _ (corner x y hxy).1
      simp only at this e2
      linarith
    · exfalso
      have := l2 _ (corner x y hxy).1
      simp only at this e2
      linarith
  · intro x y hxy
    exact l2 _ (corner x y hxy).1
  · obtain ⟨x, y, hxy, hp⟩ := (mem_cornerPoints image p3).mp m3
    refine ⟨x, y, hxy, ?_⟩
    rcases hp with rfl | rfl | rfl | rfl
    · exfalso
      have := l3 _ (corner x y hxy).2
      simp only at this e3
      linarith
    · exact e3.symm
    · exfalso
      have := l3 _ (corner x y hxy).2
      simp only at this e3
      linarith
    · exact e3.symm
  · intro x y hxy
    exact l3 _ (corner x y hxy).2
  · obtain ⟨x, y, hxy, hp⟩ := (mem_cornerPoints image p4).mp m4
    refine ⟨x, y, hxy, ?_⟩
    rcases hp with rfl | rfl | rfl | rfl
    · exfalso
      have := l4 _ (corner x y hxy).2
      simp only at this e4
      linarith
    · exfalso
      have := l4 _ (corner x y hxy).2
      simp only at this e4
      linarith
    · exact e4.symm
    · exact e4.symm
  · intro x y hxy
    exact l4 _ (corner x y hxy).2

/-- C29. When the image factory returns no image, or an image without a pixel
that is on, `createMaskNullFromImageSource` returns no mask; otherwise it
returns a mask with the given origin and the image of the factory, whose
bounding box reaches from the least `x` and `y` of the pixels that are on to
their greatest `x` and `y` plus one. -/
theorem createMaskNullFromImageSource_spec (imageSourceRows : List (List Bool)) (origin : P)
    (binaryImageFactory : BinaryImageFactory) :
    match binaryImageFactory.createNull imageSourceRows with
    | .fault f =>
      Mask.createMaskNullFromImageSource imageSourceRows origin binaryImageFactory = .fault f
    | .ok none =>
      Mask.createMaskNullFromImageSource imageSourceRows origin binaryImageFactory = .ok none
    | .ok (some image) =>
      ((¬ ∃ x y, onPixel image x y) ∧
        Mask.createMaskNullFromImageSource imageSourceRows origin binaryImageFactory
          = .ok none) ∨
      ((∃ x y, onPixel image x y) ∧
        ∃ mask, Mask.createMaskNullFromImageSource imageSourceRows origin binaryImageFactory
            = .ok (some mask) ∧
          mask.myOrigin = origin ∧ mask.myBinaryImageNull = some image ∧
          IsPixelBox image mask.myBoundingBox) := by
  unfold Mask.createMaskNullFromImageSource
  cases hfac : binaryImageFactory.createNull imageSourceRows with
  | fault f => rfl
  | ok binaryImageNull =>
    cases binaryImageNull with
    | none => rfl
    | some image =>
      simp only [bind, Run.bind]
      by_cases hpts : Mask.cornerPoints image = []
      · left
        constructor
        · rintro ⟨x, y, hxy⟩
          have : (⟨x, y⟩ : P) ∈ Mask.cornerPoints image :=
            (mem_cornerPoints image _).mpr ⟨x, y, hxy, Or.inl rfl⟩
          rw [hpts] at this
          simp at this
        · simp only [hpts, List.isEmpty_nil, if_true]
          rfl
      · right
        constructor
        · obtain ⟨p, hp⟩ := List.exists_mem_of_ne_nil _ hpts
          obtain ⟨x, y, hxy, _⟩ := (mem_cornerPoints image p).mp hp
          exact ⟨x, y, hxy⟩
        · obtain ⟨hull, hhull, hne⟩ := calculateConvexHull_nonempty _ hpts
          have hbox := cornerPoints_box image _ (minmax_box_exact _ hpts)
          have hemp : (Mask.cornerPoints image).isEmpty = false := by
            cases h : Mask.cornerPoints image with
            | nil => exact absurd h hpts
            | cons a t => rfl
          simp only [hemp, Bool.false_eq_true, if_false, hhull]
          cases hull with
          | Empty => exact absurd rfl hne
          | Point q => exact ⟨_, rfl, rfl, rfl, hbox⟩
          | Line a b => exact ⟨_, rfl, rfl, rfl, hbox⟩
          | Polygon a b c r => exact ⟨_, rfl, rfl, rfl, hbox⟩

/-! ## A polygon against itself -/

/-- Reading a vector inside its bounds. -/
theorem idx_getD (points : List P) (i : Nat) (h : i < points.length) :
    idx points i = .ok (points.getD i ⟨0, 0⟩) := by
  unfold idx
  rw [List.getD_eq_getElem?_getD, List.getElem?_eq_getElem h]
  rfl

/-- The successor of an index stays inside the vector. -/
theorem next_lt (i n : Nat) (h : 0 < n) : next i n < n := Nat.mod_lt _ h

/-- In a vector without repetition different places hold different points. -/
theorem getD_ne_of_nodup (points : List P) (hnd : points.Nodup) (i j : Nat)
    (hi : i < points.length) (hj : j < points.length) (hij : i ≠ j) :
    points.getD i ⟨0, 0⟩ ≠ points.getD j ⟨0, 0⟩ := by
  rw [List.getD_eq_getElem?_getD, List.getD_eq_getElem?_getD, List.getElem?_eq_getElem hi,
    List.getElem?_eq_getElem hj]
  simp only [Option.getD_some]
  intro h
  exact hij ((List.Nodup.getElem_inj_iff hnd).mp h)

/-- The order of the origin choice is reflexive. -/
theorem leftUpperLe_refl (a : P) : leftUpperLe a a := Or.inr ⟨rfl, le_refl _⟩

/-- The order of the origin choice is transitive. -/
theorem leftUpperLe_trans (a b c : P) (h1 : leftUpperLe a b) (h2 : leftUpperLe b c) :
    leftUpperLe a c := by
  unfold leftUpperLe at *
  rcases h1 with h1 | ⟨h1, h1'⟩ <;> rcases h2 with h2 | ⟨h2, h2'⟩
  · exact Or.inl (by linarith)
  · exact Or.inl (by linarith)
  · exact Or.inl (by linarith)
  · exact Or.inr ⟨by linarith, by linarith⟩

/-- The fold of `chooseLeftmostUpperPoint` ends in its start value or in an
element of the list, which comes no later than the start value and than every
element of the list. -/
theorem foldl_chooseLeftmostUpperPoint_spec (l : List (P × Nat)) :
    ∀ acc : P × Nat,
      (l.foldl chooseLeftmostUpperPoint acc = acc ∨ l.foldl chooseLeftmostUpperPoint acc ∈ l) ∧
      leftUpperLe (l.foldl chooseLeftmostUpperPoint acc).1 acc.1 ∧
      ∀ x ∈ l, leftUpperLe (l.foldl chooseLeftmostUpperPoint acc).1 x.1 := by
  induction l with
  | nil =>
    intro acc
    exact ⟨Or.inl rfl, leftUpperLe_refl _, fun x hx => absurd hx (List.not_mem_nil x)⟩
  | cons a t ih =>
    intro acc
    rw [List.foldl_cons]
    obtain ⟨h1, h2, h3⟩ := ih (chooseLeftmostUpperPoint acc a)
    have hstep : (chooseLeftmostUpperPoint acc a = acc ∨ chooseLeftmostUpperPoint acc a = a) ∧
        leftUpperLe (chooseLeftmostUpperPoint acc a).1 acc.1 ∧
        leftUpperLe (chooseLeftmostUpperPoint acc a).1 a.1 := by
      unfold chooseLeftmostUpperPoint
      split_ifs with hc
      · refine ⟨Or.inl rfl, leftUpperLe_refl _, ?_⟩
        rcases hc with hc | ⟨hc, hc'⟩
        · exact Or.inl hc
        · exact Or.inr ⟨hc.symm, le_of_lt hc'⟩
      · refine ⟨Or.inr rfl, ?_, leftUpperLe_refl _⟩
        rw [not_or, not_and_or] at hc
        obtain ⟨hc1, hc2⟩ := hc
        have hle : a.1.x ≤ acc.1.x := not_lt.mp hc1
        rcases lt_or_eq_of_le hle with hlt | heq
        · exact Or.inl hlt
        · rcases hc2 with hc2 | hc2
          · exact absurd heq hc2
          · exact Or.inr ⟨heq, not_lt.mp hc2⟩
    obtain ⟨s1, s2, s3⟩ := hstep
    refine ⟨?_, leftUpperLe_trans _ _ _ h2 s2, ?_⟩
    · rcases h1 with h1 | h1
      · rw [h1]
        rcases s1 with s1 | s1
        · exact Or.inl s1
        · rw [s1]
          exact Or.inr (List.mem_cons_self _ _)
      · exact Or.inr (List.mem_cons_of_mem _ h1)
    · intro x hx
      rcases List.mem_cons.mp hx with rfl | hx
      · exact leftUpperLe_trans _ _ _ h2 s3
      · exact h3 x hx

/-- The elements of the vertices zipped with their indices. -/
theorem mem_zip_range (points : List P) (x : P × Nat) :
    x ∈ points.zip (List.range points.length) ↔
      x.2 < points.length ∧ x.1 = points.getD x.2 ⟨0, 0⟩ := by
  constructor
  · intro hx
    obtain ⟨i, hi, rfl⟩ := List.getElem_of_mem hx
    have hi' : i < points.length := by simpa using hi
    simp only [List.getElem_zip, List.getElem_range]
    refine ⟨hi', ?_⟩
    rw [List.getD_eq_getElem?_getD, List.getElem?_eq_getElem hi']
    rfl
  · rintro ⟨h1, h2⟩
    rw [List.mem_iff_getElem]
    refine ⟨x.2, by simpa using h1, ?_⟩
    simp only [List.getElem_zip, List.getElem_range]
    rw [List.getD_eq_getElem?_getD, List.getElem?_eq_getElem h1] at h2
    exact Prod.ext h2.symm rfl

/-- C31, counterexample. The unit square listed from `(0,0)` has two vertices
with the least `x`, `(0,0)` at index 0 and `(0,1)` at index 3; the origin index
is 3, the one with the greater `y`. -/
theorem originIndex_square_is_upper :
    validPolygonPoints [⟨0, 0⟩, ⟨1, 0⟩, ⟨1, 1⟩, ⟨0, 1⟩] = true ∧
    originIndex [⟨0, 0⟩, ⟨1, 0⟩, ⟨1, 1⟩, ⟨0, 1⟩] = .ok 3 ∧
    ([⟨0, 0⟩, ⟨1, 0⟩, ⟨1, 1⟩, ⟨0, 1⟩] : List P).getD 0 ⟨0, 0⟩ = ⟨0, 0⟩ ∧
    ([⟨0, 0⟩, ⟨1, 0⟩, ⟨1, 1⟩, ⟨0, 1⟩] : List P).getD 3 ⟨0, 0⟩ = ⟨0, 1⟩ := by
  refine ⟨by decide!, by decide!, rfl, rfl⟩

/-- C31, amended. The origin index of a point sequence that is not empty is
the index of a vertex with the least `x` and, among the vertices with the
least `x`, with the greatest `y`; when the vertices are all different it is
the only such index. -/
theorem originIndex_is_leftmost_upper (points : List P) (h : points ≠ []) :
    ∃ o, originIndex points = .ok o ∧ o < points.length ∧
      (∀ j < points.length,
        (points.getD o ⟨0, 0⟩).x < (points.getD j ⟨0, 0⟩).x ∨
          ((points.getD o ⟨0, 0⟩).x = (points.getD j ⟨0, 0⟩).x ∧
            (points.getD j ⟨0, 0⟩).y ≤ (points.getD o ⟨0, 0⟩).y)) ∧
      (points.Nodup → ∀ j < points.length, j ≠ o →
        (points.getD o ⟨0, 0⟩).x < (points.getD j ⟨0, 0⟩).x ∨
          ((points.getD o ⟨0, 0⟩).x = (points.getD j ⟨0, 0⟩).x ∧
            (points.getD j ⟨0, 0⟩).y < (points.getD o ⟨0, 0⟩).y)) := by
  have hlen : 0 < points.length := List.length_pos.mpr h
  obtain ⟨h1, _, h3⟩ := foldl_chooseLeftmostUpperPoint_spec
    (points.zip (List.range points.length)) (points.getD 0 ⟨0, 0⟩, 0)
  have hmem : (points.zip (List.range points.length)).foldl chooseLeftmostUpperPoint
      (points.getD 0 ⟨0, 0⟩, 0) ∈ points.zip (List.range points.length) := by
    rcases h1 with h1 | h1
    · rw [h1, mem_zip_range]
      exact ⟨hlen, rfl⟩
    · exact h1
  obtain ⟨ho, hval⟩ := (mem_zip_range points _).mp hmem
  have hall : ∀ j < points.length,
      leftUpperLe (points.getD ((points.zip (List.range points.length)).foldl
        chooseLeftmostUpperPoint (points.getD 0 ⟨0, 0⟩, 0)).2 ⟨0, 0⟩) (points.getD j ⟨0, 0⟩) := by
    intro j hj
    rw [← hval]
    exact h3 (points.getD j ⟨0, 0⟩, j) ((mem_zip_range points _).mpr ⟨hj, rfl⟩)
  refine ⟨_, ?_, ho, hall, ?_⟩
  · unfold originIndex
    rw [idx_getD points 0 hlen]
    rfl
  · intro hnd j hj hjo
    have hne := getD_ne_of_nodup points hnd j _ hj ho hjo
    rcases hall j hj with hlt | ⟨hx, hy⟩
    · exact Or.inl hlt
    · refine Or.inr ⟨hx, lt_of_le_of_ne hy ?_⟩
      intro hyy
      apply hne
      rw [P.eq_iff]
      exact ⟨hx.symm, hyy⟩

/-- C31, scenario: the unit square listed from `(0,0)`. -/
theorem originIndex_is_leftmost_upper_witness :
    ([⟨0, 0⟩, ⟨1, 0⟩, ⟨1, 1⟩, ⟨0, 1⟩] : List P) ≠ [] ∧
    ∃ o, originIndex [⟨0, 0⟩, ⟨1, 0⟩, ⟨1, 1⟩, ⟨0, 1⟩] = .ok o ∧
      o < ([⟨0, 0⟩, ⟨1, 0⟩, ⟨1, 1⟩, ⟨0, 1⟩] : List P).length ∧
      (∀ j < ([⟨0, 0⟩, ⟨1, 0⟩, ⟨1, 1⟩, ⟨0, 1⟩] : List P).length,
        (([⟨0, 0⟩, ⟨1, 0⟩, ⟨1, 1⟩, ⟨0, 1⟩] : List P).getD o ⟨0, 0⟩).x
            < (([⟨0, 0⟩, ⟨1, 0⟩, ⟨1, 1⟩, ⟨0, 1⟩] : List P).getD j ⟨0, 0⟩).x ∨
          ((([⟨0, 0⟩, ⟨1, 0⟩, ⟨1, 1⟩, ⟨0, 1⟩] : List P).getD o ⟨0, 0⟩).x
              = (([⟨0, 0⟩, ⟨1, 0⟩, ⟨1, 1⟩, ⟨0, 1⟩] : List P).getD j ⟨0, 0⟩).x ∧
            (([⟨0, 0⟩, ⟨1, 0⟩, ⟨1, 1⟩, ⟨0, 1⟩] : List P).getD j ⟨0, 0⟩).y
              ≤ (([⟨0, 0⟩, ⟨1, 0⟩, ⟨1, 1⟩, ⟨0, 1⟩] : List P).getD o ⟨0, 0⟩).y)) ∧
      (([⟨0, 0⟩, ⟨1, 0⟩, ⟨1, 1⟩, ⟨0, 1⟩] : List P).Nodup →
        ∀ j < ([⟨0, 0⟩, ⟨1, 0⟩, ⟨1, 1⟩, ⟨0, 1⟩] : List P).length, j ≠ o →
        (([⟨0, 0⟩, ⟨1, 0⟩, ⟨1, 1⟩, ⟨0, 1⟩] : List P).getD o ⟨0, 0⟩).x
            < (([⟨0, 0⟩, ⟨1, 0⟩, ⟨1, 1⟩, ⟨0, 1⟩] : List P).getD j ⟨0, 0⟩).x ∨
          ((([⟨0, 0⟩, ⟨1, 0⟩, ⟨1, 1⟩, ⟨0, 1⟩] : List P).getD o ⟨0, 0⟩).x
              = (([⟨0, 0⟩, ⟨1, 0⟩, ⟨1, 1⟩, ⟨0, 1⟩] : List P).getD j ⟨0, 0⟩).x ∧
            (([⟨0, 0⟩, ⟨1, 0⟩, ⟨1, 1⟩, ⟨0, 1⟩] : List P).getD j ⟨0, 0⟩).y
              < (([⟨0, 0⟩, ⟨1, 0⟩, ⟨1, 1⟩, ⟨0, 1⟩] : List P).getD o ⟨0, 0⟩).y)) :=
  ⟨by simp, originIndex_is_leftmost_upper [⟨0, 0⟩, ⟨1, 0⟩, ⟨1, 1⟩, ⟨0, 1⟩] (by simp)⟩

/-! ## Without collision segments -/

/-- The loop of `pointInside` over the edges `i`, ..., `i + remaining - 1`
answers whether the point is on the left of, or on, each of them. -/
theorem pointInsideLoop_eq (points : List P) (point : P) :
    ∀ (remaining i : Nat), i + remaining ≤ points.length →
      pointInsideLoop points (fun a => next a points.length) point remaining i
        = .ok ((List.range' i remaining).all fun k =>
            decide (((points.getD (next k points.length) ⟨0, 0⟩).minus
              (points.getD k ⟨0, 0⟩)).cross (point.minus (points.getD k ⟨0, 0⟩)) ≥ 0)) := by
  intro remaining
  induction remaining with
  | zero => intro i _; rfl
  | succ n ih =>
    intro i hi
    have hlt : i < points.length := by omega
    have hpos : 0 < points.length := by omega
    rw [pointInsideLoop]
    simp only [idx_getD points i hlt, idx_getD points _ (next_lt i _ hpos), bind, Run.bind,
      List.range'_succ, List.all_cons]
    by_cases hc : ((points.getD (next i points.length) ⟨0, 0⟩).minus
        (points.getD i ⟨0, 0⟩)).cross (point.minus (points.getD i ⟨0, 0⟩)) ≥ 0
    · simp only [hc, not_true_eq_false, if_false, decide_True, Bool.true_and]
      exact ih (i + 1) (by omega)
    · simp only [hc, not_false_eq_true, if_true, decide_False, Bool.false_and]
      rfl

/-- The containment test `pointInside` of the source is the test
`inClosedRegion`. -/
theorem pointInside_eq (points : List P) (point : P) :
    pointInside points (fun a => next a points.length) point
      = .ok (inClosedRegion points point) := by
  unfold pointInside inClosedRegion
  rw [pointInsideLoop_eq points point points.length 0 (by omega), List.range_eq_range']

/-- C33. Without collision segments `getIntersectionFromCollisionSegments`
returns polygon 2, with all its vertices in their order, when the first vertex
of polygon 2 is on the left of or on every edge of polygon 1; else polygon 1
when its first vertex passes the same test against polygon 2; else `Empty`. -/
theorem getIntersection_without_segments (fuel : Nat) (p1 p2 p3 q1 q2 q3 : P)
    (rest1 rest2 : List P) :
    IntersectionFromCollisionSegments.getIntersectionFromCollisionSegments
        ⟨[], (ConvexCCWPolygon.Polygon p1 p2 p3 rest1).points,
          (ConvexCCWPolygon.Polygon q1 q2 q3 rest2).points⟩ fuel
      = .ok (if inClosedRegion (p1 :: p2 :: p3 :: rest1) q1 = true then
          .Polygon q1 q2 q3 rest2
        else if inClosedRegion (q1 :: q2 :: q3 :: rest2) p1 = true then
          .Polygon p1 p2 p3 rest1
        else .Empty) ∧
    (ConvexCCWPolygon.Polygon q1 q2 q3 rest2).points = q1 :: q2 :: q3 :: rest2 ∧
    (ConvexCCWPolygon.Polygon p1 p2 p3 rest1).points = p1 :: p2 :: p3 :: rest1 := by
  refine ⟨?_, rfl, rfl⟩
  unfold IntersectionFromCollisionSegments.getIntersectionFromCollisionSegments
  simp only [List.head?_nil, ConvexCCWPolygon.points, IntersectionFromCollisionSegments.size1,
    IntersectionFromCollisionSegments.size2, bind, Run.bind, idx, List.getElem?_cons_zero,
    pointInside_eq]
  by_cases h1 : inClosedRegion (p1 :: p2 :: p3 :: rest1) q1 = true
  · simp only [h1, if_true]
    rfl
  · simp only [h1, Bool.false_eq_true, if_false]
    by_cases h2 : inClosedRegion (q1 :: q2 :: q3 :: rest2) p1 = true
    · simp only [h2, if_true]
      rfl
    · simp only [h2, Bool.false_eq_true, if_false]
      rfl

/-! ## The clockwise-ordering oracle -/

/-- C35, scenario: from east, the directions south, west and north are in
clockwise order; south twice, or east again, is not. -/
theorem cwOrder_scenario :
    cwOrder [⟨1, 0⟩, ⟨0, -1⟩, ⟨-1, 0⟩, ⟨0, 1⟩] = true ∧
    cwOrder [⟨1, 0⟩, ⟨0, -1⟩, ⟨0, -2⟩] = false ∧
    cwOrder [⟨1, 0⟩, ⟨0, -1⟩, ⟨2, 0⟩] = false ∧
    cwOrder [⟨1, 0⟩, ⟨0, 1⟩, ⟨0, -1⟩] = false := by
  refine ⟨by decide!, by decide!, by decide!, by decide!⟩

/-! ## Rasterizing an edge in both directions -/

/-- The line rasterizer gives the same pixels, in the same order, whichever
end it is started from. -/
theorem bresenhamsLine_comm (p q : IP) :
    PixelPerfect.bresenhamsLine p q = PixelPerfect.bresenhamsLine q p := by
  unfold PixelPerfect.bresenhamsLine
  simp only []
  rw [abs_sub_comm p.y q.y, abs_sub_comm p.x q.x]
  by_cases hs : |q.y - p.y| > |q.x - p.x|
  · simp only [hs, decide_True, if_true]
    rcases lt_trichotomy p.y q.y with h | h | h
    · have h1 : ¬ p.y > q.y := by omega
      have h2 : q.y > p.y := h
      simp only [h1, h2, decide_True, decide_False, if_true, if_false, Bool.false_eq_true]
    · exfalso
      rw [h, sub_self, abs_zero] at hs
      exact absurd hs (not_lt.mpr (abs_nonneg _))
    · have h1 : p.y > q.y := h
      have h2 : ¬ q.y > p.y := by omega
      simp only [h1, h2, decide_True, decide_False, if_true, if_false, Bool.false_eq_true]
  · simp only [hs, decide_False, if_false, Bool.false_eq_true]
    rcases lt_trichotomy p.x q.x with h | h | h
    · have h1 : ¬ p.x > q.x := by omega
      have h2 : q.x > p.x := h
      simp only [h1, h2, decide_True, decide_False, if_true, if_false, Bool.false_eq_true]
    · have hy : p.y = q.y := by
        rw [h, sub_self, abs_zero] at hs
        have : |q.y - p.y| = 0 := le_antisymm (not_lt.mp hs) (abs_nonneg _)
        have := abs_eq_zero.mp this
        omega
      have hpq : p = q := by
        cases p; cases q
        simp only [IP.mk.injEq]
        exact ⟨h, hy⟩
      rw [hpq]
    · have h1 : p.x > q.x := h
      have h2 : ¬ q.x > p.x := by omega
      simp only [h1, h2, decide_True, decide_False, if_true, if_false, Bool.false_eq_true]

/-- A set of two pixels does not depend on the order of insertion. -/
theorem IP.setOfList_pair_comm (a b : IP) : IP.setOfList [a, b] = IP.setOfList [b, a] := by
  simp only [IP.setOfList, List.foldl_cons, List.foldl_nil, IP.setInsert]
  cases hab : IP.comparer a b <;> cases hba : IP.comparer b a
  · have h := IP.comparer_trichotomy a b hab hba
    simp [h]
  · simp
  · simp
  · exfalso
    simp only [IP.comparer, Bool.or_eq_true, Bool.and_eq_true, decide_eq_true_eq] at hab hba
    omega

/-- The lambda `lineAboveMiddleCalc` does not depend on the direction of the
edge. -/
theorem lineAboveMiddleCalc_comm (c1 c2 middle : P) :
    PixelPerfect.lineAboveMiddleCalc c1 c2 middle = PixelPerfect.lineAboveMiddleCalc c2 c1 middle := by
  unfold PixelPerfect.lineAboveMiddleCalc
  simp only []
  by_cases hx : c2.x - c1.x ≠ 0
  · have hx' : c1.x - c2.x ≠ 0 := by
      intro h
      apply hx
      linarith
    rw [if_pos hx, if_pos hx']
    have e : (middle.x - c1.x) * (c2.y - c1.y) / (c2.x - c1.x) + c1.y
        = (middle.x - c2.x) * (c1.y - c2.y) / (c1.x - c2.x) + c2.y := by
      field_simp
      ring
    rw [e]
  · have hx' : ¬ (c1.x - c2.x ≠ 0) := by
      intro h
      apply hx
      intro h0
      apply h
      linarith
    rw [if_neg hx, if_neg hx']
    have e : c1.x = c2.x := by
      have := not_not.mp hx
      linarith
    rw [e]

/-- C36. The edge rasterizer `lineToPoints` returns the same set of pixels for
an edge and for the edge with its ends exchanged, and `bresenhamsLine` returns
the same pixels from either end. -/
theorem lineToPoints_comm (c1 c2 middle : P) :
    PixelPerfect.lineToPoints c1 c2 middle = PixelPerfect.lineToPoints c2 c1 middle ∧
    ∀ p q : IP, PixelPerfect.bresenhamsLine p q = PixelPerfect.bresenhamsLine q p := by
  refine ⟨?_, bresenhamsLine_comm⟩
  unfold PixelPerfect.lineToPoints
  simp only [lineAboveMiddleCalc_comm c2 c1 middle,
    IP.setOfList_pair_comm ⟨PixelPerfect.r c2.x, PixelPerfect.r c2.y⟩
      ⟨PixelPerfect.r c1.x, PixelPerfect.r c1.y⟩]
  generalize PixelPerfect.lineAboveMiddleCalc c1 c2 middle = m
  generalize PixelPerfect.r c1.x = x1
  generalize PixelPerfect.r c1.y = y1
  generalize PixelPerfect.r c2.x = x2
  generalize PixelPerfect.r c2.y = y2
  have hline :
      (if x2 - x1 = 0 ∧ y2 - y1 = 0 then (pure [(⟨x1, y1⟩ : IP)] : Run (List IP))
        else if x2 - x1 = 0 then
          pure (PixelPerfect.bresenhamsLine ⟨x1 + m, y1⟩ ⟨x2 + m, y2⟩)
        else if y2 - y1 = 0 then
          pure (PixelPerfect.bresenhamsLine ⟨x1, y1 + m⟩ ⟨x2, y2 + m⟩)
        else if (x2 - x1 > 0 ∧ y2 - y1 > 0) ∨ (x2 - x1 < 0 ∧ y2 - y1 < 0) then
          pure (PixelPerfect.bresenhamsLine ⟨x1 - m, y1 + m⟩ ⟨x2 - m, y2 + m⟩)
        else if (x2 - x1 > 0 ∧ y2 - y1 < 0) ∨ (x2 - x1 < 0 ∧ y2 - y1 > 0) then
          pure (PixelPerfect.bresenhamsLine ⟨x1 + m, y1 + m⟩ ⟨x2 + m, y2 + m⟩)
        else (.fault .thrown : Run (List IP)))
      = (if x1 - x2 = 0 ∧ y1 - y2 = 0 then (pure [(⟨x2, y2⟩ : IP)] : Run (List IP))
        else if x1 - x2 = 0 then
          pure (PixelPerfect.bresenhamsLine ⟨x2 + m, y2⟩ ⟨x1 + m, y1⟩)
        else if y1 - y2 = 0 then
          pure (PixelPerfect.bresenhamsLine ⟨x2, y2 + m⟩ ⟨x1, y1 + m⟩)
        else if (x1 - x2 > 0 ∧ y1 - y2 > 0) ∨ (x1 - x2 < 0 ∧ y1 - y2 < 0) then
          pure (PixelPerfect.bresenhamsLine ⟨x2 - m, y2 + m⟩ ⟨x1 - m, y1 + m⟩)
        else if (x1 - x2 > 0 ∧ y1 - y2 < 0) ∨ (x1 - x2 < 0 ∧ y1 - y2 > 0) then
          pure (PixelPerfect.bresenhamsLine ⟨x2 + m, y2 + m⟩ ⟨x1 + m, y1 + m⟩)
        else (.fault .thrown : Run (List IP))) := by
    by_cases h1 : x2 - x1 = 0 ∧ y2 - y1 = 0
    · have h1' : x1 - x2 = 0 ∧ y1 - y2 = 0 := ⟨by omega, by omega⟩
      rw [if_pos h1, if_pos h1']
      have ex : x1 = x2 := by omega
      have ey : y1 = y2 := by omega
      rw [ex, ey]
    · have h1' : ¬ (x1 - x2 = 0 ∧ y1 - y2 = 0) := fun h => h1 ⟨by omega, by omega⟩
      rw [if_neg h1, if_neg h1']
      by_cases h2 : x2 - x1 = 0
      · have h2' : x1 - x2 = 0 := by omega
        rw [if_pos h2, if_pos h2', bresenhamsLine_comm]
      · have h2' : ¬ x1 - x2 = 0 := by omega
        rw [if_neg h2, if_neg h2']
        by_cases h3 : y2 - y1 = 0
        · have h3' : y1 - y2 = 0 := by omega
          rw [if_pos h3, if_pos h3', bresenhamsLine_comm]
        · have h3' : ¬ y1 - y2 = 0 := by omega
          rw [if_neg h3, if_neg h3']
          by_cases h4 : (x2 - x1 > 0 ∧ y2 - y1 > 0) ∨ (x2 - x1 < 0 ∧ y2 - y1 < 0)
          · have h4' : (x1 - x2 > 0 ∧ y1 - y2 > 0) ∨ (x1 - x2 < 0 ∧ y1 - y2 < 0) := by omega
            rw [if_pos h4, if_pos h4', bresenhamsLine_comm]
          · have h4' : ¬ ((x1 - x2 > 0 ∧ y1 - y2 > 0) ∨ (x1 - x2 < 0 ∧ y1 - y2 < 0)) := by
              omega
            rw [if_neg h4, if_neg h4']
            by_cases h5 : (x2 - x1 > 0 ∧ y2 - y1 < 0) ∨ (x2 - x1 < 0 ∧ y2 - y1 > 0)
            · have h5' : (x1 - x2 > 0 ∧ y1 - y2 < 0) ∨ (x1 - x2 < 0 ∧ y1 - y2 > 0) := by
                omega
              rw [if_pos h5, if_pos h5', bresenhamsLine_comm]
            · have h5' : ¬ ((x1 - x2 > 0 ∧ y1 - y2 < 0) ∨ (x1 - x2 < 0 ∧ y1 - y2 > 0)) := by
                omega
              rw [if_neg h5, if_neg h5']
  rw [hline]

/-! ## The rows of the span fill -/

/-- C37, scenario: the pixels `(0,0)`, `(3,0)`, `(1,2)` fill to the row `0`
from `0` to `3` and the row `2` with `1`. -/
theorem fillOutline_rows_scenario :
    PixelPerfect.fillOutline [⟨0, 0⟩, ⟨3, 0⟩, ⟨1, 2⟩] = .ok [(0, [0, 1, 2, 3]), (2, [1])] := by
  decide

/-! ## Orientation of the transformed hull -/

/-- C38, scenario: the unit square listed clockwise comes back reversed, as the
square listed counter-clockwise from `(0,1)`. -/
theorem assumingValid_orients_scenario :
    validClockwisePoints [⟨0, 0⟩, ⟨0, 1⟩, ⟨1, 1⟩, ⟨1, 0⟩] = true ∧
    SimplePixelPerfectPairwise.assumingValidConvexPolygonPointsTransformToCCWEvenIfCW
      [⟨0, 0⟩, ⟨0, 1⟩, ⟨1, 1⟩, ⟨1, 0⟩] = .ok (.Polygon ⟨1, 0⟩ ⟨1, 1⟩ ⟨0, 1⟩ [⟨0, 0⟩]) ∧
    validPolygonPoints [⟨1, 0⟩, ⟨1, 1⟩, ⟨0, 1⟩, ⟨0, 0⟩] = true ∧
    SimplePixelPerfectPairwise.assumingValidConvexPolygonPointsTransformToCCWEvenIfCW
      [⟨1, 0⟩, ⟨1, 1⟩, ⟨0, 1⟩, ⟨0, 0⟩] = .ok (.Polygon ⟨1, 0⟩ ⟨1, 1⟩ ⟨0, 1⟩ [⟨0, 0⟩]) ∧
    SimplePixelPerfectPairwise.assumingValidConvexPolygonPointsTransformToCCWEvenIfCW
      [⟨0, 0⟩, ⟨1, 1⟩, ⟨2, 2⟩] = .fault .thrown := by
  refine ⟨by decide!, by decide!, by decide!, by decide!, by decide!⟩

/-! ## Flags and branches of the driver -/

/-- Every result of `handleLinePoly` is on the right branch. -/
theorem handleLinePoly_right (p11 p12 : P) (polyPoints : List P) (myP1 : P)
    (r : Either Bool ConvexCCWPolygon) (h : handleLinePoly p11 p12 polyPoints myP1 = .ok r) :
    ∃ q, r = .Right q := by
  unfold handleLinePoly at h
  simp only [bind, Run.bind, pure] at h
  cases h0 : idx polyPoints 0 with
  | fault f => rw [h0] at h; exact absurd h (by simp)
  | ok front =>
    rw [h0] at h
    simp only at h
    cases h1 : handlePointPolygon p11 polyPoints myP1 with
    | fault f => rw [h1] at h; exact absurd h (by simp)
    | ok part1 =>
      rw [h1] at h
      simp only at h
      cases h2 : handlePointPolygon p12 polyPoints myP1 with
      | fault f => rw [h2] at h; exact absurd h (by simp)
      | ok part2 =>
        rw [h2] at h
        simp only at h
        cases h3 : collideAll p11 p12 ((polyPoints ++ [front]).length + 1)
            (polyPoints ++ [front]) [] with
        | fault f => rw [h3] at h; exact absurd h (by simp)
        | ok collisions =>
          rw [h3] at h
          simp only [Run.ok.injEq] at h
          exact ⟨_, h.symm⟩

/-- C39. The driver `intersection` gives the same result whatever the two
flags `poly1Full` and `poly2Full` are, and a result on the left branch is
always `Left false`. -/
theorem intersection_ignores_full_flags (fuel : Nat) (poly1 poly2 : ConvexCCWPolygon)
    (poly1Full poly2Full otherFull1 otherFull2 : Bool)
    (approx1 approx2 : Option BoundingBox) :
    intersection fuel poly1 poly2 poly1Full poly2Full approx1 approx2
      = intersection fuel poly1 poly2 otherFull1 otherFull2 approx1 approx2 ∧
    intersection fuel poly1 poly2 poly1Full poly2Full approx1 approx2 ≠ .ok (.Left true) ∧
    ∀ b : Bool,
      intersection fuel poly1 poly2 poly1Full poly2Full approx1 approx2 = .ok (.Left b) →
        b = false := by
  have key : ∀ b : Bool,
      intersection fuel poly1 poly2 poly1Full poly2Full approx1 approx2 = .ok (.Left b) →
        b = false := by
    intro b h
    unfold intersection at h
    simp only [bind, Run.bind, pure] at h
    cases hc : boundingBoxesIntersectCalc poly1 poly2 approx1 approx2 with
    | fault f => rw [hc] at h; exact absurd h (by simp)
    | ok bb =>
      rw [hc] at h
      cases bb with
      | false =>
        simp only [Bool.not_false, if_true, Run.ok.injEq, Either.Left.injEq] at h
        exact h.symm
      | true =>
        simp only [Bool.not_true, Bool.false_eq_true, if_false] at h
        exfalso
        cases poly1 <;> cases poly2 <;> simp only [] at h
        all_goals first
          | exact absurd h (by simp)
          | (obtain ⟨q, hq⟩ := handleLinePoly_right _ _ _ _ _ h; exact absurd hq (by simp))
          | (split at h <;> exact absurd h (by simp))
          | (split at h <;> first
              | exact absurd h (by simp)
              | (split at h <;> first
                  | exact absurd h (by simp)
                  | (split at h <;> first
                      | exact absurd h (by simp)
                      | (split at h <;> first
                          | exact absurd h (by simp)
                          | (split at h <;> exact absurd h (by simp))))))
  exact ⟨rfl, fun h => absurd (key true h) (by simp), key⟩

/-! ## Soundness of directed-edge collisions -/

/-- The point of a line that the parameter of the source stands for is the
point the parameter was read from. -/
theorem param_point (a b h : P) (hne : a ≠ b) (hl : onLineOf a b h) :
    a.plus ((b.minus a).multi
      (if b.x - a.x ≠ 0 then (h.x - a.x) / (b.x - a.x) else (h.y - a.y) / (b.y - a.y))) = h := by
  unfold onLineOf at hl
  rw [P.eq_iff]
  simp only [P.plus, P.minus, P.multi]
  by_cases hx : b.x - a.x ≠ 0
  · rw [if_pos hx]
    constructor
    · field_simp
    · field_simp
      linear_combination -hl
  · rw [if_neg hx]
    have hx0 : b.x - a.x = 0 := not_not.mp hx
    have hy : b.y - a.y ≠ 0 := dir_y_ne_zero a b hne hx0
    constructor
    · rw [hx0] at hl ⊢
      have : (b.y - a.y) * (h.x - a.x) = 0 := by linear_combination -hl
      rcases mul_eq_zero.mp this with h' | h'
      · exact absurd h' hy
      · linarith
    · field_simp

/-- C40. On two edges with distinct end points `getCollisionDirectedLineSegment`
returns at most one collision segment; a segment it returns carries the
indices `(i1, i2)`, its collision point lies on both directed edges (each
without its tail, with its head), and for parallel edges the collision point
is the head of one of the two edges. -/
theorem getCollisionDirectedLineSegment_sound (i1 i2 : Nat)
    (poly1Points poly2Points : List P) (p11 p12 p21 p22 : P)
    (h11 : poly1Points[i1]? = some p11)
    (h12 : poly1Points[next i1 poly1Points.length]? = some p12)
    (h21 : poly2Points[i2]? = some p21)
    (h22 : poly2Points[next i2 poly2Points.length]? = some p22)
    (hne1 : p11 ≠ p12) (hne2 : p21 ≠ p22) :
    ∃ res, getCollisionDirectedLineSegment i1 i2 poly1Points poly2Points = .ok res ∧
      res.length ≤ 1 ∧
      ∀ seg ∈ res, seg.index1 = i1 ∧ seg.index2 = i2 ∧
        onHalfOpen p11 p12 seg.collisionPoint ∧ onHalfOpen p21 p22 seg.collisionPoint ∧
        ((p22.minus p21).cross (p12.minus p11) = 0 →
          seg.collisionPoint = p22 ∨ seg.collisionPoint = p12) := by
  unfold getCollisionDirectedLineSegment
  simp only [idx, h11, h12, h21, h22, bind, Run.bind, cross_dirs, dist_isZero_iff]
  simp only [P.minus_x, P.minus_y]
  by_cases hden : (p22.x - p21.x) * (p12.y - p11.y) - (p22.y - p21.y) * (p12.x - p11.x) = 0
  · rw [if_pos hden]
    by_cases hdist : (p22.x - p21.x) * (p21.y - p11.y) - (p22.y - p21.y) * (p21.x - p11.x) = 0
    · rw [if_pos hdist]
      have hl1 : onLineOf p11 p12 p22 :=
        (parallel_head_onLine p11 p12 p21 p22 hne1 hne2 hden).mpr hdist
      have hl2 : onLineOf p21 p22 p12 :=
        (parallel_head_onLine2 p11 p12 p21 p22 hden).mpr hdist
      have e1 := param_point p11 p12 p22 hne1 hl1
      have e2 := param_point p21 p22 p12 hne2 hl2
      have o1 := onHalfOpen_iff_param p11 p12 p22 hne1
      have o2 := onHalfOpen_iff_param p21 p22 p12 hne2
      revert e1 e2 o1 o2
      generalize (if p12.x - p11.x ≠ 0 then (p22.x - p11.x) / (p12.x - p11.x)
        else (p22.y - p11.y) / (p12.y - p11.y)) = u1
      generalize (if p22.x - p21.x ≠ 0 then (p12.x - p21.x) / (p22.x - p21.x)
        else (p12.y - p21.y) / (p22.y - p21.y)) = u2
      intro e1 e2 o1 o2
      by_cases hu : (0 < u1 ∧ u1 ≤ 1) ∨ (0 < u2 ∧ u2 ≤ 1)
      · rw [if_pos hu]
        refine ⟨_, rfl, by simp, ?_⟩
        intro seg hseg
        have hseg' := List.mem_singleton.mp hseg
        subst hseg'
        refine ⟨rfl, rfl, ?_⟩
        by_cases hu1 : 0 < u1 ∧ u1 ≤ 1
        · simp only [if_pos hu1, e1]
          exact ⟨o1.mpr ⟨hl1, hu1⟩, onHalfOpen_head p21 p22, fun _ => Or.inl trivial⟩
        · have hu2 : 0 < u2 ∧ u2 ≤ 1 := hu.resolve_left hu1
          simp only [if_neg hu1, e2]
          exact ⟨onHalfOpen_head p11 p12, o2.mpr ⟨hl2, hu2⟩, fun _ => Or.inr trivial⟩
      · rw [if_neg hu]
        exact ⟨_, rfl, by simp [pure], fun seg hseg => absurd hseg (by simp [pure])⟩
    · rw [if_neg hdist]
      exact ⟨_, rfl, by simp [pure], fun seg hseg => absurd hseg (by simp [pure])⟩
  · rw [if_neg hden]
    split_ifs with hu
    · refine ⟨_, rfl, by simp [pure], ?_⟩
      intro seg hseg
      have hseg' := List.mem_singleton.mp hseg
      subst hseg'
      obtain ⟨a0, a1, b0, b1⟩ := hu
      refine ⟨rfl, rfl, ⟨_, a0, a1, rfl⟩, ?_, fun h => absurd h hden⟩
      rw [onHalfOpen_iff]
      refine ⟨_, b0, b1, ?_, ?_⟩
      · simp only [P.plus, P.minus, P.multi]
        field_simp
        ring
      · simp only [P.plus, P.minus, P.multi]
        field_simp
        ring
    · exact ⟨_, rfl, by simp [pure], fun seg hseg => absurd hseg (by simp [pure])⟩

/-- C40, scenario: the first edge `(0,0)-(4,0)` of one triangle against the
second edge `(2,-2)-(2,2)` of another one; the collision point is `(2,0)`. -/
theorem getCollisionDirectedLineSegment_sound_witness :
    ([⟨0, 0⟩, ⟨4, 0⟩, ⟨0, 4⟩] : List P)[0]? = some ⟨0, 0⟩ ∧
    ([⟨0, 0⟩, ⟨4, 0⟩, ⟨0, 4⟩] : List P)[next 0 ([⟨0, 0⟩, ⟨4, 0⟩, ⟨0, 4⟩] : List P).length]?
      = some ⟨4, 0⟩ ∧
    ([⟨-1, 0⟩, ⟨2, -2⟩, ⟨2, 2⟩] : List P)[1]? = some ⟨2, -2⟩ ∧
    ([⟨-1, 0⟩, ⟨2, -2⟩, ⟨2, 2⟩] : List P)[next 1 ([⟨-1, 0⟩, ⟨2, -2⟩, ⟨2, 2⟩] : List P).length]?
      = some ⟨2, 2⟩ ∧
    (⟨0, 0⟩ : P) ≠ ⟨4, 0⟩ ∧ (⟨2, -2⟩ : P) ≠ ⟨2, 2⟩ ∧
    getCollisionDirectedLineSegment 0 1 [⟨0, 0⟩, ⟨4, 0⟩, ⟨0, 4⟩] [⟨-1, 0⟩, ⟨2, -2⟩, ⟨2, 2⟩]
      = .ok [⟨0, 1, ⟨2, 0⟩⟩] ∧
    ∃ res, getCollisionDirectedLineSegment 0 1 [⟨0, 0⟩, ⟨4, 0⟩, ⟨0, 4⟩]
        [⟨-1, 0⟩, ⟨2, -2⟩, ⟨2, 2⟩] = .ok res ∧
      res.length ≤ 1 ∧
      ∀ seg ∈ res, seg.index1 = 0 ∧ seg.index2 = 1 ∧
        onHalfOpen ⟨0, 0⟩ ⟨4, 0⟩ seg.collisionPoint ∧
        onHalfOpen ⟨2, -2⟩ ⟨2, 2⟩ seg.collisionPoint ∧
        (((⟨2, 2⟩ : P).minus ⟨2, -2⟩).cross ((⟨4, 0⟩ : P).minus ⟨0, 0⟩) = 0 →
          seg.collisionPoint = ⟨2, 2⟩ ∨ seg.collisionPoint = ⟨4, 0⟩) :=
  ⟨rfl, rfl, rfl, rfl, by decide!, by decide!, by decide!,
    getCollisionDirectedLineSegment_sound 0 1 [⟨0, 0⟩, ⟨4, 0⟩, ⟨0, 4⟩]
      [⟨-1, 0⟩, ⟨2, -2⟩, ⟨2, 2⟩] ⟨0, 0⟩ ⟨4, 0⟩ ⟨2, -2⟩ ⟨2, 2⟩ rfl rfl rfl rfl
      (by decide!) (by decide!)⟩

/-! ## The variant of the result -/

end Poxelcoll
